import Mathlib

/-!
# GCIF context-modelling codec

A shallow embedding of the encoder `ImageCMWriter` (src/ImageCMWriter.cpp) and of the
decoder `ImageRGBAReader` (src/decoder/ImageRGBAReader.cpp), followed by theorems about them.

Conventions of the embedding.

* Bytes are natural numbers; every store into and every load from a `u8` cell reduces
  modulo 256, every `u16` cell modulo 65536 and every `u32` register modulo 2^32.
* A buffer reached through a raw pointer is a flat memory `Mem`, addressed by the signed
  offset from the pointer.  The functions read and write it exactly where the C++ does,
  whether or not the offset lies inside the allocation; which offsets lie inside is a
  separate question.
* The two nested `for` loops over the pixels are two nested left folds over `List.range`.
* Constants, tables and services that the sources use but that live in files outside
  `src/` (Filters.hpp, ImageCMWriter.hpp, EntropyEncoder.hpp, ...) are fields of `Config`
  (encoder) and `Services` (decoder), or small models written from the specification and
  marked as such.
-/

namespace GCIF

/-! ## Bytes and flat memory -/

/-- Flat byte memory behind a raw pointer, addressed by the signed offset from it. -/
abbrev Mem := Int → Nat

/-- Load of one `u8`. -/
def Mem.load (m : Mem) (a : Int) : Nat := m a % 256

/-- Store of one `u8`. -/
def Mem.store (m : Mem) (a : Int) (v : Nat) : Mem :=
  fun i => if i = a then v % 256 else m i

/-- The macro `CAT_CLR(ptr, size)`: zero `size` bytes starting at `ptr`. -/
def CAT_CLR (m : Mem) (start : Int) (size : Int) : Mem :=
  fun i => if start ≤ i ∧ i < start + size then 0 else m i

/-- Subtraction of two bytes stored back into a `u8` (wraps modulo 256). -/
def u8sub (a b : Nat) : Nat := (a % 256 + 256 - b % 256) % 256

/-- Number of colour planes (`yuv[PLANES]` is indexed up to 3 and the context cells are
addressed with the literal stride 4 in the source). -/
def PLANES : Nat := 4

/-! ## Residual magnitude (ImageCMWriter.cpp, lines 23-43) -/

/-- Function `score` of ImageCMWriter.cpp. -/
def score (p : Nat) : Int :=
  let p := p % 256
  if p < 128 then (p : Int) else 256 - (p : Int)

/-- Function `scoreYUV` of ImageCMWriter.cpp. -/
def scoreYUV (yuv : Nat → Nat) : Int :=
  score (yuv 0) + score (yuv 1) + score (yuv 2)

/-- Function `wrapNeg` of ImageCMWriter.cpp. -/
def wrapNeg (p : Nat) : Int :=
  let p := p % 256
  if p = 0 then 0
  else if p < 128 then (((p - 1) <<< 1 ||| 1 : Nat) : Int)
  else (((256 - p) <<< 1 : Nat) : Int)

/-! ## Encoder configuration -/

/-- The persistent part of an `EntropyEstimator<u8>` as `decideFilters` uses it: the
committed symbols, the symbols pushed since `setup`, and the snapshot taken by `save`. -/
structure EntropyEstimator where
  committed : List Nat
  active : List Nat
  saved : List Nat

/-- Constants, tables and services of the encoder that are declared outside `src/`. -/
structure Config where
  /-- Constant `FILTER_ZONE_SIZE_SHIFT`: log2 of the tile size. -/
  FILTER_ZONE_SIZE_SHIFT : Nat
  /-- Constant `RECENT_SYMS`: size of the recent-symbol window. -/
  RECENT_SYMS : Nat
  /-- Constant `RECENT_AHEAD`. -/
  RECENT_AHEAD : Int
  /-- Constant `SF_COUNT`: size of the spatial filter catalogue. -/
  SF_COUNT : Nat
  /-- Constant `CF_COUNT`: size of the colour filter catalogue. -/
  CF_COUNT : Nat
  /-- Constant `CHAOS_LEVELS`. -/
  CHAOS_LEVELS : Nat
  /-- Constant `UNUSED_FILTER`: the sentinel stored for fully covered tiles. -/
  UNUSED_FILTER : Nat
  /-- Constant `COMPRESS_LEVEL`. -/
  COMPRESS_LEVEL : Nat
  /-- Constant `FILTER_SELECT_FUZZ`. -/
  FILTER_SELECT_FUZZ : Nat
  /-- Table `CHAOS_TABLE`. -/
  CHAOS_TABLE : Nat → Nat
  /-- Function `chaosScore`. -/
  chaosScore : Nat → Nat
  /-- Table `SPATIAL_FILTERS`: `SPATIAL_FILTERS sf rgba p x y width` is the predicted
  byte array returned by filter `sf` for the pixel at offset `p` of the image `rgba`. -/
  SPATIAL_FILTERS : Nat → Mem → Int → Nat → Nat → Nat → Nat → Nat
  /-- Table `RGB2YUV_FILTERS`: `RGB2YUV_FILTERS cf temp` is the `yuv` array written by
  colour filter `cf` for the input array `temp`. -/
  RGB2YUV_FILTERS : Nat → (Nat → Nat) → Nat → Nat
  /-- Method `EntropyEstimator::entropy`, a `double` in the source; only compared. -/
  entropy : EntropyEstimator → Nat
  /-- Method `HuffmanEncoder::init(histogram)`: whether a code could be built. -/
  huffmanInit : List Nat → Bool
  /-- Operator `new[]`: whether a request of that many bytes is satisfied; when it is not,
  `new[]` throws `std::bad_alloc` and the call of the writer does not return. -/
  newOk : Nat → Bool

/-- Constant `FILTER_ZONE_SIZE = 1 << FILTER_ZONE_SIZE_SHIFT`. -/
def Config.FILTER_ZONE_SIZE (K : Config) : Nat := 1 <<< K.FILTER_ZONE_SIZE_SHIFT

/-- Constant `FILTER_ZONE_SIZE_MASK = FILTER_ZONE_SIZE - 1`. -/
def Config.FILTER_ZONE_SIZE_MASK (K : Config) : Nat := K.FILTER_ZONE_SIZE - 1

/-- How a call of the writer ends.  `WE_OK` and `WE_BAD_DIMS` are result codes of
GCIFWriter.h; `WE_OK` is the zero that `if ((err = init(...)))` tests for.  `noReturn` is
no code: the call did not return, because `new[]` threw `std::bad_alloc` or because an
`int` expression overflowed, which leaves the behaviour undefined. -/
inductive WriterResult where
  | WE_OK
  | WE_BAD_DIMS
  | noReturn
deriving DecidableEq, Repr

/-- The value `v` is representable in the type `int` (32 bits, two's complement). -/
def fitsInt (v : Int) : Bool := decide (-2147483648 ≤ v) && decide (v ≤ 2147483647)

/-- What the writer hands to the bit writer, one entry per call, in call order. -/
inductive WriteEvent where
  /-- Call `_sf_encoder.writeTable(writer)`, with the histogram the code was built from. -/
  | sfTable (hist : List Nat)
  /-- Call `_cf_encoder.writeTable(writer)`. -/
  | cfTable (hist : List Nat)
  /-- Call `_encoder[plane][level].writeOverhead(writer)`. -/
  | overhead (plane level : Nat)
  /-- Call `_sf_encoder.writeSymbol(sf, writer)`. -/
  | sfSymbol (sf : Nat)
  /-- Call `_cf_encoder.writeSymbol(cf, writer)`. -/
  | cfSymbol (cf : Nat)
  /-- Call `_encoder[plane][level].encode(sym, writer)`. -/
  | encode (plane level sym : Nat)
deriving DecidableEq, Repr

/-- One call `_encoder[plane][level].push(sym)`. -/
abbrev Push := Nat × Nat × Nat

/-- State of an `ImageCMWriter`.  The entropy coders `_encoder[plane][level]` are
represented by the chronological log of the symbols pushed to them. -/
structure ImageCMWriter where
  _w : Nat
  _h : Nat
  _matrix : Option (Int → Nat)
  _chaos : Option Mem
  _chaos_size : Int
  _width : Nat
  _height : Nat
  _rgba : Mem
  _mask : Nat → Nat → Bool
  _lz : Nat → Nat → Bool
  _encoder : List Push
  _encoder_finalized : Bool
  _sf_unused_sym : Nat
  _cf_unused_sym : Nat
  _sf_encoder : Option (List Nat)
  _cf_encoder : Option (List Nat)

/-! ## Tile map (ImageFilterWriter.hpp, lines 78-88) -/

/-- Method `setFilter`. -/
def ImageCMWriter.setFilter (K : Config) (s : ImageCMWriter) (x y : Nat) (filter : Nat) :
    ImageCMWriter :=
  let filterX := x >>> K.FILTER_ZONE_SIZE_SHIFT
  let filterY := y >>> K.FILTER_ZONE_SIZE_SHIFT
  { s with _matrix := s._matrix.map fun m =>
      fun i => if i = ((filterX + filterY * s._w : Nat) : Int) then filter % 65536 else m i }

/-- Method `getFilter`. -/
def ImageCMWriter.getFilter (K : Config) (s : ImageCMWriter) (x y : Nat) : Nat :=
  let filterX := x >>> K.FILTER_ZONE_SIZE_SHIFT
  let filterY := y >>> K.FILTER_ZONE_SIZE_SHIFT
  match s._matrix with
  | some m => m ((filterX + filterY * s._w : Nat) : Int) % 65536
  | none => 0

/-! ## Initialisation (ImageCMWriter.cpp, lines 48-82) -/

/-- Method `clear`. -/
def ImageCMWriter.clear (s : ImageCMWriter) : ImageCMWriter :=
  { s with _matrix := none, _chaos := none }

/-- Method `init`.  The two `new[]` return uninitialised storage, whose content is the
pair of arguments `heapMatrix`, `heapChaos`, or throw.  Past the two checks `width` and
`height` are positive and are kept as naturals.  The parameters and the expressions
`_w * _h`, `width + RECENT_SYMS` and `(width + RECENT_SYMS) * PLANES` are `int`s: where one
of them does not fit the type, or where a `new[]` throws, the call does not return and the
writer is left as it was at that statement. -/
def ImageCMWriter.init (K : Config) (s : ImageCMWriter) (width height : Int)
    (heapMatrix : Int → Nat) (heapChaos : Mem) : WriterResult × ImageCMWriter :=
  let s := s.clear
  if width < (K.FILTER_ZONE_SIZE : Int) ∨ height < (K.FILTER_ZONE_SIZE : Int) then
    (WriterResult.WE_BAD_DIMS, s)
  else if Int.land width (K.FILTER_ZONE_SIZE_MASK : Int) ≠ 0
      ∨ Int.land height (K.FILTER_ZONE_SIZE_MASK : Int) ≠ 0 then
    (WriterResult.WE_BAD_DIMS, s)
  else
    let s := { s with
      _width := width.toNat
      _height := height.toNat
      _w := (width >>> K.FILTER_ZONE_SIZE_SHIFT).toNat
      _h := (height >>> K.FILTER_ZONE_SIZE_SHIFT).toNat }
    let count := (width >>> K.FILTER_ZONE_SIZE_SHIFT) * (height >>> K.FILTER_ZONE_SIZE_SHIFT)
    if !(fitsInt width && fitsInt height && fitsInt count) then (WriterResult.noReturn, s)
    else if !(K.newOk (2 * count.toNat)) then (WriterResult.noReturn, s)
    else
      let s := { s with _matrix := some heapMatrix }
      let size := (width + (K.RECENT_SYMS : Int)) * (PLANES : Int)
      if !(fitsInt (width + (K.RECENT_SYMS : Int)) && fitsInt size) then
        (WriterResult.noReturn, s)
      else
        let s := { s with _chaos_size := size }
        if !(K.newOk size.toNat) then (WriterResult.noReturn, s)
        else (WriterResult.WE_OK, { s with _chaos := some heapChaos })

/-- The conditions under which `init` gets past its two `new[]`: the parameters, the tile
count `_w * _h` and the two steps of `(width + RECENT_SYMS) * PLANES` fit an `int`, and
both requests (two bytes per tile, `_chaos_size` bytes) are satisfied. -/
def initRoom (K : Config) (width height : Int) : Bool :=
  fitsInt width && fitsInt height
    && fitsInt ((width >>> K.FILTER_ZONE_SIZE_SHIFT) * (height >>> K.FILTER_ZONE_SIZE_SHIFT))
    && K.newOk (2 * ((width >>> K.FILTER_ZONE_SIZE_SHIFT)
        * (height >>> K.FILTER_ZONE_SIZE_SHIFT)).toNat)
    && fitsInt (width + (K.RECENT_SYMS : Int))
    && fitsInt ((width + (K.RECENT_SYMS : Int)) * (PLANES : Int))
    && K.newOk ((width + (K.RECENT_SYMS : Int)) * (PLANES : Int)).toNat

/-! ## Filter selection (ImageCMWriter.cpp, lines 84-271) -/

/-- Modelled from the spec: the filter scorer of section 4.3 (FilterScorer.hpp is not
under src/), a dense array of scores indexed by candidate. -/
structure FilterScorer where
  scores : List Int

/-- Modelled from the spec: `FilterScorer::init(count)`. -/
def FilterScorer.init (count : Nat) : FilterScorer := ⟨List.replicate count 0⟩

/-- Modelled from the spec: `FilterScorer::reset()`. -/
def FilterScorer.reset (f : FilterScorer) : FilterScorer :=
  ⟨List.replicate f.scores.length 0⟩

/-- Modelled from the spec: `FilterScorer::add(index, error)`. -/
def FilterScorer.add (f : FilterScorer) (index : Nat) (error : Int) : FilterScorer :=
  ⟨List.modify (fun v => v + error) index f.scores⟩

/-- Modelled from the spec: `FilterScorer::getTop(k)`, the `k` candidates `(index, score)`
with the smallest scores, equal scores keeping the earlier index first. -/
def FilterScorer.getTop (f : FilterScorer) (k : Nat) : List (Nat × Int) :=
  (List.insertionSort (fun a b : Nat × Int => a.2 ≤ b.2) f.scores.enum).take k

/-- Modelled from the spec: `FilterScorer::getLowest()`, the candidate with the smallest
score, the earlier index on ties. -/
def FilterScorer.getLowest (f : FilterScorer) : Nat × Int :=
  (f.getTop 1).headD (0, 0)

/-- Modelled from the spec: `EntropyEstimator::setup()` of section 4.2. -/
def EntropyEstimator.setup (e : EntropyEstimator) : EntropyEstimator :=
  { e with active := [] }

/-- Modelled from the spec: `EntropyEstimator::push(sym)`. -/
def EntropyEstimator.push (e : EntropyEstimator) (sym : Nat) : EntropyEstimator :=
  { e with active := e.active ++ [sym] }

/-- Modelled from the spec: `EntropyEstimator::save()`. -/
def EntropyEstimator.save (e : EntropyEstimator) : EntropyEstimator :=
  { e with saved := e.active }

/-- Modelled from the spec: `EntropyEstimator::commit()`. -/
def EntropyEstimator.commit (e : EntropyEstimator) : EntropyEstimator :=
  { e with committed := e.committed ++ e.saved }

/-- Start coordinates visited by `for (v = 0; v < n; v += FILTER_ZONE_SIZE)`. -/
def zoneStarts (K : Config) (n : Nat) : List Nat :=
  (List.range ((n + K.FILTER_ZONE_SIZE - 1) / K.FILTER_ZONE_SIZE)).map
    fun t => t * K.FILTER_ZONE_SIZE

/-- The pixels `(px, py)` of the zone at `(x, y)` that the three zone scans of
`decideFilters` do not skip, in scan order (`yy` outer, `xx` inner). -/
def zonePixels (K : Config) (s : ImageCMWriter) (x y : Nat) : List (Nat × Nat) :=
  ((List.range K.FILTER_ZONE_SIZE).flatMap fun yy =>
    (List.range K.FILTER_ZONE_SIZE).map fun xx => (x + xx, y + yy)).filter
      fun q => !(s._mask q.1 q.2) && !(s._lz q.1 q.2)

/-- The `yuv` array computed in `decideFilters` for pixel `(px, py)` under spatial
filter `sf` and colour filter `cf`. -/
def zoneYUV (K : Config) (s : ImageCMWriter) (sf cf px py : Nat) : Nat → Nat :=
  let p : Int := ((px + py * s._width) * 4 : Nat)
  let pred := K.SPATIAL_FILTERS sf s._rgba p px py s._width
  let temp : Nat → Nat := fun jj => u8sub (s._rgba.load (p + (jj : Int))) (pred jj)
  fun c => K.RGB2YUV_FILTERS cf temp c % 256

/-- The scoring scan of one zone: every kept pixel adds `scoreYUV` of its residual to
each candidate `ii + jj * SF_COUNT`. -/
def zoneScores (K : Config) (s : ImageCMWriter) (x y : Nat) (scores : FilterScorer) :
    FilterScorer :=
  (zonePixels K s x y).foldl (fun sc q =>
    (List.range K.SF_COUNT).foldl (fun sc ii =>
      (List.range K.CF_COUNT).foldl (fun sc jj =>
        sc.add (ii + jj * K.SF_COUNT) (scoreYUV (zoneYUV K s ii jj q.1 q.2))) sc) sc) scores

/-- Loop state of the entropy ranking of `decideFilters`. -/
structure RankState where
  ee : Nat → EntropyEstimator
  bestScore : Nat
  bestSF : Nat
  bestCF : Nat

/-- One iteration `ii` of the ranking loop over the top candidates. -/
def rankStep (K : Config) (s : ImageCMWriter) (x y : Nat) (top : List (Nat × Int))
    (r : RankState) (ii : Nat) : RankState :=
  let index := (top.getD ii (0, 0)).1
  let sf := (index % K.SF_COUNT) % 256
  let cf := (index / K.SF_COUNT) % 256
  let ee : Nat → EntropyEstimator := fun jj => if jj < 3 then (r.ee jj).setup else r.ee jj
  let ee := (zonePixels K s x y).foldl (fun (ee : Nat → EntropyEstimator) q =>
    fun jj => if jj < 3 then (ee jj).push (zoneYUV K s sf cf q.1 q.2 jj) else ee jj) ee
  let score := K.entropy (ee 0) + K.entropy (ee 1) + K.entropy (ee 2)
  if ii = 0 then
    { ee := fun jj => if jj < 3 then (ee jj).save else ee jj
      bestScore := score, bestSF := sf, bestCF := cf }
  else if score < r.bestScore then
    { ee := fun jj => if jj < 3 then (ee jj).save else ee jj
      bestScore := score, bestSF := sf, bestCF := cf }
  else
    { r with ee := ee }

/-- The body of the zone loop of `decideFilters` up to the choice of `(bestSF, bestCF)`
(built without `LOWRES_MASK`). -/
def decideZone (K : Config) (s : ImageCMWriter) (x y : Nat) (ee : Nat → EntropyEstimator) :
    (Nat × Nat) × (Nat → EntropyEstimator) :=
  let scores := zoneScores K s x y (FilterScorer.init (K.SF_COUNT * K.CF_COUNT)).reset
  if K.COMPRESS_LEVEL = 0 then
    let best := scores.getLowest
    ((best.1 % K.SF_COUNT, best.1 / K.SF_COUNT), ee)
  else
    let lowest := scores.getLowest
    if lowest.2 ≤ 4 then
      ((lowest.1 % K.SF_COUNT, lowest.1 / K.SF_COUNT), ee)
    else
      let top := scores.getTop K.FILTER_SELECT_FUZZ
      let r := (List.range K.FILTER_SELECT_FUZZ).foldl (rankStep K s x y top)
        { ee := ee, bestScore := 0, bestSF := 0, bestCF := 0 }
      ((r.bestSF, r.bestCF), fun jj => if jj < 3 then (r.ee jj).commit else r.ee jj)

/-- Method `decideFilters`. -/
def ImageCMWriter.decideFilters (K : Config) (s : ImageCMWriter) : ImageCMWriter :=
  let ee0 : Nat → EntropyEstimator := fun _ => { committed := [], active := [], saved := [] }
  ((zoneStarts K s._height).foldl (fun acc y =>
    (zoneStarts K s._width).foldl (fun (acc : ImageCMWriter × (Nat → EntropyEstimator)) x =>
      let r := decideZone K acc.1 x y acc.2
      let filter := (((r.1.1 % 65536) <<< 8) ||| r.1.2) % 65536
      (acc.1.setFilter K x y filter, r.2)) acc) (s, ee0)).1

/-! ## Statistics pass (ImageCMWriter.cpp, lines 273-364) -/

/-- The body of the pixel loop of `chaosStats` at `(x, y)`, acting on the context memory
behind `_chaos` and on the log of pushed symbols. -/
def chaosStatsPixel (K : Config) (s : ImageCMWriter) (y : Nat) (st : Mem × List Push)
    (x : Nat) : Mem × List Push :=
  let width := s._width
  let p : Int := ((x + y * width) * 4 : Nat)
  let last : Int := (K.RECENT_SYMS : Int) * (PLANES : Int) + (x : Int) * (PLANES : Int)
  if !(s._lz x y) && !(s._mask x y) then
    let filter := s.getFilter K x y
    let cf := filter % 256
    let sf := (filter >>> 8) % 256
    let pred := K.SPATIAL_FILTERS sf s._rgba p x y width
    let temp : Nat → Nat := fun jj => u8sub (s._rgba.load (p + (jj : Int))) (pred jj)
    let yuv : Nat → Nat := fun c =>
      if c < 3 then K.RGB2YUV_FILTERS cf temp c % 256
      else if x > 0 then u8sub (s._rgba.load (p - 1)) (s._rgba.load (p + 3))
      else u8sub 255 (s._rgba.load (p + 3))
    let nonzero : Int := (if yuv 0 ≠ 0 then 1 else 0) + (if yuv 1 ≠ 0 then 1 else 0)
      + (if yuv 2 ≠ 0 then 1 else 0) + (if yuv 3 ≠ 0 then 1 else 0)
    let found : Option Nat :=
      if nonzero ≥ 0 then
        (List.range K.RECENT_SYMS).find? fun ii =>
          let offset : Int := (ii : Int) - K.RECENT_AHEAD
          yuv 0 == st.1.load (last + (0 - offset * 4))
            && yuv 1 == st.1.load (last + (1 - offset * 4))
            && yuv 2 == st.1.load (last + (2 - offset * 4))
            && yuv 3 == st.1.load (last + (3 - offset * 4))
      else none
    (List.range PLANES).foldl (fun (acc : Mem × List Push) (c : Nat) =>
      let chaos := K.CHAOS_TABLE (K.chaosScore (acc.1.load (last + ((c : Int) - 4)))
        + K.chaosScore (acc.1.load (last + (c : Int)))) % 256
      let log := match found with
        | none => acc.2 ++ [(c, chaos, yuv c)]
        | some ii => if c = 0 then acc.2 ++ [(0, chaos, 256 + ii)] else acc.2
      (acc.1.store (last + (c : Int)) (yuv c), log)) st
  else
    (List.range PLANES).foldl (fun (acc : Mem × List Push) (c : Nat) =>
      (acc.1.store (last + (c : Int)) 0, acc.2)) st

/-- The first `n` pixels of scanline `y` in `chaosStats`. -/
def chaosStatsRow (K : Config) (s : ImageCMWriter) (y n : Nat) (st : Mem × List Push) :
    Mem × List Push :=
  (List.range n).foldl (chaosStatsPixel K s y) st

/-- The first `n` scanlines in `chaosStats`. -/
def chaosStatsRows (K : Config) (s : ImageCMWriter) (n : Nat) (st : Mem × List Push) :
    Mem × List Push :=
  (List.range n).foldl (fun st y => chaosStatsRow K s y s._width st) st

/-- The context memory and push log with which the scan of `chaosStats` starts. -/
def chaosStatsStart (K : Config) (s : ImageCMWriter) (chaos : Mem) : Mem × List Push :=
  (CAT_CLR chaos ((K.RECENT_SYMS : Int) * (PLANES : Int)) s._chaos_size, s._encoder)

/-- Method `chaosStats` (built without `GENERATE_CHAOS_TABLE`). -/
def ImageCMWriter.chaosStats (K : Config) (s : ImageCMWriter) : ImageCMWriter :=
  match s._chaos with
  | none => s
  | some chaos =>
    let st := chaosStatsRows K s s._height (chaosStatsStart K s chaos)
    { s with _chaos := some st.1, _encoder := st.2, _encoder_finalized := true }

/-- Method `initFromRGBA` (built without `TEST_COLOR_FILTERS`). -/
def ImageCMWriter.initFromRGBA (K : Config) (s : ImageCMWriter) (rgba : Mem)
    (width height : Int) (mask lz : Nat → Nat → Bool)
    (heapMatrix : Int → Nat) (heapChaos : Mem) : WriterResult × ImageCMWriter :=
  match s.init K width height heapMatrix heapChaos with
  | (WriterResult.WE_OK, s) =>
    let s := { s with _rgba := rgba, _mask := mask, _lz := lz }
    let s := s.decideFilters K
    let s := s.chaosStats K
    (WriterResult.WE_OK, s)
  | (err, s) => (err, s)

/-! ## Tile map header (ImageCMWriter.cpp, lines 435-502) -/

/-- Modelled from the spec: the frequency histogram `FreqHistogram<N>` handed to the
Huffman builder (its header is not under src/), one count per symbol. -/
structure FreqHistogram where
  hist : List Nat

/-- Modelled from the spec: a fresh `FreqHistogram<N>`, all counts zero. -/
def FreqHistogram.init (n : Nat) : FreqHistogram := ⟨List.replicate n 0⟩

/-- Modelled from the spec: `FreqHistogram::addMore(sym, count)`. -/
def FreqHistogram.addMore (h : FreqHistogram) (sym count : Nat) : FreqHistogram :=
  ⟨List.modify (fun v => v + count) sym h.hist⟩

/-- Modelled from the spec: `FreqHistogram::add(sym)`. -/
def FreqHistogram.add (h : FreqHistogram) (sym : Nat) : FreqHistogram := h.addMore sym 1

/-- Modelled from the spec: `FreqHistogram::firstHighestPeak()`, the first symbol whose
count is the largest (the most common symbol). -/
def FreqHistogram.firstHighestPeak (h : FreqHistogram) : Nat :=
  (List.range h.hist.length).foldl
    (fun best i => if h.hist.getD best 0 < h.hist.getD i 0 then i else best) 0

/-- Loop state of the zone scan of `writeFilters`. -/
structure FilterScan where
  writer : ImageCMWriter
  sf_hist : FreqHistogram
  cf_hist : FreqHistogram
  unused_count : Nat

/-- The flag `on` of `writeFilters` for the zone at `(x, y)`: some pixel of the zone is
covered neither by LZ nor by the mask. -/
def zoneOn (K : Config) (s : ImageCMWriter) (x y : Nat) : Bool :=
  (List.range K.FILTER_ZONE_SIZE).any fun ii =>
    (List.range K.FILTER_ZONE_SIZE).any fun jj =>
      !(s._lz (x + ii) (y + jj)) && !(s._mask (x + ii) (y + jj))

/-- The body of the zone loop of `writeFilters` (built without `LOWRES_MASK`). -/
def writeFiltersZone (K : Config) (y : Nat) (acc : FilterScan) (x : Nat) : FilterScan :=
  if zoneOn K acc.writer x y then
    let filter := acc.writer.getFilter K x y
    let cf := filter % 256
    let sf := (filter >>> 8) % 256
    { acc with sf_hist := acc.sf_hist.add sf, cf_hist := acc.cf_hist.add cf }
  else
    { acc with
      writer := acc.writer.setFilter K x y K.UNUSED_FILTER
      unused_count := (acc.unused_count + 1) % 2 ^ 32 }

/-- The zone scan of `writeFilters`. -/
def writeFiltersScan (K : Config) (s : ImageCMWriter) : FilterScan :=
  (zoneStarts K s._height).foldl (fun acc y =>
    (zoneStarts K s._width).foldl (writeFiltersZone K y) acc)
    { writer := s, sf_hist := FreqHistogram.init K.SF_COUNT,
      cf_hist := FreqHistogram.init K.CF_COUNT, unused_count := 0 }

/-- Method `writeFilters`; `writer` is the sequence of events already written. -/
def ImageCMWriter.writeFilters (K : Config) (s : ImageCMWriter) (writer : List WriteEvent) :
    Bool × ImageCMWriter × List WriteEvent :=
  let scan := writeFiltersScan K s
  let s := scan.writer
  let s := { s with _sf_unused_sym := scan.sf_hist.firstHighestPeak }
  let s := { s with _cf_unused_sym := scan.cf_hist.firstHighestPeak }
  let sf_hist := scan.sf_hist.addMore s._sf_unused_sym scan.unused_count
  let cf_hist := scan.cf_hist.addMore s._cf_unused_sym scan.unused_count
  if !K.huffmanInit sf_hist.hist then (false, s, writer)
  else
    let s := { s with _sf_encoder := some sf_hist.hist }
    if !K.huffmanInit cf_hist.hist then (false, s, writer)
    else
      let s := { s with _cf_encoder := some cf_hist.hist }
      (true, s, writer ++ [WriteEvent.sfTable sf_hist.hist, WriteEvent.cfTable cf_hist.hist])

/-! ## Emission pass (ImageCMWriter.cpp, lines 504-672) -/

/-- The body of the pixel loop of `writeChaos` at `(x, y)`, acting on the context memory
behind `_chaos` and on the events written so far. -/
def writeChaosPixel (K : Config) (s : ImageCMWriter) (y : Nat) (st : Mem × List WriteEvent)
    (x : Nat) : Mem × List WriteEvent :=
  let width := s._width
  let p : Int := ((x + y * width) * 4 : Nat)
  let last : Int := (K.RECENT_SYMS : Int) * (PLANES : Int) + (x : Int) * (PLANES : Int)
  let writer : List WriteEvent :=
    if x &&& K.FILTER_ZONE_SIZE_MASK = 0 ∧ y &&& K.FILTER_ZONE_SIZE_MASK = 0 then
      let filter := s.getFilter K x y
      let sf := if filter = K.UNUSED_FILTER then s._sf_unused_sym % 256 else (filter >>> 8) % 256
      let cf := if filter = K.UNUSED_FILTER then s._cf_unused_sym % 256 else filter % 256
      st.2 ++ [WriteEvent.sfSymbol sf, WriteEvent.cfSymbol cf]
    else st.2
  if !(s._lz x y) && !(s._mask x y) then
    let filter := s.getFilter K x y
    let cf := filter % 256
    let sf := (filter >>> 8) % 256
    let pred := K.SPATIAL_FILTERS sf s._rgba p x y width
    let temp : Nat → Nat := fun jj => u8sub (s._rgba.load (p + (jj : Int))) (pred jj)
    let yuv : Nat → Nat := fun c =>
      if c < 3 then K.RGB2YUV_FILTERS cf temp c % 256
      else if x > 0 then u8sub (s._rgba.load (p - 1)) (s._rgba.load (p + 3))
      else u8sub 255 (s._rgba.load (p + 3))
    let nonzero : Int := (if yuv 0 ≠ 0 then 1 else 0) + (if yuv 1 ≠ 0 then 1 else 0)
      + (if yuv 2 ≠ 0 then 1 else 0) + (if yuv 3 ≠ 0 then 1 else 0)
    let found : Option Nat :=
      if nonzero ≥ 0 then
        (List.range K.RECENT_SYMS).find? fun ii =>
          let offset : Int := (ii : Int) - K.RECENT_AHEAD
          yuv 0 == st.1.load (last + (0 - offset * 4))
            && yuv 1 == st.1.load (last + (1 - offset * 4))
            && yuv 2 == st.1.load (last + (2 - offset * 4))
            && yuv 3 == st.1.load (last + (3 - offset * 4))
      else none
    (List.range PLANES).foldl (fun (acc : Mem × List WriteEvent) (c : Nat) =>
      let chaos := K.CHAOS_TABLE (K.chaosScore (acc.1.load (last + ((c : Int) - 4)))
        + K.chaosScore (acc.1.load (last + (c : Int)))) % 256
      let out := match found with
        | none => acc.2 ++ [WriteEvent.encode c chaos (yuv c)]
        | some ii => if c = 0 then acc.2 ++ [WriteEvent.encode c chaos (256 + ii)] else acc.2
      (acc.1.store (last + (c : Int)) (yuv c), out)) (st.1, writer)
  else
    (List.range PLANES).foldl (fun (acc : Mem × List WriteEvent) (c : Nat) =>
      (acc.1.store (last + (c : Int)) 0, acc.2)) (st.1, writer)

/-- The first `n` pixels of scanline `y` in `writeChaos`. -/
def writeChaosRow (K : Config) (s : ImageCMWriter) (y n : Nat) (st : Mem × List WriteEvent) :
    Mem × List WriteEvent :=
  (List.range n).foldl (writeChaosPixel K s y) st

/-- The first `n` scanlines in `writeChaos`. -/
def writeChaosRows (K : Config) (s : ImageCMWriter) (n : Nat) (st : Mem × List WriteEvent) :
    Mem × List WriteEvent :=
  (List.range n).foldl (fun st y => writeChaosRow K s y s._width st) st

/-- The coder tables written at the head of `writeChaos`, in the order of its two loops. -/
def writeChaosOverhead (K : Config) : List WriteEvent :=
  (List.range PLANES).flatMap fun ii =>
    (List.range K.CHAOS_LEVELS).map fun jj => WriteEvent.overhead ii jj

/-- The context memory and event sequence with which the scan of `writeChaos` starts. -/
def writeChaosStart (K : Config) (s : ImageCMWriter) (chaos : Mem) (writer : List WriteEvent) :
    Mem × List WriteEvent :=
  (CAT_CLR chaos ((K.RECENT_SYMS : Int) * (PLANES : Int)) s._chaos_size,
    writer ++ writeChaosOverhead K)

/-- Method `writeChaos` (built without `CAT_COLLECT_STATS`). -/
def ImageCMWriter.writeChaos (K : Config) (s : ImageCMWriter) (writer : List WriteEvent) :
    Bool × ImageCMWriter × List WriteEvent :=
  match s._chaos with
  | none => (true, s, writer ++ writeChaosOverhead K)
  | some chaos =>
    let st := writeChaosRows K s s._height (writeChaosStart K s chaos writer)
    (true, { s with _chaos := some st.1 }, st.2)

/-- Method `write` (built without `CAT_COLLECT_STATS`); the results of `writeFilters`
and `writeChaos` are discarded as in the source. -/
def ImageCMWriter.write (K : Config) (s : ImageCMWriter) (writer : List WriteEvent) :
    ImageCMWriter × List WriteEvent :=
  let r := s.writeFilters K writer
  let r := r.2.1.writeChaos K r.2.2
  (r.2.1, r.2.2)

/-! ## Decoder (src/decoder/ImageRGBAReader.cpp)

The decoder is embedded as built by default, without `CAT_DESYNCH_CHECKS`,
`CAT_COLLECT_STATS` and `CAT_DUMP_FILTERS`. -/

/-- Modelled from the spec: the bit reader `ImageReader` of section 6 (its source is not
under src/).  `bits` are the bits not yet consumed, `pos` counts the bits asked for so
far, `eof` records that a read ran past the end of the data. -/
structure ImageReader where
  bits : List Bool
  pos : Nat
  eof : Bool
deriving DecidableEq, Repr

/-- Modelled from the spec: `ImageReader::readBits(n)`, the next `n` bits as a number,
most significant bit first; bits past the end of the data read as zero. -/
def ImageReader.readBits (r : ImageReader) (n : Nat) : Nat × ImageReader :=
  (((r.bits.take n) ++ List.replicate (n - r.bits.length) false).foldl
      (fun acc b => 2 * acc + (if b then 1 else 0)) 0,
    { bits := r.bits.drop n, pos := r.pos + n, eof := r.eof || decide (r.bits.length < n) })

/-- Result codes of the reader (GCIFReader.h): `GCIF_RE_OK` is the zero that
`if ((err = ...))` tests for, `other` stands for the further non-zero codes that the
sub-decoders may return. -/
inductive ReadResult where
  | GCIF_RE_OK
  | GCIF_RE_BAD_RGBA
  | other (code : Nat)
deriving DecidableEq, Repr

/-- The record `MonoReader::Parameters` as filled in by the reader; `data` names the
tile array it points to (0: `_sf_tiles`, 1: `_cf_tiles`, 2: `_a_tiles`). -/
structure MonoParameters where
  data : Nat
  xsize : Nat
  ysize : Nat
  num_syms : Nat
  min_bits : Nat
  max_bits : Nat
deriving DecidableEq, Repr

/-- State of an `ImageRGBAReader`.  `Mono`, `Ent`, `Chaos` and `Mask` are the states of
the classes `MonoReader`, `EntropyDecoder`, `RGBChaos` and `ImageMaskReader`, none of
which is under src/.  `image_rgba` is the caller-owned buffer behind `image->rgba`, one
32-bit word per pixel, and `_rgba` tells whether the member pointer to it is set. -/
structure ImageRGBAReader (Mono Ent Chaos Mask : Type) where
  _mask : Mask
  _rgba : Bool
  image_rgba : Nat → Nat
  _xsize : Nat
  _ysize : Nat
  _tile_bits_x : Nat
  _tile_bits_y : Nat
  _tile_xsize : Nat
  _tile_ysize : Nat
  _tile_mask_x : Nat
  _tile_mask_y : Nat
  _tiles_x : Nat
  _tiles_y : Nat
  _filters : List (Option (Nat × Nat))
  _sf_tiles : Nat
  _cf_tiles : Nat
  _a_tiles : Nat
  _sf_count : Nat
  _sf : Nat → Nat
  _sf_decoder : Mono
  _cf_decoder : Mono
  _a_decoder : Mono
  _chaos : Chaos
  _y_decoder : Nat → Ent
  _u_decoder : Nat → Ent
  _v_decoder : Nat → Ent

/-- Constants and services of the decoder that are declared outside `src/`. -/
structure Services (Mono Ent Chaos Mask : Type) where
  SF_COUNT : Nat
  CF_COUNT : Nat
  NUM_Y_SYMS : Nat
  NUM_U_SYMS : Nat
  NUM_V_SYMS : Nat
  NUM_ZRLE_SYMS : Nat
  HUFF_LUT_BITS : Nat
  /-- Build flag `CAT_UNROLL_READER`. -/
  CAT_UNROLL_READER : Bool
  /-- Function `getLE`. -/
  getLE : Nat → Nat
  /-- Method `MonoReader::readTables(params, reader)`. -/
  monoReadTables : MonoParameters → Mono → ImageReader → ReadResult × Mono × ImageReader
  /-- Method `MonoReader::setupUnordered()`. -/
  monoSetupUnordered : Mono → Mono
  /-- Method `MonoReader::readRowHeader(y, reader)`; its result is not used by the reader. -/
  monoReadRowHeader : Nat → Mono → ImageReader → Mono × ImageReader
  /-- Method `MonoReader::masked(x)`; the column is the `int` (or `u16`) of the caller. -/
  monoMasked : Int → Mono → Mono
  /-- The store `*(currentRow() + x) = value` into the row buffer of a `MonoReader`. -/
  monoStoreCurrentRow : Int → Nat → Mono → Mono
  /-- Method `EntropyDecoder::init(num_syms, zrle_syms, lut_bits, reader)`. -/
  entropyInit : Nat → Nat → Nat → Ent → ImageReader → Bool × Ent × ImageReader
  /-- Method `RGBChaos::init(levels, xsize)`. -/
  chaosInit : Nat → Nat → Chaos → Chaos
  /-- Method `RGBChaos::start()`. -/
  chaosStart : Chaos → Chaos
  /-- Method `RGBChaos::zero(x)`. -/
  chaosZero : Int → Chaos → Chaos
  /-- Method `ImageMaskReader::getColor()`. -/
  maskGetColor : Mask → Nat
  /-- Method `ImageMaskReader::nextScanline()`: the 32-bit words of the next scanline. -/
  maskNextScanline : Mask → (Nat → Nat) × Mask
  /-- Method `readSafe(x, y, p, reader)`, `x` the `int` of the caller, `p` counted in pixels;
  it returns nothing. -/
  readSafe : Int → Nat → Nat → ImageRGBAReader Mono Ent Chaos Mask × ImageReader →
    ImageRGBAReader Mono Ent Chaos Mask × ImageReader
  /-- Method `readUnsafe(x, y, p, reader)`, `x` the `int` of the caller, `p` counted in
  pixels; it returns nothing. -/
  readUnsafe : Int → Nat → Nat → ImageRGBAReader Mono Ent Chaos Mask × ImageReader →
    ImageRGBAReader Mono Ent Chaos Mask × ImageReader

section Decoder

variable {Mono Ent Chaos Mask : Type}

/-- The store `_sf[ii] = RGBA_FILTERS[sf]`; `RGBA_FILTERS[sf]` is represented by `sf`. -/
def ImageRGBAReader.storeSf (s : ImageRGBAReader Mono Ent Chaos Mask) (ii sf : Nat) :
    ImageRGBAReader Mono Ent Chaos Mask :=
  { s with _sf := fun k => if k = ii then sf else s._sf k }

/-- The loop `for (ii = 0; ii < _sf_count; ++ii)` of `readFilterTables`, with `n`
iterations left from index `ii`. -/
def readFilterChoices (S : Services Mono Ent Chaos Mask) :
    Nat → Nat → ImageRGBAReader Mono Ent Chaos Mask → ImageReader →
      ReadResult × ImageRGBAReader Mono Ent Chaos Mask × ImageReader
  | 0, _, s, reader => (ReadResult.GCIF_RE_OK, s, reader)
  | n + 1, ii, s, reader =>
    let r := reader.readBits 7
    let sf := r.1 % 256
    if sf ≥ S.SF_COUNT then (ReadResult.GCIF_RE_BAD_RGBA, s, r.2)
    else
      readFilterChoices S n (ii + 1) (s.storeSf ii sf) r.2

/-- The part of `readFilterTables` before the filter choices are read. -/
def ImageRGBAReader.readTileBits (s : ImageRGBAReader Mono Ent Chaos Mask)
    (reader : ImageReader) : ImageRGBAReader Mono Ent Chaos Mask × ImageReader :=
  let r := reader.readBits 3
  let s := { s with _tile_bits_x := r.1 + 1 }
  let s := { s with _tile_bits_y := s._tile_bits_x }
  let s := { s with _tile_xsize := 1 <<< s._tile_bits_x }
  let s := { s with _tile_ysize := 1 <<< s._tile_bits_y }
  let s := { s with _tile_mask_x := s._tile_xsize - 1 }
  let s := { s with _tile_mask_y := s._tile_ysize - 1 }
  let s := { s with _tiles_x := (s._xsize + s._tile_mask_x) >>> s._tile_bits_x }
  let s := { s with _tiles_y := (s._ysize + s._tile_mask_y) >>> s._tile_bits_y }
  let s := { s with _filters := List.replicate s._tiles_x none }
  let tile_count := s._tiles_x * s._tiles_y
  let s := { s with _sf_tiles := tile_count, _cf_tiles := tile_count }
  (s, r.2)

/-- The part of `readFilterTables` after the filter choices: the SF and CF decoders. -/
def ImageRGBAReader.readFilterDecoders (S : Services Mono Ent Chaos Mask)
    (s : ImageRGBAReader Mono Ent Chaos Mask) (reader : ImageReader) :
    ReadResult × ImageRGBAReader Mono Ent Chaos Mask × ImageReader :=
  let params : MonoParameters :=
    { data := 0, xsize := s._tiles_x, ysize := s._tiles_y, num_syms := s._sf_count
      min_bits := 2, max_bits := 5 }
  match S.monoReadTables params s._sf_decoder reader with
  | (ReadResult.GCIF_RE_OK, d, reader) =>
    let s := { s with _sf_decoder := d }
    let params : MonoParameters :=
      { data := 1, xsize := s._tiles_x, ysize := s._tiles_y, num_syms := S.CF_COUNT
        min_bits := 2, max_bits := 5 }
    match S.monoReadTables params s._cf_decoder reader with
    | (ReadResult.GCIF_RE_OK, d, reader) =>
      (ReadResult.GCIF_RE_OK, { s with _cf_decoder := d }, reader)
    | (err, d, reader) => (err, { s with _cf_decoder := d }, reader)
  | (err, d, reader) => (err, { s with _sf_decoder := d }, reader)

/-- Method `readFilterTables`. -/
def ImageRGBAReader.readFilterTables (S : Services Mono Ent Chaos Mask)
    (s : ImageRGBAReader Mono Ent Chaos Mask) (reader : ImageReader) :
    ReadResult × ImageRGBAReader Mono Ent Chaos Mask × ImageReader :=
  let t := s.readTileBits reader
  let r := t.2.readBits 5
  let s := { t.1 with _sf_count := r.1 + 1 }
  match readFilterChoices S s._sf_count 0 s r.2 with
  | (ReadResult.GCIF_RE_OK, s, reader) => s.readFilterDecoders S reader
  | (err, s, reader) => (err, s, reader)

/-- The loop `for (jj = 0; jj < chaos_levels; ++jj)` of `readRGBATables`, with `n`
iterations left from index `jj`. -/
def readChaosLevels (S : Services Mono Ent Chaos Mask) :
    Nat → Nat → ImageRGBAReader Mono Ent Chaos Mask → ImageReader →
      ReadResult × ImageRGBAReader Mono Ent Chaos Mask × ImageReader
  | 0, _, s, reader => (ReadResult.GCIF_RE_OK, s, reader)
  | n + 1, jj, s, reader =>
    let r := S.entropyInit S.NUM_Y_SYMS S.NUM_ZRLE_SYMS S.HUFF_LUT_BITS (s._y_decoder jj) reader
    let s := { s with _y_decoder := fun k => if k = jj then r.2.1 else s._y_decoder k }
    if !r.1 then (ReadResult.GCIF_RE_BAD_RGBA, s, r.2.2)
    else
      let r := S.entropyInit S.NUM_U_SYMS S.NUM_ZRLE_SYMS S.HUFF_LUT_BITS (s._u_decoder jj) r.2.2
      let s := { s with _u_decoder := fun k => if k = jj then r.2.1 else s._u_decoder k }
      if !r.1 then (ReadResult.GCIF_RE_BAD_RGBA, s, r.2.2)
      else
        let r := S.entropyInit S.NUM_V_SYMS S.NUM_ZRLE_SYMS S.HUFF_LUT_BITS (s._v_decoder jj)
          r.2.2
        let s := { s with _v_decoder := fun k => if k = jj then r.2.1 else s._v_decoder k }
        if !r.1 then (ReadResult.GCIF_RE_BAD_RGBA, s, r.2.2)
        else readChaosLevels S n (jj + 1) s r.2.2

/-- Method `readRGBATables`. -/
def ImageRGBAReader.readRGBATables (S : Services Mono Ent Chaos Mask)
    (s : ImageRGBAReader Mono Ent Chaos Mask) (reader : ImageReader) :
    ReadResult × ImageRGBAReader Mono Ent Chaos Mask × ImageReader :=
  let pixel_count := s._xsize * s._ysize
  let s := { s with _a_tiles := pixel_count }
  let params : MonoParameters :=
    { data := 2, xsize := s._xsize, ysize := s._ysize, num_syms := 256
      min_bits := 2, max_bits := 5 }
  match S.monoReadTables params s._a_decoder reader with
  | (ReadResult.GCIF_RE_OK, d, reader) =>
    let s := { s with _a_decoder := d }
    let r := reader.readBits 4
    let chaos_levels := r.1 + 1
    let s := { s with _chaos := S.chaosInit chaos_levels s._xsize s._chaos }
    readChaosLevels S chaos_levels 0 s r.2
  | (err, d, reader) => (err, { s with _a_decoder := d }, reader)

/-- Loop state of `readPixels`: the reader object, the bit reader, the output pointer
`p` (counted in pixels from `_rgba`), and the registers of the mask scan: the index of
the word `mask_next` points to, `mask_left` and `mask`. -/
structure PixelScan (Mono Ent Chaos Mask : Type) where
  self : ImageRGBAReader Mono Ent Chaos Mask
  reader : ImageReader
  p : Nat
  mask_next : Nat
  mask_left : Int
  mask : Nat

/-- The branch taken in `readPixels` when the mask bit is set: write `MASK_COLOR` to
the pixel at `p`, `MASK_ALPHA` into the alpha row, zero the chaos context at `x` and
tell the alpha decoder. -/
def ImageRGBAReader.maskedPixel (S : Services Mono Ent Chaos Mask)
    (s : ImageRGBAReader Mono Ent Chaos Mask) (x : Int) (p MASK_COLOR MASK_ALPHA : Nat) :
    ImageRGBAReader Mono Ent Chaos Mask :=
  let s := { s with image_rgba := fun i => if i = p then MASK_COLOR % 2 ^ 32 else s.image_rgba i }
  let s := { s with _a_decoder := S.monoStoreCurrentRow x MASK_ALPHA s._a_decoder }
  let s := { s with _chaos := S.chaosZero x s._chaos }
  { s with _a_decoder := S.monoMasked x s._a_decoder }

/-- The part of a pixel body of `readPixels` after the mask word has been fetched:
the test `(s32)mask < 0`, the two branches (`decode` is `readSafe` or `readUnsafe`),
and `p += 4`.  The column `x` is the `int` of the source. -/
def pixelBody (S : Services Mono Ent Chaos Mask) (MASK_COLOR MASK_ALPHA : Nat)
    (decode : Int → Nat → Nat → ImageRGBAReader Mono Ent Chaos Mask × ImageReader →
      ImageRGBAReader Mono Ent Chaos Mask × ImageReader)
    (y : Nat) (st : PixelScan Mono Ent Chaos Mask) (x : Int) : PixelScan Mono Ent Chaos Mask :=
  if st.mask % 2 ^ 32 ≥ 2 ^ 31 then
    { st with self := st.self.maskedPixel S x st.p MASK_COLOR MASK_ALPHA, p := st.p + 1 }
  else
    let r := decode x y st.p (st.self, st.reader)
    { st with self := r.1, reader := r.2, p := st.p + 1 }

/-- The statement `if (mask_left-- <= 0) { mask = *mask_next++; mask_left = 31; }`. -/
def nextMaskWord (words : Nat → Nat) (st : PixelScan Mono Ent Chaos Mask) :
    PixelScan Mono Ent Chaos Mask :=
  if st.mask_left ≤ 0 then
    { st with mask := words st.mask_next % 2 ^ 32, mask_next := st.mask_next + 1, mask_left := 31 }
  else
    { st with mask_left := st.mask_left - 1 }

/-- The statement `mask <<= 1` on the `u32` register. -/
def shiftMask (st : PixelScan Mono Ent Chaos Mask) : PixelScan Mono Ent Chaos Mask :=
  { st with mask := (st.mask * 2) % 2 ^ 32 }

/-- The body of the pixel loop of the plain `readPixels` (lines 399-421), also the body
of the scanline `y = 0` of the unrolled one (lines 227-249). -/
def readPixelsPixel (S : Services Mono Ent Chaos Mask) (MASK_COLOR MASK_ALPHA : Nat)
    (words : Nat → Nat) (y : Nat) (st : PixelScan Mono Ent Chaos Mask) (x : Nat) :
    PixelScan Mono Ent Chaos Mask :=
  shiftMask (pixelBody S MASK_COLOR MASK_ALPHA S.readSafe y (nextMaskWord words st) (x : Int))

/-- The statements of `readPixels` run when a scanline starts a new row of tiles:
`zeroHoles` tells whether the loop over the filter holes is run, then the filters are
cleared and the two row headers are read. -/
def tileRowStart (S : Services Mono Ent Chaos Mask) (zeroHoles : Bool) (y : Nat)
    (st : PixelScan Mono Ent Chaos Mask) : PixelScan Mono Ent Chaos Mask :=
  let s := st.self
  let s :=
    if zeroHoles then
      (List.range (s._tiles_x % 65536)).foldl (fun (s : ImageRGBAReader Mono Ent Chaos Mask) tx =>
        if !((s._filters.getD tx none).isSome) then
          let s := { s with _sf_decoder := S.monoMasked (tx : Int) s._sf_decoder }
          { s with _cf_decoder := S.monoMasked (tx : Int) s._cf_decoder }
        else s) s
    else s
  let s := { s with _filters := List.replicate s._filters.length none }
  let ty := (y >>> s._tile_bits_y) % 65536
  let r := S.monoReadRowHeader ty s._sf_decoder st.reader
  let s := { s with _sf_decoder := r.1 }
  let r := S.monoReadRowHeader ty s._cf_decoder r.2
  let s := { s with _cf_decoder := r.1 }
  { st with self := s, reader := r.2 }

/-- The statements of a scanline of `readPixels` between the tile-row block and the
first pixel: the alpha row header, the fetch of the mask scanline and the reset of
`mask_left`; returns the words of the scanline too. -/
def scanlineStart (S : Services Mono Ent Chaos Mask) (y : Nat)
    (st : PixelScan Mono Ent Chaos Mask) : (Nat → Nat) × PixelScan Mono Ent Chaos Mask :=
  let r := S.monoReadRowHeader y st.self._a_decoder st.reader
  let s := { st.self with _a_decoder := r.1 }
  let m := S.maskNextScanline s._mask
  let s := { s with _mask := m.2 }
  (m.1, { st with self := s, reader := r.2, mask_next := 0, mask_left := 0 })

/-- The body of the scanline loop of the plain `readPixels` (lines 368-422); `xsize` is
the local constant of that name. -/
def readPixelsRow (S : Services Mono Ent Chaos Mask) (MASK_COLOR MASK_ALPHA xsize : Nat)
    (st : PixelScan Mono Ent Chaos Mask) (y : Nat) : PixelScan Mono Ent Chaos Mask :=
  let st := if y &&& st.self._tile_mask_y = 0 then tileRowStart S (decide (y > 0)) y st else st
  let r := scanlineStart S y st
  (List.range xsize).foldl (readPixelsPixel S MASK_COLOR MASK_ALPHA r.1 y) r.2

/-- The scanline `y = 0` of the unrolled `readPixels` (lines 209-250). -/
def readPixelsRowZero (S : Services Mono Ent Chaos Mask) (MASK_COLOR MASK_ALPHA xsize : Nat)
    (st : PixelScan Mono Ent Chaos Mask) : PixelScan Mono Ent Chaos Mask :=
  let st := tileRowStart S false 0 st
  let r := scanlineStart S 0 st
  (List.range xsize).foldl (readPixelsPixel S MASK_COLOR MASK_ALPHA r.1 0) r.2

/-- The body of the scanline loop `y >= 1` of the unrolled `readPixels` (lines 254-363):
the pixel `x = 0`, the inner loop over `1 <= x < xsize - 1` with `readUnsafe`, and the
pixel of the right edge with `const int x = xsize - 1`, which is `-1` when `xsize` is 0. -/
def readPixelsRowUnrolled (S : Services Mono Ent Chaos Mask)
    (MASK_COLOR MASK_ALPHA xsize : Nat) (st : PixelScan Mono Ent Chaos Mask) (y : Nat) :
    PixelScan Mono Ent Chaos Mask :=
  let st := if y &&& st.self._tile_mask_y = 0 then tileRowStart S true y st else st
  let r := scanlineStart S y st
  let words := r.1
  let st := r.2
  let st := { st with mask := words st.mask_next % 2 ^ 32, mask_next := st.mask_next + 1,
                      mask_left := 31 }
  let st := shiftMask (pixelBody S MASK_COLOR MASK_ALPHA S.readSafe y st 0)
  let st := ((List.range (xsize - 1)).drop 1).foldl (fun st (x : Nat) =>
    shiftMask (pixelBody S MASK_COLOR MASK_ALPHA S.readUnsafe y (nextMaskWord words st)
      (x : Int))) st
  let st := if st.mask_left ≤ 0 then { st with mask := words st.mask_next % 2 ^ 32 } else st
  pixelBody S MASK_COLOR MASK_ALPHA S.readSafe y st ((xsize : Int) - 1)

/-- Method `readPixels`, in the variant selected by `CAT_UNROLL_READER`.  The number of
scanlines is `_ysize` as it stands on entry. -/
def ImageRGBAReader.readPixels (S : Services Mono Ent Chaos Mask)
    (s : ImageRGBAReader Mono Ent Chaos Mask) (reader : ImageReader) :
    ReadResult × ImageRGBAReader Mono Ent Chaos Mask × ImageReader :=
  let xsize := s._xsize
  let MASK_COLOR := S.maskGetColor s._mask
  let MASK_ALPHA := (255 - (S.getLE MASK_COLOR >>> 24) % 256) % 256
  let s := { s with _chaos := S.chaosStart s._chaos }
  let s := { s with _cf_decoder := S.monoSetupUnordered s._cf_decoder }
  let s := { s with _sf_decoder := S.monoSetupUnordered s._sf_decoder }
  let st : PixelScan Mono Ent Chaos Mask :=
    { self := s, reader := reader, p := 0, mask_next := 0, mask_left := 0, mask := 0 }
  let st :=
    if S.CAT_UNROLL_READER then
      ((List.range s._ysize).drop 1).foldl
        (readPixelsRowUnrolled S MASK_COLOR MASK_ALPHA xsize)
        (readPixelsRowZero S MASK_COLOR MASK_ALPHA xsize st)
    else
      (List.range s._ysize).foldl (readPixelsRow S MASK_COLOR MASK_ALPHA xsize) st
  (ReadResult.GCIF_RE_OK, st.self, st.reader)

/-- The record `GCIFImage` as `read` uses it. -/
structure GCIFImage where
  rgba : Nat → Nat
  xsize : Nat
  ysize : Nat

/-- Method `read` (built without `CAT_COLLECT_STATS`). -/
def ImageRGBAReader.read (S : Services Mono Ent Chaos Mask)
    (s : ImageRGBAReader Mono Ent Chaos Mask) (reader : ImageReader) (maskReader : Mask)
    (image : GCIFImage) : ReadResult × ImageRGBAReader Mono Ent Chaos Mask × ImageReader :=
  let s := { s with _mask := maskReader }
  let s := { s with _rgba := true, image_rgba := image.rgba }
  let s := { s with _xsize := image.xsize, _ysize := image.ysize }
  match s.readFilterTables S reader with
  | (ReadResult.GCIF_RE_OK, s, reader) =>
    match s.readRGBATables S reader with
    | (ReadResult.GCIF_RE_OK, s, reader) =>
      match s.readPixels S reader with
      | (ReadResult.GCIF_RE_OK, s, reader) =>
        (ReadResult.GCIF_RE_OK, { s with _rgba := false }, reader)
      | (err, s, reader) => (err, s, reader)
    | (err, s, reader) => (err, s, reader)
  | (err, s, reader) => (err, s, reader)

end Decoder

/-! ## Specification-level definitions and sample inputs -/

/-- The condition under which `init` rejects the dimensions. -/
def badDims (K : Config) (width height : Int) : Prop :=
  width < (K.FILTER_ZONE_SIZE : Int) ∨ height < (K.FILTER_ZONE_SIZE : Int)
    ∨ ¬ ((K.FILTER_ZONE_SIZE : Int) ∣ width) ∨ ¬ ((K.FILTER_ZONE_SIZE : Int) ∣ height)

/-- A configuration with 8x8 tiles, a window of 8 recent symbols, the zero predictor as
the only spatial filter and the identity as the only colour filter. -/
def demoConfig : Config where
  FILTER_ZONE_SIZE_SHIFT := 3
  RECENT_SYMS := 8
  RECENT_AHEAD := 0
  SF_COUNT := 1
  CF_COUNT := 1
  CHAOS_LEVELS := 8
  UNUSED_FILTER := 65535
  COMPRESS_LEVEL := 0
  FILTER_SELECT_FUZZ := 20
  CHAOS_TABLE := fun v => min v 7
  chaosScore := fun b => if b % 256 < 128 then b % 256 else 256 - b % 256
  SPATIAL_FILTERS := fun _ _ _ _ _ _ _ => 0
  RGB2YUV_FILTERS := fun _ temp c => temp c
  entropy := fun e => e.active.length
  huffmanInit := fun _ => true
  newOk := fun _ => true

/-- A writer on which nothing has been initialised. -/
def freshWriter : ImageCMWriter where
  _w := 0
  _h := 0
  _matrix := none
  _chaos := none
  _chaos_size := 0
  _width := 0
  _height := 0
  _rgba := fun _ => 0
  _mask := fun _ _ => false
  _lz := fun _ _ => false
  _encoder := []
  _encoder_finalized := false
  _sf_unused_sym := 0
  _cf_unused_sym := 0
  _sf_encoder := none
  _cf_encoder := none

/-- Offset `last - _chaos` of the context cell of column `x`: the row cursor starts at
`lastStart = _chaos + RECENT_SYMS * PLANES` and advances by `PLANES` per pixel. -/
def contextCursor (K : Config) (x : Nat) : Int :=
  (K.RECENT_SYMS : Int) * (PLANES : Int) + (x : Int) * (PLANES : Int)

/-- Pixel `(x, y)` is covered by LZ or by the mask. -/
def covered (s : ImageCMWriter) (x y : Nat) : Bool := s._lz x y || s._mask x y

/-- The residual tuple `(y, u, v, a)` of pixel `(x, y)`: the colour-filtered difference to
the spatial prediction under the filter of the pixel's tile, and the alpha residual. -/
def residualTuple (K : Config) (s : ImageCMWriter) (x y : Nat) : Nat → Nat :=
  fun c =>
    if c < 3 then
      K.RGB2YUV_FILTERS (s.getFilter K x y % 256)
        (fun jj => u8sub (s._rgba.load ((((x + y * s._width) * 4 : Nat) : Int) + (jj : Int)))
          (K.SPATIAL_FILTERS ((s.getFilter K x y >>> 8) % 256) s._rgba
            (((x + y * s._width) * 4 : Nat) : Int) x y s._width jj)) c % 256
    else if x > 0 then
      u8sub (s._rgba.load ((((x + y * s._width) * 4 : Nat) : Int) - 1))
        (s._rgba.load ((((x + y * s._width) * 4 : Nat) : Int) + 3))
    else u8sub 255 (s._rgba.load ((((x + y * s._width) * 4 : Nat) : Int) + 3))

/-- The four bytes of the context cell `offset` pixels before the cursor `last` equal
the tuple `yuv`, where `offset = ii - RECENT_AHEAD`. -/
def windowMatches (K : Config) (m : Mem) (last : Int) (yuv : Nat → Nat) (ii : Nat) : Bool :=
  yuv 0 == m.load (last + (0 - ((ii : Int) - K.RECENT_AHEAD) * 4))
    && yuv 1 == m.load (last + (1 - ((ii : Int) - K.RECENT_AHEAD) * 4))
    && yuv 2 == m.load (last + (2 - ((ii : Int) - K.RECENT_AHEAD) * 4))
    && yuv 3 == m.load (last + (3 - ((ii : Int) - K.RECENT_AHEAD) * 4))

/-- The first index of the window whose cell equals the tuple, if there is one. -/
def recentMatch (K : Config) (m : Mem) (last : Int) (yuv : Nat → Nat) : Option Nat :=
  (List.range K.RECENT_SYMS).find? (windowMatches K m last yuv)

/-- Chaos level of plane `c` at the cursor `last`, from the cell to the left and the
cell at the cursor (the pixel above) in the context memory `m`. -/
def chaosLevel (K : Config) (m : Mem) (last : Int) (c : Nat) : Nat :=
  K.CHAOS_TABLE (K.chaosScore (m.load (last + ((c : Int) - 4)))
    + K.chaosScore (m.load (last + (c : Int)))) % 256

/-- The symbols of one uncovered pixel, as `(plane, chaos level, symbol)`: one symbol
`256 + ii` on plane 0 after a match at index `ii`, the four bytes of the tuple otherwise. -/
def pixelSymbols (K : Config) (m : Mem) (last : Int) (yuv : Nat → Nat) : List Push :=
  match recentMatch K m last yuv with
  | none => [(0, chaosLevel K m last 0, yuv 0), (1, chaosLevel K m last 1, yuv 1),
      (2, chaosLevel K m last 2, yuv 2), (3, chaosLevel K m last 3, yuv 3)]
  | some ii => [(0, chaosLevel K m last 0, 256 + ii)]

/-- The memory `m` with the four bytes `v 0 .. v 3` stored in the cell at `last`. -/
def storeCell (m : Mem) (last : Int) (v : Nat → Nat) : Mem :=
  (((m.store (last + ((0 : Nat) : Int)) (v 0)).store (last + ((1 : Nat) : Int)) (v 1)).store
    (last + ((2 : Nat) : Int)) (v 2)).store (last + ((3 : Nat) : Int)) (v 3)

/-- The content that the cell of pixel `(x, y)` receives: the residual tuple of an
uncovered pixel, zeros for a covered one. -/
def cellValue (K : Config) (s : ImageCMWriter) (x y : Nat) : Nat → Nat :=
  if covered s x y then fun _ => 0 else residualTuple K s x y

/-- The tile-map symbols written by `writeChaos` when the scan reaches `(x, y)`. -/
def tileSymbols (K : Config) (s : ImageCMWriter) (x y : Nat) : List WriteEvent :=
  if x &&& K.FILTER_ZONE_SIZE_MASK = 0 ∧ y &&& K.FILTER_ZONE_SIZE_MASK = 0 then
    [WriteEvent.sfSymbol (if s.getFilter K x y = K.UNUSED_FILTER then s._sf_unused_sym % 256
        else (s.getFilter K x y >>> 8) % 256),
      WriteEvent.cfSymbol (if s.getFilter K x y = K.UNUSED_FILTER then s._cf_unused_sym % 256
        else s.getFilter K x y % 256)]
  else []

/-- The event `encode` of a symbol `(plane, chaos level, symbol)`. -/
def toEncode (q : Push) : WriteEvent := WriteEvent.encode q.1 q.2.1 q.2.2

/-- The residual symbols among the written events, as `(plane, chaos level, symbol)`. -/
def residualEvents : List WriteEvent → List Push
  | [] => []
  | WriteEvent.encode c l v :: es => (c, l, v) :: residualEvents es
  | _ :: es => residualEvents es

/-- Number of residual symbols of pixel `(x, y)` when the context memory is `m`: none
for a covered pixel, one after a recent match, four otherwise. -/
def pixelSymbolCount (K : Config) (s : ImageCMWriter) (m : Mem) (x y : Nat) : Nat :=
  if covered s x y then 0
  else if (recentMatch K m (contextCursor K x) (residualTuple K s x y)).isSome then 1
  else 4

/-- The four bytes of the context cell `ii - RECENT_AHEAD` pixels before the cursor
`last` equal the tuple `yuv`. -/
def CellEquals (K : Config) (m : Mem) (last : Int) (yuv : Nat → Nat) (ii : Nat) : Prop :=
  ∀ k : Nat, k < 4 → yuv k = m.load (last + ((k : Int) - ((ii : Int) - K.RECENT_AHEAD) * 4))

/-- A sample image of 8 x 8 pixels: the pixel `(0, 1)` (bytes 32 to 35) is opaque black
`(0, 0, 0, 255)`, every byte of the other pixels is 9. -/
def sampleImage : Mem :=
  fun i => if 32 ≤ i ∧ i < 36 then (if i = 35 then 255 else 0) else 9

/-- A sample mask that covers every pixel except `(0, 1)`. -/
def sampleMask : Nat → Nat → Bool := fun x y => !(x == 0 && y == 1)

/-- A sample LZ oracle that covers nothing. -/
def sampleLz : Nat → Nat → Bool := fun _ _ => false

/-- A writer on the sample image as `init` and an all-zero filter choice leave it, with
the context buffer holding the byte 9 everywhere. -/
def sampleWriter : ImageCMWriter :=
  { freshWriter with
    _w := 1, _h := 1, _width := 8, _height := 8
    _matrix := some (fun _ => 0)
    _chaos := some (fun _ => 9)
    _chaos_size := 64
    _rgba := sampleImage
    _mask := sampleMask
    _lz := sampleLz }

/-- The two writer states scan the same image with the same mask and LZ oracle. -/
def SameScan (a b : ImageCMWriter) : Prop :=
  a._rgba = b._rgba ∧ a._width = b._width ∧ a._height = b._height ∧ a._lz = b._lz
    ∧ a._mask = b._mask

/-- The two tile maps give the same filter to every uncovered pixel of the image. -/
def FilterAgree (K : Config) (a b : ImageCMWriter) : Prop :=
  ∀ x y, x < a._width → y < a._height → covered a x y = false →
    a.getFilter K x y = b.getFilter K x y

/-- The loop state `a` of the statistics pass and the loop state `b` of the emission pass
hold the same context memory, and the symbols pushed since the log was `L` are the
residual symbols encoded since the residual symbols of the output were `R`. -/
def PassAgree (L R : List Push) (a : Mem × List Push) (b : Mem × List WriteEvent) : Prop :=
  a.1 = b.1 ∧ ∃ P, a.2 = L ++ P ∧ residualEvents b.2 = R ++ P

/-- The fields of the writer other than the tile map `_matrix` are the same in `a` and `b`. -/
def SameButMatrix (a b : ImageCMWriter) : Prop :=
  a = { b with _matrix := a._matrix }

/-- The image dimensions are whole numbers of tiles, as `init` leaves them. -/
def ValidDims (K : Config) (s : ImageCMWriter) : Prop :=
  s._width = s._w * K.FILTER_ZONE_SIZE ∧ s._height = s._h * K.FILTER_ZONE_SIZE

/-- The writer state on which `initFromRGBA` runs `chaosStats`: the state left by `init`,
with the image, mask and LZ references set and the filters decided. -/
def statsInput (K : Config) (s : ImageCMWriter) (rgba : Mem) (width height : Int)
    (mask lz : Nat → Nat → Bool) (heapMatrix : Int → Nat) (heapChaos : Mem) : ImageCMWriter :=
  ({ (s.init K width height heapMatrix heapChaos).2 with
      _rgba := rgba, _mask := mask, _lz := lz }).decideFilters K

/-- The loop state of `chaosStats` after pixel `(x, y)`, the scan having started on the
content `chaos` of the context buffer. -/
def statsAfter (K : Config) (s : ImageCMWriter) (chaos : Mem) (x y : Nat) : Mem × List Push :=
  chaosStatsRow K s y (x + 1) (chaosStatsRows K s y (chaosStatsStart K s chaos))

/-- The loop state of `writeChaos` after pixel `(x, y)`, the scan having started on the
content `chaos` of the context buffer and the events `writer`. -/
def emitAfter (K : Config) (s : ImageCMWriter) (chaos : Mem) (writer : List WriteEvent)
    (x y : Nat) : Mem × List WriteEvent :=
  writeChaosRow K s y (x + 1) (writeChaosRows K s y (writeChaosStart K s chaos writer))

/-- The content of the context cell of column `c` when the scan reaches pixel `(x, y)`:
left of the cursor the value stored for pixel `(c, y)` of the current row, from the
cursor on the value stored for pixel `(c, y - 1)` of the previous row, zeros on row 0. -/
def contextBefore (K : Config) (s : ImageCMWriter) (x y c : Nat) : Nat → Nat :=
  if c < x then cellValue K s c y
  else if y = 0 then fun _ => 0
  else cellValue K s c (y - 1)

/-- The bit reader after `k` further filter ids of 7 bits have been read from `r`. -/
def skipFilterIds : Nat → ImageReader → ImageReader
  | 0, r => r
  | k + 1, r => skipFilterIds k (r.readBits 7).2

/-- The `k`-th filter id (counted from 0) that `readFilterTables` reads as `u8 sf` when
the ids start at the position of `r`. -/
def filterIdAt (r : ImageReader) (k : Nat) : Nat :=
  ((skipFilterIds k r).readBits 7).1 % 256

/-- The bit reader once `readFilterTables` has read the tile bits and `_sf_count`. -/
def filterIdsStart (reader : ImageReader) : ImageReader :=
  ((reader.readBits 3).2.readBits 5).2

/-- The value of `_sf_count` that `readFilterTables` reads from `reader`. -/
def sfCountOf (reader : ImageReader) : Nat :=
  ((reader.readBits 3).2.readBits 5).1 + 1

/-- The fields of the reader object other than `_sf` are the same in `a` and `b`. -/
def SameButSf {Mono Ent Chaos Mask : Type} (a b : ImageRGBAReader Mono Ent Chaos Mask) : Prop :=
  a = { b with _sf := a._sf }

/-- The reader object when `readFilterTables` enters the loop over the filter ids. -/
def filterChoicesEntry {Mono Ent Chaos Mask : Type} (s : ImageRGBAReader Mono Ent Chaos Mask)
    (reader : ImageReader) : ImageRGBAReader Mono Ent Chaos Mask :=
  { (s.readTileBits reader).1 with _sf_count := sfCountOf reader }

/-- The reader object when `read` calls `readFilterTables`. -/
def readEntry {Mono Ent Chaos Mask : Type} (s : ImageRGBAReader Mono Ent Chaos Mask)
    (maskReader : Mask) (image : GCIFImage) : ImageRGBAReader Mono Ent Chaos Mask :=
  { s with _mask := maskReader, _rgba := true, image_rgba := image.rgba,
           _xsize := image.xsize, _ysize := image.ysize }

/-- The state in which the plain `readPixels` reaches the pixel loop of scanline `y`,
started on the scanline in state `st`, together with the mask words of the scanline. -/
def readPixelsRowStart {Mono Ent Chaos Mask : Type} (S : Services Mono Ent Chaos Mask)
    (st : PixelScan Mono Ent Chaos Mask) (y : Nat) :
    (Nat → Nat) × PixelScan Mono Ent Chaos Mask :=
  scanlineStart S y
    (if y &&& st.self._tile_mask_y = 0 then tileRowStart S (decide (y > 0)) y st else st)

/-- The state of the plain `readPixels` after the first `n` pixels of scanline `y`. -/
def readPixelsRowScan {Mono Ent Chaos Mask : Type} (S : Services Mono Ent Chaos Mask)
    (MASK_COLOR MASK_ALPHA : Nat) (st : PixelScan Mono Ent Chaos Mask) (y n : Nat) :
    PixelScan Mono Ent Chaos Mask :=
  (List.range n).foldl
    (readPixelsPixel S MASK_COLOR MASK_ALPHA (readPixelsRowStart S st y).1 y)
    (readPixelsRowStart S st y).2

/-- A sample mask reader: its colour and the words of every scanline. -/
structure DemoMask where
  color : Nat
  words : List Nat

/-- Sample decoder services: tables are accepted without reading anything, and a pixel
is decoded by reading one byte from the bit reader. -/
def demoServices : Services Unit Unit Unit DemoMask where
  SF_COUNT := 17
  CF_COUNT := 17
  NUM_Y_SYMS := 256
  NUM_U_SYMS := 256
  NUM_V_SYMS := 256
  NUM_ZRLE_SYMS := 128
  HUFF_LUT_BITS := 7
  CAT_UNROLL_READER := false
  getLE := fun v => v
  monoReadTables := fun _ d r => (ReadResult.GCIF_RE_OK, d, r)
  monoSetupUnordered := fun d => d
  monoReadRowHeader := fun _ d r => (d, r)
  monoMasked := fun _ d => d
  monoStoreCurrentRow := fun _ _ d => d
  entropyInit := fun _ _ _ e r => (true, e, r)
  chaosInit := fun _ _ c => c
  chaosStart := fun c => c
  chaosZero := fun _ c => c
  maskGetColor := fun m => m.color
  maskNextScanline := fun m => (fun k => m.words.getD k 0, m)
  readSafe := fun _ _ p st =>
    ({ st.1 with image_rgba := fun i => if i = p then (st.2.readBits 8).1 else st.1.image_rgba i },
      (st.2.readBits 8).2)
  readUnsafe := fun _ _ p st =>
    ({ st.1 with image_rgba := fun i => if i = p then (st.2.readBits 8).1 else st.1.image_rgba i },
      (st.2.readBits 8).2)

/-- A sample mask reader with no masked pixel. -/
def demoMask : DemoMask := { color := 0, words := [] }

/-- A reader object on which nothing has been read yet. -/
def demoDecoder : ImageRGBAReader Unit Unit Unit DemoMask where
  _mask := demoMask
  _rgba := false
  image_rgba := fun _ => 0
  _xsize := 0
  _ysize := 0
  _tile_bits_x := 0
  _tile_bits_y := 0
  _tile_xsize := 0
  _tile_ysize := 0
  _tile_mask_x := 0
  _tile_mask_y := 0
  _tiles_x := 0
  _tiles_y := 0
  _filters := []
  _sf_tiles := 0
  _cf_tiles := 0
  _a_tiles := 0
  _sf_count := 0
  _sf := fun _ => 0
  _sf_decoder := ()
  _cf_decoder := ()
  _a_decoder := ()
  _chaos := ()
  _y_decoder := fun _ => ()
  _u_decoder := fun _ => ()
  _v_decoder := fun _ => ()

/-- A sample image record of 2 x 1 pixels. -/
def demoImage : GCIFImage := { rgba := fun _ => 0, xsize := 2, ysize := 1 }

/-- A bit stream with tile bits 010, `_sf_count - 1` = 00001 and the two filter ids
0000011 (3) and 1111111 (127). -/
def badIdStream : ImageReader :=
  { bits := [false, true, false, false, false, false, false, true,
             false, false, false, false, false, true, true,
             true, true, true, true, true, true, true,
             true, false, true, true, false, false, true, false]
    pos := 0, eof := false }

/-- A bit stream that ends right behind the tables: tile bits 010, `_sf_count - 1` =
00000, the filter id 0000000 and `chaos_levels - 1` = 0000; no pixel data follows. -/
def truncatedStream : ImageReader :=
  { bits := [false, true, false, false, false, false, false, false,
             false, false, false, false, false, false, false,
             false, false, false, false]
    pos := 0, eof := false }

/-- A bit stream with the same header as `truncatedStream` followed by two bytes of
pixel data. -/
def completeStream : ImageReader :=
  { bits := truncatedStream.bits ++
      [false, false, false, false, false, true, false, true,
       true, false, false, false, false, false, false, true]
    pos := 0, eof := false }

/-- The alpha byte of pixel `(x, y)` of the raw image. -/
def alphaAt (s : ImageCMWriter) (x y : Nat) : Nat :=
  s._rgba.load ((((x + y * s._width) * 4 + 3 : Nat) : Int))

/-- The alpha predictor of the specification: the alpha byte of the pixel to the left,
255 in the first column. -/
def prevAlpha (s : ImageCMWriter) (x y : Nat) : Nat :=
  if x > 0 then alphaAt s (x - 1) y else 255

/-- Every pixel of the tile `(tx, ty)` is covered by the mask or by LZ. -/
def tileCovered (K : Config) (s : ImageCMWriter) (tx ty : Nat) : Prop :=
  ∀ ii jj : Nat, ii < K.FILTER_ZONE_SIZE → jj < K.FILTER_ZONE_SIZE →
    covered s (tx * K.FILTER_ZONE_SIZE + ii) (ty * K.FILTER_ZONE_SIZE + jj) = true

/-- The tile-map entry of tile `(tx, ty)`, read through `getFilter` at the top-left pixel
of the tile. -/
def tileEntry (K : Config) (s : ImageCMWriter) (tx ty : Nat) : Nat :=
  s.getFilter K (tx * K.FILTER_ZONE_SIZE) (ty * K.FILTER_ZONE_SIZE)

/-- A sample writer whose only tile is fully covered by the mask. -/
def coveredWriter : ImageCMWriter :=
  { sampleWriter with _mask := fun _ _ => true }

/-- The sample decoder with the dimensions of an image of 16 x 8 pixels. -/
def sizedDecoder : ImageRGBAReader Unit Unit Unit DemoMask :=
  { demoDecoder with _xsize := 16, _ysize := 8 }

/-- A stream that starts with the tile bits `010`. -/
def tileBitsStream : ImageReader := { bits := [false, true, false], pos := 0, eof := false }

/-- The tile-map symbols among the written events. -/
def tileEventsOf : List WriteEvent → List WriteEvent
  | [] => []
  | WriteEvent.sfSymbol sf :: es => WriteEvent.sfSymbol sf :: tileEventsOf es
  | WriteEvent.cfSymbol cf :: es => WriteEvent.cfSymbol cf :: tileEventsOf es
  | _ :: es => tileEventsOf es

/-- The pair of symbols that the specification gives for tile `(tx, ty)`: the surrogate
pair (as bytes) if the tile holds `UNUSED_FILTER`, the two halves of its filter word
otherwise. -/
def tilePair (K : Config) (s : ImageCMWriter) (tx ty : Nat) : List WriteEvent :=
  if tileEntry K s tx ty = K.UNUSED_FILTER then
    [WriteEvent.sfSymbol (s._sf_unused_sym % 256), WriteEvent.cfSymbol (s._cf_unused_sym % 256)]
  else
    [WriteEvent.sfSymbol (tileEntry K s tx ty >>> 8),
      WriteEvent.cfSymbol (tileEntry K s tx ty &&& 255)]

/-- The pairs of all tiles in raster order of tiles. -/
def tileMapStream (K : Config) (s : ImageCMWriter) : List WriteEvent :=
  (List.range s._h).flatMap fun ty => (List.range s._w).flatMap fun tx => tilePair K s tx ty

/-- The filter word `e` unpacks to a spatial filter symbol below `SF_COUNT` and a colour
filter symbol below `CF_COUNT`. -/
def ValidEntry (K : Config) (e : Nat) : Prop :=
  (e >>> 8) % 256 < K.SF_COUNT ∧ e % 256 < K.CF_COUNT

/-- The loop state of `chaosStats` when the scan reaches pixel `(x, y)`, the scan having
started on the content `chaos` of the context buffer. -/
def statsBefore (K : Config) (s : ImageCMWriter) (chaos : Mem) (x y : Nat) : Mem × List Push :=
  chaosStatsRow K s y x (chaosStatsRows K s y (chaosStatsStart K s chaos))

/-- The loop state of `writeChaos` when the scan reaches pixel `(x, y)`, the scan having
started on the content `chaos` of the context buffer and the events `writer`. -/
def emitBefore (K : Config) (s : ImageCMWriter) (chaos : Mem) (writer : List WriteEvent)
    (x y : Nat) : Mem × List WriteEvent :=
  writeChaosRow K s y x (writeChaosRows K s y (writeChaosStart K s chaos writer))

/-- The left input of the chaos level of plane `c` at pixel `(x, y)` as the code reads it:
the byte stored for pixel `(x - 1, y)`, and in the first column the byte `c` of the last
cell of the left padding, which the passes neither clear nor write, so that it is the byte
`chaos` held there before the pass. -/
def leftInput (K : Config) (s : ImageCMWriter) (chaos : Mem) (x y c : Nat) : Nat :=
  if x = 0 then chaos.load (contextCursor K 0 + ((c : Int) - 4)) else cellValue K s (x - 1) y c

/-- The above input of the chaos level of plane `c` at pixel `(x, y)`: the byte stored for
pixel `(x, y - 1)`, and 0 on the first row. -/
def aboveInput (K : Config) (s : ImageCMWriter) (x y c : Nat) : Nat :=
  if y = 0 then 0 else cellValue K s x (y - 1) c

/-- The order of the coder tables in the wire format of the specification, as pairs
`(plane, chaos level)`: for each chaos level in turn, the tables of the planes of that
level. -/
def specTableOrder (planes levels : Nat) : List (Nat × Nat) :=
  (List.range levels).flatMap fun l => (List.range planes).map fun p => (p, l)

/-- The event of writing the table of the pair `q = (plane, chaos level)`. -/
def overheadOf (q : Nat × Nat) : WriteEvent := WriteEvent.overhead q.1 q.2

/-- One call `init` of `readRGBATables`, on the decoder of plane `q.1` (0: Y, 1: U,
otherwise V) and chaos level `q.2`. -/
def initTable {Mono Ent Chaos Mask : Type} (S : Services Mono Ent Chaos Mask)
    (st : ImageRGBAReader Mono Ent Chaos Mask × ImageReader) (q : Nat × Nat) :
    ImageRGBAReader Mono Ent Chaos Mask × ImageReader :=
  if q.1 = 0 then
    ({ st.1 with _y_decoder := fun k =>
        if k = q.2 then
          (S.entropyInit S.NUM_Y_SYMS S.NUM_ZRLE_SYMS S.HUFF_LUT_BITS (st.1._y_decoder q.2)
            st.2).2.1
        else st.1._y_decoder k },
      (S.entropyInit S.NUM_Y_SYMS S.NUM_ZRLE_SYMS S.HUFF_LUT_BITS (st.1._y_decoder q.2)
        st.2).2.2)
  else if q.1 = 1 then
    ({ st.1 with _u_decoder := fun k =>
        if k = q.2 then
          (S.entropyInit S.NUM_U_SYMS S.NUM_ZRLE_SYMS S.HUFF_LUT_BITS (st.1._u_decoder q.2)
            st.2).2.1
        else st.1._u_decoder k },
      (S.entropyInit S.NUM_U_SYMS S.NUM_ZRLE_SYMS S.HUFF_LUT_BITS (st.1._u_decoder q.2)
        st.2).2.2)
  else
    ({ st.1 with _v_decoder := fun k =>
        if k = q.2 then
          (S.entropyInit S.NUM_V_SYMS S.NUM_ZRLE_SYMS S.HUFF_LUT_BITS (st.1._v_decoder q.2)
            st.2).2.1
        else st.1._v_decoder k },
      (S.entropyInit S.NUM_V_SYMS S.NUM_ZRLE_SYMS S.HUFF_LUT_BITS (st.1._v_decoder q.2)
        st.2).2.2)

/-- The result of the call `init` that `initTable` makes. -/
def initOk {Mono Ent Chaos Mask : Type} (S : Services Mono Ent Chaos Mask)
    (st : ImageRGBAReader Mono Ent Chaos Mask × ImageReader) (q : Nat × Nat) : Bool :=
  if q.1 = 0 then
    (S.entropyInit S.NUM_Y_SYMS S.NUM_ZRLE_SYMS S.HUFF_LUT_BITS (st.1._y_decoder q.2) st.2).1
  else if q.1 = 1 then
    (S.entropyInit S.NUM_U_SYMS S.NUM_ZRLE_SYMS S.HUFF_LUT_BITS (st.1._u_decoder q.2) st.2).1
  else
    (S.entropyInit S.NUM_V_SYMS S.NUM_ZRLE_SYMS S.HUFF_LUT_BITS (st.1._v_decoder q.2) st.2).1

/-- Sample services whose `EntropyDecoder::init` always succeeds and appends the decimal
digit `num_syms` (1 for Y, 2 for U, 3 for V) to the position counter of the bit reader. -/
def traceServices : Services Unit Unit Unit DemoMask :=
  { demoServices with
    NUM_Y_SYMS := 1
    NUM_U_SYMS := 2
    NUM_V_SYMS := 3
    entropyInit := fun n _ _ e r => (true, e, { r with pos := r.pos * 10 + n }) }

/-- The byte `p` read as a signed 8-bit integer (two's complement). -/
def signed8 (p : Nat) : Int :=
  if p % 256 < 128 then ((p % 256 : Nat) : Int) else ((p % 256 : Nat) : Int) - 256

/-- The index into `_matrix` that `getFilter` and `setFilter` compute for pixel `(x, y)`. -/
def tileIndex (K : Config) (s : ImageCMWriter) (x y : Nat) : Nat :=
  x >>> K.FILTER_ZONE_SIZE_SHIFT + y >>> K.FILTER_ZONE_SIZE_SHIFT * s._w

/-- The pixels `(x, y)` and `(x', y')` lie in the same tile. -/
def SameTile (K : Config) (x y x' y' : Nat) : Prop :=
  x >>> K.FILTER_ZONE_SIZE_SHIFT = x' >>> K.FILTER_ZONE_SIZE_SHIFT
    ∧ y >>> K.FILTER_ZONE_SIZE_SHIFT = y' >>> K.FILTER_ZONE_SIZE_SHIFT

/-- A sample image of 8 x 8 pixels whose bytes are all 9 except the red byte of pixel
`(0, 1)` (byte 32), which is 5. -/
def freshImage : Mem := fun i => if i = 32 then 5 else 9

/-- A writer on `freshImage` with the sample mask, which leaves only `(0, 1)` uncovered. -/
def freshSampleWriter : ImageCMWriter := { sampleWriter with _rgba := freshImage }

/-- The offset `i` from `_chaos` lies inside the allocation `new u8[_chaos_size]`. -/
def InBuffer (s : ImageCMWriter) (i : Int) : Prop := 0 ≤ i ∧ i < s._chaos_size

/-- Offset of the recent-match read `last[c - (ii - RECENT_AHEAD) * 4]` at column `x`. -/
def matchReadOffset (K : Config) (x ii c : Nat) : Int :=
  contextCursor K x + ((c : Int) - ((ii : Int) - K.RECENT_AHEAD) * 4)

/-- The tiles `(tx, ty)` of the image in raster order. -/
def tileList (s : ImageCMWriter) : List (Nat × Nat) :=
  (List.range s._h).flatMap fun ty => (List.range s._w).map fun tx => (tx, ty)

/-- Tile `t` has a pixel covered neither by LZ nor by the mask. -/
def tileUsed (K : Config) (s : ImageCMWriter) (t : Nat × Nat) : Bool :=
  zoneOn K s (t.1 * K.FILTER_ZONE_SIZE) (t.2 * K.FILTER_ZONE_SIZE)

/-- The spatial filter byte of the entry of tile `t`. -/
def tileSf (K : Config) (s : ImageCMWriter) (t : Nat × Nat) : Nat :=
  (tileEntry K s t.1 t.2 >>> 8) % 256

/-- The colour filter byte of the entry of tile `t`. -/
def tileCf (K : Config) (s : ImageCMWriter) (t : Nat × Nat) : Nat :=
  tileEntry K s t.1 t.2 % 256

/-- The body of the zone loop of `writeFilters` for tile `t`. -/
def tileStep (K : Config) (acc : FilterScan) (t : Nat × Nat) : FilterScan :=
  writeFiltersZone K (t.2 * K.FILTER_ZONE_SIZE) acc (t.1 * K.FILTER_ZONE_SIZE)

/-- The histogram that `writeFilters` hands to `_sf_encoder.init`. -/
def sfHistogram (K : Config) (s : ImageCMWriter) : List Nat :=
  ((writeFiltersScan K s).sf_hist.addMore (writeFiltersScan K s).sf_hist.firstHighestPeak
    (writeFiltersScan K s).unused_count).hist

/-- The histogram that `writeFilters` hands to `_cf_encoder.init`. -/
def cfHistogram (K : Config) (s : ImageCMWriter) : List Nat :=
  ((writeFiltersScan K s).cf_hist.addMore (writeFiltersScan K s).cf_hist.firstHighestPeak
    (writeFiltersScan K s).unused_count).hist

/-- The loop state `acc` of the zone scan of `writeFilters` on the writer `s` has changed
nothing but the tile map, and no entry of a tile with an uncovered pixel. -/
def ScanAgree (K : Config) (s : ImageCMWriter) (acc : FilterScan) : Prop :=
  SameButMatrix acc.writer s
    ∧ ∀ x y, x < s._width → y < s._height → covered s x y = false →
        acc.writer.getFilter K x y = s.getFilter K x y

/-- The SF symbol that `writeChaos` writes for tile `t`. -/
def writtenSf (K : Config) (s : ImageCMWriter) (t : Nat × Nat) : Nat :=
  if tileEntry K s t.1 t.2 = K.UNUSED_FILTER then s._sf_unused_sym % 256
  else tileEntry K s t.1 t.2 >>> 8

/-- The CF symbol that `writeChaos` writes for tile `t`. -/
def writtenCf (K : Config) (s : ImageCMWriter) (t : Nat × Nat) : Nat :=
  if tileEntry K s t.1 t.2 = K.UNUSED_FILTER then s._cf_unused_sym % 256
  else tileEntry K s t.1 t.2 &&& 255

/-- Pixel `(x, y)` of an image `xsize` pixels wide lies off row 0, off column 0 and off
column `xsize - 1`. -/
def offBorder (xsize : Nat) (x : Int) (y : Nat) : Bool :=
  decide (1 ≤ x) && (decide (x + 2 ≤ (xsize : Int)) && decide (1 ≤ y))

/-- The services with which the plain loop of `readPixels` decodes a pixel off the border
with `readUnsafe` and a pixel of the border with `readSafe`. -/
def dispatchServices {Mono Ent Chaos Mask : Type} (S : Services Mono Ent Chaos Mask)
    (xsize : Nat) : Services Mono Ent Chaos Mask :=
  { S with
    CAT_UNROLL_READER := false
    readSafe := fun x y p st =>
      if offBorder xsize x y then S.readUnsafe x y p st else S.readSafe x y p st }

/-- The loop state of `readPixels`, in the variant selected by `CAT_UNROLL_READER`, when
the function returns. -/
def ImageRGBAReader.readPixelsEnd {Mono Ent Chaos Mask : Type}
    (S : Services Mono Ent Chaos Mask) (s : ImageRGBAReader Mono Ent Chaos Mask)
    (reader : ImageReader) : PixelScan Mono Ent Chaos Mask :=
  let xsize := s._xsize
  let MASK_COLOR := S.maskGetColor s._mask
  let MASK_ALPHA := (255 - (S.getLE MASK_COLOR >>> 24) % 256) % 256
  let s := { s with _chaos := S.chaosStart s._chaos }
  let s := { s with _cf_decoder := S.monoSetupUnordered s._cf_decoder }
  let s := { s with _sf_decoder := S.monoSetupUnordered s._sf_decoder }
  let st : PixelScan Mono Ent Chaos Mask :=
    { self := s, reader := reader, p := 0, mask_next := 0, mask_left := 0, mask := 0 }
  if S.CAT_UNROLL_READER then
    ((List.range s._ysize).drop 1).foldl
      (readPixelsRowUnrolled S MASK_COLOR MASK_ALPHA xsize)
      (readPixelsRowZero S MASK_COLOR MASK_ALPHA xsize st)
  else
    (List.range s._ysize).foldl (readPixelsRow S MASK_COLOR MASK_ALPHA xsize) st

/-- The two loop states hold the same reader object, bit reader and output pointer; the
registers of the mask scan, local to a scanline, may differ. -/
def SameOutput {Mono Ent Chaos Mask : Type} (a b : PixelScan Mono Ent Chaos Mask) : Prop :=
  a.self = b.self ∧ a.reader = b.reader ∧ a.p = b.p

/-- The state in which the unrolled `readPixels` reaches the pixel `x = 0` of a scanline
`y >= 1` started in state `st`, together with the mask words of the scanline. -/
def unrolledRowStart {Mono Ent Chaos Mask : Type} (S : Services Mono Ent Chaos Mask)
    (st : PixelScan Mono Ent Chaos Mask) (y : Nat) :
    (Nat → Nat) × PixelScan Mono Ent Chaos Mask :=
  scanlineStart S y (if y &&& st.self._tile_mask_y = 0 then tileRowStart S true y st else st)

/-- The statements `mask = *mask_next++; mask_left = 31;` of the pixel `x = 0`. -/
def firstMaskWord {Mono Ent Chaos Mask : Type} (words : Nat → Nat)
    (st : PixelScan Mono Ent Chaos Mask) : PixelScan Mono Ent Chaos Mask :=
  { st with mask := words st.mask_next % 2 ^ 32, mask_next := st.mask_next + 1,
            mask_left := 31 }

/-- The statement `if (mask_left <= 0) { mask = *mask_next; }` of the right edge. -/
def edgeMaskWord {Mono Ent Chaos Mask : Type} (words : Nat → Nat)
    (st : PixelScan Mono Ent Chaos Mask) : PixelScan Mono Ent Chaos Mask :=
  if st.mask_left ≤ 0 then { st with mask := words st.mask_next % 2 ^ 32 } else st

/-- The body of the inner loop of the unrolled `readPixels` (lines 311-334). -/
def unrolledPixel {Mono Ent Chaos Mask : Type} (S : Services Mono Ent Chaos Mask)
    (MASK_COLOR MASK_ALPHA : Nat) (words : Nat → Nat) (y : Nat)
    (st : PixelScan Mono Ent Chaos Mask) (x : Nat) : PixelScan Mono Ent Chaos Mask :=
  shiftMask (pixelBody S MASK_COLOR MASK_ALPHA S.readUnsafe y (nextMaskWord words st) (x : Int))

/-- The loop state with which `readPixels` enters its first scanline. -/
def scanStart {Mono Ent Chaos Mask : Type} (S : Services Mono Ent Chaos Mask)
    (s : ImageRGBAReader Mono Ent Chaos Mask) (reader : ImageReader) :
    PixelScan Mono Ent Chaos Mask :=
  let s := { s with _chaos := S.chaosStart s._chaos }
  let s := { s with _cf_decoder := S.monoSetupUnordered s._cf_decoder }
  let s := { s with _sf_decoder := S.monoSetupUnordered s._sf_decoder }
  { self := s, reader := reader, p := 0, mask_next := 0, mask_left := 0, mask := 0 }

/-- The constant `MASK_ALPHA` of `readPixels`. -/
def maskAlpha {Mono Ent Chaos Mask : Type} (S : Services Mono Ent Chaos Mask)
    (s : ImageRGBAReader Mono Ent Chaos Mask) : Nat :=
  (255 - (S.getLE (S.maskGetColor s._mask) >>> 24) % 256) % 256

/-- Sample services of the unrolled reader: `readSafe` stores the byte it reads at `p`,
`readUnsafe` stores the byte it reads plus 256, so that the output shows which routine
decoded a pixel. -/
def markServices : Services Unit Unit Unit DemoMask :=
  { demoServices with
    CAT_UNROLL_READER := true
    readUnsafe := fun _ _ p st =>
      ({ st.1 with
          image_rgba := fun i => if i = p then (st.2.readBits 8).1 + 256 else st.1.image_rgba i },
        (st.2.readBits 8).2) }

/-- The sample decoder with the dimensions of an image of 3 x 3 pixels. -/
def blockDecoder : ImageRGBAReader Unit Unit Unit DemoMask :=
  { demoDecoder with _xsize := 3, _ysize := 3 }

/-- The sample decoder with the dimensions of an image of 1 x 2 pixels. -/
def columnDecoder : ImageRGBAReader Unit Unit Unit DemoMask :=
  { demoDecoder with _xsize := 1, _ysize := 2 }

/-- A bit stream holding the bytes 1 to 9. -/
def nineBytes : ImageReader :=
  { bits := [false, false, false, false, false, false, false, true,
             false, false, false, false, false, false, true, false,
             false, false, false, false, false, false, true, true,
             false, false, false, false, false, true, false, false,
             false, false, false, false, false, true, false, true,
             false, false, false, false, false, true, true, false,
             false, false, false, false, false, true, true, true,
             false, false, false, false, true, false, false, false,
             false, false, false, false, true, false, false, true]
    pos := 0, eof := false }

/-- A replacement of `readUnsafe` of the sample services that agrees with it off the border
of an image 3 pixels wide and wrecks the whole output anywhere else. -/
def poisonedUnsafe (x : Int) (y p : Nat)
    (st : ImageRGBAReader Unit Unit Unit DemoMask × ImageReader) :
    ImageRGBAReader Unit Unit Unit DemoMask × ImageReader :=
  if offBorder 3 x y then markServices.readUnsafe x y p st
  else ({ st.1 with image_rgba := fun _ => 999 }, st.2)

theorem land_zone_mask_ne_zero_iff (K : Config) (w : Int) (h : 0 ≤ w) :
    Int.land w (K.FILTER_ZONE_SIZE_MASK : Int) ≠ 0 ↔ ¬ ((K.FILTER_ZONE_SIZE : Int) ∣ w) := by
  obtain ⟨n, rfl⟩ := Int.eq_ofNat_of_zero_le h
  have h1 : Int.land (n : Int) (K.FILTER_ZONE_SIZE_MASK : Int)
      = ((n &&& K.FILTER_ZONE_SIZE_MASK : Nat) : Int) := rfl
  rw [h1]
  unfold Config.FILTER_ZONE_SIZE_MASK Config.FILTER_ZONE_SIZE
  rw [Nat.one_shiftLeft, Nat.and_pow_two_sub_one_eq_mod, Int.natCast_dvd_natCast,
    Nat.dvd_iff_mod_eq_zero]
  exact not_congr Int.natCast_eq_zero

theorem zone_size_pos (K : Config) : 0 < K.FILTER_ZONE_SIZE := by
  unfold Config.FILTER_ZONE_SIZE
  rw [Nat.one_shiftLeft]
  exact Nat.pow_pos (by decide)

theorem init_past_checks (K : Config) (s : ImageCMWriter) (width height : Int)
    (heapMatrix : Int → Nat) (heapChaos : Mem)
    (h1 : ¬ (width < (K.FILTER_ZONE_SIZE : Int) ∨ height < (K.FILTER_ZONE_SIZE : Int)))
    (h2 : ¬ (Int.land width (K.FILTER_ZONE_SIZE_MASK : Int) ≠ 0
      ∨ Int.land height (K.FILTER_ZONE_SIZE_MASK : Int) ≠ 0)) :
    (initRoom K width height = true →
      s.init K width height heapMatrix heapChaos
        = (WriterResult.WE_OK,
            { s.clear with
              _width := width.toNat
              _height := height.toNat
              _w := (width >>> K.FILTER_ZONE_SIZE_SHIFT).toNat
              _h := (height >>> K.FILTER_ZONE_SIZE_SHIFT).toNat
              _matrix := some heapMatrix
              _chaos_size := (width + (K.RECENT_SYMS : Int)) * (PLANES : Int)
              _chaos := some heapChaos }))
    ∧ (initRoom K width height = false →
      (s.init K width height heapMatrix heapChaos).1 = WriterResult.noReturn) := by
  constructor
  · intro hr
    simp only [initRoom, Bool.and_eq_true] at hr
    obtain ⟨⟨⟨⟨⟨⟨a, b⟩, c⟩, d⟩, e⟩, f⟩, g⟩ := hr
    simp only [ImageCMWriter.init, if_neg h1, if_neg h2, a, b, c, d, e, f, g, Bool.and_self,
      Bool.not_true, Bool.false_eq_true, if_false]
  · intro hr
    simp only [ImageCMWriter.init, if_neg h1, if_neg h2]
    split
    · rfl
    · split
      · rfl
      · split
        · rfl
        · split
          · rfl
          · rename_i c1 c2 c3 c4
            simp only [Bool.not_eq_true', Bool.not_eq_false, Bool.and_eq_true] at c1 c2 c3 c4
            simp only [initRoom, c1.1.1, c1.1.2, c1.2, c2, c3.1, c3.2, c4, Bool.and_self] at hr
            exact absurd hr (by decide)

theorem init_result (K : Config) (s : ImageCMWriter) (width height : Int)
    (heapMatrix : Int → Nat) (heapChaos : Mem) :
    (badDims K width height →
      s.init K width height heapMatrix heapChaos = (WriterResult.WE_BAD_DIMS, s.clear))
    ∧ (¬ badDims K width height →
      ((s.init K width height heapMatrix heapChaos).1 = WriterResult.WE_OK
          ∧ initRoom K width height = true)
        ∨ ((s.init K width height heapMatrix heapChaos).1 = WriterResult.noReturn
          ∧ initRoom K width height = false)) := by
  have hpos := zone_size_pos K
  by_cases h1 : width < (K.FILTER_ZONE_SIZE : Int) ∨ height < (K.FILTER_ZONE_SIZE : Int)
  · constructor
    · intro _
      simp only [ImageCMWriter.init, if_pos h1]
    · intro hb
      exact absurd (by rcases h1 with h | h
                       · exact Or.inl h
                       · exact Or.inr (Or.inl h)) hb
  · have hw : (0 : Int) ≤ width := by omega
    have hh : (0 : Int) ≤ height := by omega
    have e1 := land_zone_mask_ne_zero_iff K width hw
    have e2 := land_zone_mask_ne_zero_iff K height hh
    by_cases h2 : Int.land width (K.FILTER_ZONE_SIZE_MASK : Int) ≠ 0
        ∨ Int.land height (K.FILTER_ZONE_SIZE_MASK : Int) ≠ 0
    · constructor
      · intro _
        simp only [ImageCMWriter.init, if_neg h1, if_pos h2]
      · intro hb
        refine absurd ?_ hb
        rcases h2 with h | h
        · exact Or.inr (Or.inr (Or.inl (e1.1 h)))
        · exact Or.inr (Or.inr (Or.inr (e2.1 h)))
    · constructor
      · intro hb
        exfalso
        rcases hb with h | h | h | h
        · exact h1 (Or.inl h)
        · exact h1 (Or.inr h)
        · exact h2 (Or.inl (e1.2 h))
        · exact h2 (Or.inr (e2.2 h))
      · intro _
        obtain ⟨p1, p2⟩ := init_past_checks K s width height heapMatrix heapChaos h1 h2
        cases hr : initRoom K width height
        · exact Or.inr ⟨p2 hr, rfl⟩
        · exact Or.inl ⟨by rw [p1 hr], rfl⟩

/-- C4: when the dimensions are invalid (`width` or `height` below `FILTER_ZONE_SIZE` or
not a multiple of it), `initFromRGBA` returns the code of `init`, which is `WE_BAD_DIMS`,
and leaves the writer exactly as `clear` leaves it: the filter selection and the
statistics pass have had no effect, the tile map does not exist, the log of pushed
symbols and the finalize flag are the ones from before the call, and the image, mask
and LZ references are the ones from before the call. -/
theorem initFromRGBA_bad_dims (K : Config) (s : ImageCMWriter) (rgba : Mem)
    (width height : Int) (mask lz : Nat → Nat → Bool) (heapMatrix : Int → Nat)
    (heapChaos : Mem)
    (hbad : width < (K.FILTER_ZONE_SIZE : Int) ∨ height < (K.FILTER_ZONE_SIZE : Int)
      ∨ ¬ ((K.FILTER_ZONE_SIZE : Int) ∣ width) ∨ ¬ ((K.FILTER_ZONE_SIZE : Int) ∣ height)) :
    s.initFromRGBA K rgba width height mask lz heapMatrix heapChaos
        = ((s.init K width height heapMatrix heapChaos).1, s.clear)
      ∧ (s.init K width height heapMatrix heapChaos).1 = WriterResult.WE_BAD_DIMS
      ∧ (s.initFromRGBA K rgba width height mask lz heapMatrix heapChaos).2._matrix = none
      ∧ (s.initFromRGBA K rgba width height mask lz heapMatrix heapChaos).2._encoder
          = s._encoder
      ∧ (s.initFromRGBA K rgba width height mask lz heapMatrix heapChaos).2._encoder_finalized
          = s._encoder_finalized
      ∧ (s.initFromRGBA K rgba width height mask lz heapMatrix heapChaos).2._rgba = s._rgba
      ∧ (s.initFromRGBA K rgba width height mask lz heapMatrix heapChaos).2._mask = s._mask
      ∧ (s.initFromRGBA K rgba width height mask lz heapMatrix heapChaos).2._lz = s._lz := by
  have e := (init_result K s width height heapMatrix heapChaos).1 hbad
  have e2 : s.initFromRGBA K rgba width height mask lz heapMatrix heapChaos
      = (WriterResult.WE_BAD_DIMS, s.clear) := by
    simp only [ImageCMWriter.initFromRGBA, e]
  rw [e2, e]
  exact ⟨rfl, rfl, rfl, rfl, rfl, rfl, rfl, rfl⟩

/-- Witness of C4: a 12 x 8 image with 8 x 8 tiles is rejected and no tile map is left. -/
theorem initFromRGBA_bad_dims_witness :
    ((12 : Int) < (demoConfig.FILTER_ZONE_SIZE : Int)
        ∨ (8 : Int) < (demoConfig.FILTER_ZONE_SIZE : Int)
        ∨ ¬ ((demoConfig.FILTER_ZONE_SIZE : Int) ∣ 12)
        ∨ ¬ ((demoConfig.FILTER_ZONE_SIZE : Int) ∣ 8))
      ∧ (freshWriter.initFromRGBA demoConfig (fun _ => 7) 12 8 (fun _ _ => true)
          (fun _ _ => true) (fun _ => 0) (fun _ => 0)).1 = WriterResult.WE_BAD_DIMS
      ∧ (freshWriter.initFromRGBA demoConfig (fun _ => 7) 12 8 (fun _ _ => true)
          (fun _ _ => true) (fun _ => 0) (fun _ => 0)).2._matrix = none :=
  ⟨by decide,
    by rw [(initFromRGBA_bad_dims demoConfig freshWriter (fun _ => 7) 12 8 (fun _ _ => true)
      (fun _ _ => true) (fun _ => 0) (fun _ => 0) (by decide)).1]
       exact (initFromRGBA_bad_dims demoConfig freshWriter (fun _ => 7) 12 8
        (fun _ _ => true) (fun _ _ => true) (fun _ => 0) (fun _ => 0) (by decide)).2.1,
    (initFromRGBA_bad_dims demoConfig freshWriter (fun _ => 7) 12 8 (fun _ _ => true)
      (fun _ _ => true) (fun _ => 0) (fun _ => 0) (by decide)).2.2.1⟩

/-! ## Encoder: the pixel step of both passes -/

theorem load_store_ne (m : Mem) (a : Int) (v : Nat) (b : Int) (h : b ≠ a) :
    (m.store a v).load b = m.load b := by
  unfold Mem.load Mem.store
  rw [if_neg h]

theorem load_store_same (m : Mem) (a : Int) (v : Nat) :
    (m.store a v).load a = v % 256 := by
  unfold Mem.load Mem.store
  rw [if_pos rfl, Nat.mod_mod]

theorem range_planes : List.range PLANES = [0, 1, 2, 3] := rfl

theorem nonzero_guard (a b c d : Prop) [Decidable a] [Decidable b] [Decidable c]
    [Decidable d] :
    ((if a then (1 : Int) else 0) + (if b then 1 else 0) + (if c then 1 else 0)
      + (if d then 1 else 0)) ≥ 0 := by
  split_ifs <;> omega

theorem stats_plane_loop (K : Config) (last : Int) (yuv : Nat → Nat) (found : Option Nat)
    (st : Mem × List Push) :
    (List.range PLANES).foldl (fun (acc : Mem × List Push) (c : Nat) =>
      let chaos := K.CHAOS_TABLE (K.chaosScore (acc.1.load (last + ((c : Int) - 4)))
        + K.chaosScore (acc.1.load (last + (c : Int)))) % 256
      let log := match found with
        | none => acc.2 ++ [(c, chaos, yuv c)]
        | some ii => if c = 0 then acc.2 ++ [(0, chaos, 256 + ii)] else acc.2
      (acc.1.store (last + (c : Int)) (yuv c), log)) st
      = (storeCell st.1 last yuv,
          st.2 ++ match found with
            | none => [(0, chaosLevel K st.1 last 0, yuv 0), (1, chaosLevel K st.1 last 1, yuv 1),
                (2, chaosLevel K st.1 last 2, yuv 2), (3, chaosLevel K st.1 last 3, yuv 3)]
            | some ii => [(0, chaosLevel K st.1 last 0, 256 + ii)]) := by
  rw [range_planes]
  simp only [List.foldl_cons, List.foldl_nil]
  have e1 : ∀ (m : Mem) (v : Nat), (m.store (last + ((0 : Nat) : Int)) v).load
      (last + (((1 : Nat) : Int) - 4)) = m.load (last + (((1 : Nat) : Int) - 4)) :=
    fun m v => load_store_ne m _ v _ (by omega)
  have e2 : ∀ (m : Mem) (v : Nat), (m.store (last + ((0 : Nat) : Int)) v).load
      (last + ((1 : Nat) : Int)) = m.load (last + ((1 : Nat) : Int)) :=
    fun m v => load_store_ne m _ v _ (by omega)
  have e3 : ∀ (m : Mem) (v w : Nat), ((m.store (last + ((0 : Nat) : Int)) v).store
      (last + ((1 : Nat) : Int)) w).load (last + (((2 : Nat) : Int) - 4))
      = m.load (last + (((2 : Nat) : Int) - 4)) := fun m v w => by
    rw [load_store_ne _ _ _ _ (by omega), load_store_ne _ _ _ _ (by omega)]
  have e4 : ∀ (m : Mem) (v w : Nat), ((m.store (last + ((0 : Nat) : Int)) v).store
      (last + ((1 : Nat) : Int)) w).load (last + ((2 : Nat) : Int))
      = m.load (last + ((2 : Nat) : Int)) := fun m v w => by
    rw [load_store_ne _ _ _ _ (by omega), load_store_ne _ _ _ _ (by omega)]
  have e5 : ∀ (m : Mem) (v w u : Nat), (((m.store (last + ((0 : Nat) : Int)) v).store
      (last + ((1 : Nat) : Int)) w).store (last + ((2 : Nat) : Int)) u).load
        (last + (((3 : Nat) : Int) - 4))
      = m.load (last + (((3 : Nat) : Int) - 4)) := fun m v w u => by
    rw [load_store_ne _ _ _ _ (by omega), load_store_ne _ _ _ _ (by omega),
      load_store_ne _ _ _ _ (by omega)]
  have e6 : ∀ (m : Mem) (v w u : Nat), (((m.store (last + ((0 : Nat) : Int)) v).store
      (last + ((1 : Nat) : Int)) w).store (last + ((2 : Nat) : Int)) u).load
        (last + ((3 : Nat) : Int))
      = m.load (last + ((3 : Nat) : Int)) := fun m v w u => by
    rw [load_store_ne _ _ _ _ (by omega), load_store_ne _ _ _ _ (by omega),
      load_store_ne _ _ _ _ (by omega)]
  cases found with
  | none =>
    simp only [e1, e2, e3, e4, e5, e6, chaosLevel, storeCell, List.append_assoc,
      List.singleton_append, List.cons_append, List.nil_append]
  | some ii =>
    simp only [chaosLevel, storeCell, if_true, OfNat.ofNat_ne_zero, if_false,
      one_ne_zero]

theorem stats_zero_loop (last : Int) (st : Mem × List Push) :
    (List.range PLANES).foldl (fun (acc : Mem × List Push) (c : Nat) =>
      (acc.1.store (last + (c : Int)) 0, acc.2)) st
      = (storeCell st.1 last (fun _ => 0), st.2) := by
  rw [range_planes]
  rfl

theorem uncovered_test (s : ImageCMWriter) (x y : Nat) :
    (!(s._lz x y) && !(s._mask x y)) = !(covered s x y) := by
  unfold covered
  cases s._lz x y <;> cases s._mask x y <;> rfl

theorem chaosStatsPixel_eq (K : Config) (s : ImageCMWriter) (y : Nat) (st : Mem × List Push)
    (x : Nat) :
    chaosStatsPixel K s y st x
      = if covered s x y then (storeCell st.1 (contextCursor K x) (fun _ => 0), st.2)
        else (storeCell st.1 (contextCursor K x) (residualTuple K s x y),
          st.2 ++ pixelSymbols K st.1 (contextCursor K x) (residualTuple K s x y)) := by
  unfold chaosStatsPixel
  lift_lets
  extract_lets width p last filter cf sf pred temp yuv nonzero found
  rw [uncovered_test]
  by_cases hc : covered s x y = true
  · rw [if_pos hc, hc]
    simp only [Bool.not_true, Bool.false_eq_true, if_false]
    exact stats_zero_loop last st
  · rw [if_neg hc]
    have hc2 : (!(covered s x y)) = true := by
      revert hc
      cases covered s x y <;> simp
    rw [if_pos hc2]
    rw [stats_plane_loop K last yuv found st]
    have hfound : found = recentMatch K st.1 last yuv := by
      show (if nonzero ≥ 0 then _ else none) = _
      rw [if_pos (nonzero_guard _ _ _ _)]
      rfl
    rw [hfound]
    rfl

theorem write_plane_loop (K : Config) (last : Int) (yuv : Nat → Nat) (found : Option Nat)
    (st : Mem × List WriteEvent) :
    (List.range PLANES).foldl (fun (acc : Mem × List WriteEvent) (c : Nat) =>
      let chaos := K.CHAOS_TABLE (K.chaosScore (acc.1.load (last + ((c : Int) - 4)))
        + K.chaosScore (acc.1.load (last + (c : Int)))) % 256
      let out := match found with
        | none => acc.2 ++ [WriteEvent.encode c chaos (yuv c)]
        | some ii => if c = 0 then acc.2 ++ [WriteEvent.encode c chaos (256 + ii)] else acc.2
      (acc.1.store (last + (c : Int)) (yuv c), out)) st
      = (storeCell st.1 last yuv,
          st.2 ++ (match found with
            | none => [(0, chaosLevel K st.1 last 0, yuv 0), (1, chaosLevel K st.1 last 1, yuv 1),
                (2, chaosLevel K st.1 last 2, yuv 2), (3, chaosLevel K st.1 last 3, yuv 3)]
            | some ii => [(0, chaosLevel K st.1 last 0, 256 + ii)]).map toEncode) := by
  rw [range_planes]
  simp only [List.foldl_cons, List.foldl_nil]
  have e1 : ∀ (m : Mem) (v : Nat), (m.store (last + ((0 : Nat) : Int)) v).load
      (last + (((1 : Nat) : Int) - 4)) = m.load (last + (((1 : Nat) : Int) - 4)) :=
    fun m v => load_store_ne m _ v _ (by omega)
  have e2 : ∀ (m : Mem) (v : Nat), (m.store (last + ((0 : Nat) : Int)) v).load
      (last + ((1 : Nat) : Int)) = m.load (last + ((1 : Nat) : Int)) :=
    fun m v => load_store_ne m _ v _ (by omega)
  have e3 : ∀ (m : Mem) (v w : Nat), ((m.store (last + ((0 : Nat) : Int)) v).store
      (last + ((1 : Nat) : Int)) w).load (last + (((2 : Nat) : Int) - 4))
      = m.load (last + (((2 : Nat) : Int) - 4)) := fun m v w => by
    rw [load_store_ne _ _ _ _ (by omega), load_store_ne _ _ _ _ (by omega)]
  have e4 : ∀ (m : Mem) (v w : Nat), ((m.store (last + ((0 : Nat) : Int)) v).store
      (last + ((1 : Nat) : Int)) w).load (last + ((2 : Nat) : Int))
      = m.load (last + ((2 : Nat) : Int)) := fun m v w => by
    rw [load_store_ne _ _ _ _ (by omega), load_store_ne _ _ _ _ (by omega)]
  have e5 : ∀ (m : Mem) (v w u : Nat), (((m.store (last + ((0 : Nat) : Int)) v).store
      (last + ((1 : Nat) : Int)) w).store (last + ((2 : Nat) : Int)) u).load
        (last + (((3 : Nat) : Int) - 4))
      = m.load (last + (((3 : Nat) : Int) - 4)) := fun m v w u => by
    rw [load_store_ne _ _ _ _ (by omega), load_store_ne _ _ _ _ (by omega),
      load_store_ne _ _ _ _ (by omega)]
  have e6 : ∀ (m : Mem) (v w u : Nat), (((m.store (last + ((0 : Nat) : Int)) v).store
      (last + ((1 : Nat) : Int)) w).store (last + ((2 : Nat) : Int)) u).load
        (last + ((3 : Nat) : Int))
      = m.load (last + ((3 : Nat) : Int)) := fun m v w u => by
    rw [load_store_ne _ _ _ _ (by omega), load_store_ne _ _ _ _ (by omega),
      load_store_ne _ _ _ _ (by omega)]
  cases found with
  | none =>
    simp only [e1, e2, e3, e4, e5, e6, chaosLevel, storeCell, List.append_assoc,
      List.singleton_append, List.cons_append, List.nil_append, List.map_cons, List.map_nil,
      toEncode]
  | some ii =>
    simp only [chaosLevel, storeCell, if_true, OfNat.ofNat_ne_zero, if_false,
      one_ne_zero, List.map_cons, List.map_nil, toEncode]

theorem write_zero_loop (last : Int) (st : Mem × List WriteEvent) :
    (List.range PLANES).foldl (fun (acc : Mem × List WriteEvent) (c : Nat) =>
      (acc.1.store (last + (c : Int)) 0, acc.2)) st
      = (storeCell st.1 last (fun _ => 0), st.2) := by
  rw [range_planes]
  rfl

theorem writeChaosPixel_eq (K : Config) (s : ImageCMWriter) (y : Nat)
    (st : Mem × List WriteEvent) (x : Nat) :
    writeChaosPixel K s y st x
      = if covered s x y then
          (storeCell st.1 (contextCursor K x) (fun _ => 0), st.2 ++ tileSymbols K s x y)
        else (storeCell st.1 (contextCursor K x) (residualTuple K s x y),
          (st.2 ++ tileSymbols K s x y)
            ++ (pixelSymbols K st.1 (contextCursor K x) (residualTuple K s x y)).map toEncode) := by
  unfold writeChaosPixel
  lift_lets
  extract_lets width p last filter sf cf writer cf2 sf2 pred temp yuv nonzero found
  rw [uncovered_test]
  have hw : writer = st.2 ++ tileSymbols K s x y := by
    show (if _ then _ else _) = _
    unfold tileSymbols
    split
    · rfl
    · rw [List.append_nil]
  by_cases hc : covered s x y = true
  · rw [if_pos hc, hc]
    simp only [Bool.not_true, Bool.false_eq_true, if_false]
    rw [write_zero_loop last (st.1, writer), hw]
    rfl
  · rw [if_neg hc]
    have hc2 : (!(covered s x y)) = true := by
      revert hc
      cases covered s x y <;> simp
    rw [if_pos hc2]
    rw [write_plane_loop K last yuv found (st.1, writer), hw]
    have hfound : found = recentMatch K st.1 last yuv := by
      show (if nonzero ≥ 0 then _ else none) = _
      rw [if_pos (nonzero_guard _ _ _ _)]
      rfl
    rw [hfound]
    rfl

/-! ## Encoder: recent-symbol match -/

theorem windowMatches_iff (K : Config) (m : Mem) (last : Int) (yuv : Nat → Nat) (ii : Nat) :
    windowMatches K m last yuv ii = true ↔ CellEquals K m last yuv ii := by
  unfold windowMatches CellEquals
  simp only [Bool.and_eq_true, beq_iff_eq]
  constructor
  · rintro ⟨⟨⟨h0, h1⟩, h2⟩, h3⟩ k hk
    have hk' : k = 0 ∨ k = 1 ∨ k = 2 ∨ k = 3 := by omega
    rcases hk' with rfl | rfl | rfl | rfl
    · exact h0
    · exact h1
    · exact h2
    · exact h3
  · intro h
    exact ⟨⟨⟨h 0 (by decide), h 1 (by decide)⟩, h 2 (by decide)⟩, h 3 (by decide)⟩

theorem recentMatch_some (K : Config) (m : Mem) (last : Int) (yuv : Nat → Nat) (j : Nat)
    (h : recentMatch K m last yuv = some j) :
    j < K.RECENT_SYMS ∧ CellEquals K m last yuv j
      ∧ ∀ i, i < j → ¬ CellEquals K m last yuv i := by
  unfold recentMatch at h
  rw [List.find?_range_eq_some] at h
  obtain ⟨h1, h2, h3⟩ := h
  refine ⟨List.mem_range.mp h2, (windowMatches_iff K m last yuv j).mp h1, ?_⟩
  intro i hi hce
  have := h3 i hi
  rw [(windowMatches_iff K m last yuv i).mpr hce] at this
  exact absurd this (by decide)

theorem recentMatch_none (K : Config) (m : Mem) (last : Int) (yuv : Nat → Nat)
    (h : recentMatch K m last yuv = none) :
    ∀ i, i < K.RECENT_SYMS → ¬ CellEquals K m last yuv i := by
  unfold recentMatch at h
  rw [List.find?_eq_none] at h
  intro i hi hce
  exact h i (List.mem_range.mpr hi) ((windowMatches_iff K m last yuv i).mpr hce)

theorem residualTuple_lt (K : Config) (s : ImageCMWriter) (x y c : Nat) :
    residualTuple K s x y c < 256 := by
  unfold residualTuple u8sub
  split
  · exact Nat.mod_lt _ (by decide)
  · split <;> exact Nat.mod_lt _ (by decide)

/-- C9: at an uncovered pixel both passes hand the same symbols `syms` to the coders
(`push` in `chaosStats`, `encode` in `writeChaos`, behind the tile-map symbols).  If a
symbol `256 + j` goes to plane Y, then `j < RECENT_SYMS`, the four bytes of the context
cell `j - RECENT_AHEAD` pixels before the cursor equal the residual tuple of the pixel,
and no smaller index has that property; if a symbol below 256 goes to plane Y, no index
of `[0, RECENT_SYMS)` has it. -/
theorem recent_match_exclusive (K : Config) (s : ImageCMWriter) (x y : Nat) (m : Mem)
    (log : List Push) (out : List WriteEvent) (hunc : covered s x y = false) :
    ∃ syms : List Push,
      (chaosStatsPixel K s y (m, log) x).2 = log ++ syms
        ∧ (writeChaosPixel K s y (m, out) x).2
            = (out ++ tileSymbols K s x y) ++ syms.map toEncode
        ∧ ∀ l v, (0, l, v) ∈ syms →
            (256 ≤ v → ∃ j, j < K.RECENT_SYMS ∧ v = 256 + j
              ∧ CellEquals K m (contextCursor K x) (residualTuple K s x y) j
              ∧ ∀ i, i < j → ¬ CellEquals K m (contextCursor K x) (residualTuple K s x y) i)
            ∧ (v < 256 →
              ∀ i, i < K.RECENT_SYMS →
                ¬ CellEquals K m (contextCursor K x) (residualTuple K s x y) i) := by
  refine ⟨pixelSymbols K m (contextCursor K x) (residualTuple K s x y), ?_, ?_, ?_⟩
  · rw [chaosStatsPixel_eq, hunc]
    rfl
  · rw [writeChaosPixel_eq, hunc]
    rfl
  · intro l v hmem
    unfold pixelSymbols at hmem
    cases hf : recentMatch K m (contextCursor K x) (residualTuple K s x y) with
    | none =>
      rw [hf] at hmem
      have hv : v = residualTuple K s x y 0 := by
        simp only [List.mem_cons, Prod.mk.injEq, List.mem_nil_iff, or_false] at hmem
        rcases hmem with h | h | h | h
        · exact h.2.2
        · exact absurd h.1 (by decide)
        · exact absurd h.1 (by decide)
        · exact absurd h.1 (by decide)
      have hlt := residualTuple_lt K s x y 0
      refine ⟨fun hge => ?_, fun _ => recentMatch_none K m _ _ hf⟩
      omega
    | some j =>
      rw [hf] at hmem
      simp only [List.mem_cons, Prod.mk.injEq, List.mem_nil_iff, or_false] at hmem
      obtain ⟨hj, hce, hmin⟩ := recentMatch_some K m _ _ j hf
      refine ⟨fun _ => ⟨j, hj, hmem.2.2, hce, hmin⟩, fun hlt => ?_⟩
      omega

/-- Witness of C9: the uncovered pixel `(0, 1)` of the sample image on an all-zero context. -/
theorem recent_match_exclusive_witness :
    covered sampleWriter 0 1 = false
      ∧ ∃ syms : List Push,
        (chaosStatsPixel demoConfig sampleWriter 1 (fun _ => 0, []) 0).2 = [] ++ syms
          ∧ (writeChaosPixel demoConfig sampleWriter 1 (fun _ => 0, []) 0).2
              = ([] ++ tileSymbols demoConfig sampleWriter 0 1) ++ syms.map toEncode
          ∧ ∀ l v, (0, l, v) ∈ syms →
              (256 ≤ v → ∃ j, j < demoConfig.RECENT_SYMS ∧ v = 256 + j
                ∧ CellEquals demoConfig (fun _ => 0) (contextCursor demoConfig 0)
                    (residualTuple demoConfig sampleWriter 0 1) j
                ∧ ∀ i, i < j → ¬ CellEquals demoConfig (fun _ => 0) (contextCursor demoConfig 0)
                    (residualTuple demoConfig sampleWriter 0 1) i)
              ∧ (v < 256 →
                ∀ i, i < demoConfig.RECENT_SYMS →
                  ¬ CellEquals demoConfig (fun _ => 0) (contextCursor demoConfig 0)
                    (residualTuple demoConfig sampleWriter 0 1) i) :=
  ⟨by decide,
    recent_match_exclusive demoConfig sampleWriter 0 1 (fun _ => 0) [] [] (by decide)⟩

/-! ## Encoder: symbol counts -/

theorem residualEvents_append (a b : List WriteEvent) :
    residualEvents (a ++ b) = residualEvents a ++ residualEvents b := by
  induction a with
  | nil => rfl
  | cons e es ih =>
    cases e <;> simp [residualEvents, ih]

theorem residualEvents_toEncode (syms : List Push) :
    residualEvents (syms.map toEncode) = syms := by
  induction syms with
  | nil => rfl
  | cons q qs ih =>
    simp [residualEvents, toEncode, ih]

theorem residualEvents_tileSymbols (K : Config) (s : ImageCMWriter) (x y : Nat) :
    residualEvents (tileSymbols K s x y) = [] := by
  unfold tileSymbols
  split <;> rfl

theorem residualEvents_overhead (K : Config) : residualEvents (writeChaosOverhead K) = [] := by
  unfold writeChaosOverhead
  generalize List.range PLANES = l
  induction l with
  | nil => rfl
  | cons a l ih =>
    rw [List.flatMap_cons, residualEvents_append, ih, List.append_nil]
    generalize List.range K.CHAOS_LEVELS = l2
    induction l2 with
    | nil => rfl
    | cons b l2 ih2 => simpa [residualEvents] using ih2

theorem pixelSymbols_length (K : Config) (m : Mem) (last : Int) (yuv : Nat → Nat) :
    (pixelSymbols K m last yuv).length
      = if (recentMatch K m last yuv).isSome then 1 else 4 := by
  unfold pixelSymbols
  cases recentMatch K m last yuv <;> rfl

theorem writeChaosPixel_residuals (K : Config) (s : ImageCMWriter) (y : Nat)
    (st : Mem × List WriteEvent) (x : Nat) :
    residualEvents (writeChaosPixel K s y st x).2
      = residualEvents st.2
        ++ (if covered s x y then []
            else pixelSymbols K st.1 (contextCursor K x) (residualTuple K s x y)) := by
  rw [writeChaosPixel_eq]
  split
  · simp only [residualEvents_append, residualEvents_tileSymbols, List.append_nil]
  · simp only [residualEvents_append, residualEvents_tileSymbols, List.append_nil,
      residualEvents_toEncode]

theorem writeChaosPixel_count (K : Config) (s : ImageCMWriter) (y : Nat)
    (st : Mem × List WriteEvent) (x : Nat) :
    (residualEvents (writeChaosPixel K s y st x).2).length
      = (residualEvents st.2).length + pixelSymbolCount K s st.1 x y := by
  rw [writeChaosPixel_residuals, List.length_append]
  unfold pixelSymbolCount
  split
  · rfl
  · rw [pixelSymbols_length]

theorem writeChaosRow_succ (K : Config) (s : ImageCMWriter) (y n : Nat)
    (st : Mem × List WriteEvent) :
    writeChaosRow K s y (n + 1) st = writeChaosPixel K s y (writeChaosRow K s y n st) n := by
  unfold writeChaosRow
  rw [List.range_succ, List.foldl_append]
  rfl

theorem writeChaosRows_succ (K : Config) (s : ImageCMWriter) (n : Nat)
    (st : Mem × List WriteEvent) :
    writeChaosRows K s (n + 1) st
      = writeChaosRow K s n s._width (writeChaosRows K s n st) := by
  unfold writeChaosRows
  rw [List.range_succ, List.foldl_append]
  rfl

theorem chaosStatsRow_succ (K : Config) (s : ImageCMWriter) (y n : Nat)
    (st : Mem × List Push) :
    chaosStatsRow K s y (n + 1) st = chaosStatsPixel K s y (chaosStatsRow K s y n st) n := by
  unfold chaosStatsRow
  rw [List.range_succ, List.foldl_append]
  rfl

theorem chaosStatsRows_succ (K : Config) (s : ImageCMWriter) (n : Nat)
    (st : Mem × List Push) :
    chaosStatsRows K s (n + 1) st
      = chaosStatsRow K s n s._width (chaosStatsRows K s n st) := by
  unfold chaosStatsRows
  rw [List.range_succ, List.foldl_append]
  rfl

theorem writeChaosRow_count (K : Config) (s : ImageCMWriter) (y n : Nat)
    (st : Mem × List WriteEvent) :
    (residualEvents (writeChaosRow K s y n st).2).length
      = (residualEvents st.2).length
        + ((List.range n).map fun x =>
            pixelSymbolCount K s (writeChaosRow K s y x st).1 x y).sum := by
  induction n with
  | zero => rfl
  | succ n ih =>
    rw [writeChaosRow_succ, writeChaosPixel_count, ih, List.sum_range_succ]
    omega

theorem writeChaosRows_count (K : Config) (s : ImageCMWriter) (n : Nat)
    (st : Mem × List WriteEvent) :
    (residualEvents (writeChaosRows K s n st).2).length
      = (residualEvents st.2).length
        + ((List.range n).map fun y =>
            ((List.range s._width).map fun x =>
              pixelSymbolCount K s
                (writeChaosRow K s y x (writeChaosRows K s y st)).1 x y).sum).sum := by
  induction n with
  | zero => rfl
  | succ n ih =>
    rw [writeChaosRows_succ, writeChaosRow_count, ih, List.sum_range_succ]
    omega

/-- C7: at a pixel covered by LZ or by the mask, `chaosStats` pushes nothing and
`writeChaos` encodes no residual symbol; and the number of residual symbols that
`writeChaos` encodes is the sum, over the pixels in scan order, of 0 for a covered
pixel, 1 for an uncovered pixel with a recent match and 4 for an uncovered pixel
without, the match being searched in the context memory that the scan has reached. -/
theorem mask_lz_neutrality (K : Config) (s : ImageCMWriter) (chaos : Mem)
    (writer : List WriteEvent) (hchaos : s._chaos = some chaos) :
    (∀ (x y : Nat) (m : Mem) (log : List Push) (out : List WriteEvent),
      covered s x y = true →
        (chaosStatsPixel K s y (m, log) x).2 = log
          ∧ residualEvents (writeChaosPixel K s y (m, out) x).2 = residualEvents out)
    ∧ (residualEvents (s.writeChaos K writer).2.2).length
        = (residualEvents writer).length
          + ((List.range s._height).map fun y =>
              ((List.range s._width).map fun x =>
                if covered s x y then 0
                else if (recentMatch K
                    (writeChaosRow K s y x
                      (writeChaosRows K s y (writeChaosStart K s chaos writer))).1
                    (contextCursor K x) (residualTuple K s x y)).isSome then 1
                else 4).sum).sum := by
  constructor
  · intro x y m log out hcov
    constructor
    · rw [chaosStatsPixel_eq, hcov]
      rfl
    · rw [writeChaosPixel_residuals, hcov]
      simp
  · have h1 : (s.writeChaos K writer).2.2
        = (writeChaosRows K s s._height (writeChaosStart K s chaos writer)).2 := by
      unfold ImageCMWriter.writeChaos
      rw [hchaos]
    rw [h1, writeChaosRows_count]
    have h2 : residualEvents (writeChaosStart K s chaos writer).2 = residualEvents writer := by
      unfold writeChaosStart
      rw [residualEvents_append, residualEvents_overhead, List.append_nil]
    rw [h2]
    rfl

/-- Witness of C7: the symbol count of `writeChaos` on the sample writer. -/
theorem mask_lz_neutrality_witness :
    sampleWriter._chaos = some (fun _ => 9)
      ∧ (residualEvents (sampleWriter.writeChaos demoConfig []).2.2).length
        = (residualEvents []).length
          + ((List.range sampleWriter._height).map fun y =>
              ((List.range sampleWriter._width).map fun x =>
                if covered sampleWriter x y then 0
                else if (recentMatch demoConfig
                    (writeChaosRow demoConfig sampleWriter y x
                      (writeChaosRows demoConfig sampleWriter y
                        (writeChaosStart demoConfig sampleWriter (fun _ => 9) []))).1
                    (contextCursor demoConfig x)
                    (residualTuple demoConfig sampleWriter x y)).isSome then 1
                else 4).sum).sum :=
  ⟨rfl, (mask_lz_neutrality demoConfig sampleWriter (fun _ => 9) [] rfl).2⟩

/-! ## Encoder: agreement of the two passes -/

theorem storeCell_outside (m : Mem) (last : Int) (v : Nat → Nat) (i : Int)
    (h : i < last ∨ last + 4 ≤ i) : storeCell m last v i = m i := by
  unfold storeCell Mem.store
  rw [if_neg (by omega), if_neg (by omega), if_neg (by omega), if_neg (by omega)]

theorem storeCell_load_outside (m : Mem) (last : Int) (v : Nat → Nat) (i : Int)
    (h : i < last ∨ last + 4 ≤ i) : (storeCell m last v).load i = m.load i := by
  unfold Mem.load
  rw [storeCell_outside m last v i h]

theorem storeCell_load_inside (m : Mem) (last : Int) (v : Nat → Nat) (k : Nat) (hk : k < 4) :
    (storeCell m last v).load (last + (k : Int)) = v k % 256 := by
  have hk' : k = 0 ∨ k = 1 ∨ k = 2 ∨ k = 3 := by omega
  unfold storeCell
  rcases hk' with rfl | rfl | rfl | rfl
  · rw [load_store_ne _ _ _ _ (by omega), load_store_ne _ _ _ _ (by omega),
      load_store_ne _ _ _ _ (by omega), load_store_same]
  · rw [load_store_ne _ _ _ _ (by omega), load_store_ne _ _ _ _ (by omega), load_store_same]
  · rw [load_store_ne _ _ _ _ (by omega), load_store_same]
  · rw [load_store_same]

theorem covered_congr (a b : ImageCMWriter) (h : SameScan a b) (x y : Nat) :
    covered a x y = covered b x y := by
  obtain ⟨-, -, -, h4, h5⟩ := h
  unfold covered
  rw [h4, h5]

theorem residualTuple_congr (K : Config) (a b : ImageCMWriter) (h : SameScan a b) (x y : Nat)
    (hf : a.getFilter K x y = b.getFilter K x y) :
    residualTuple K a x y = residualTuple K b x y := by
  obtain ⟨h1, h2, -, -, -⟩ := h
  unfold residualTuple
  rw [h1, h2, hf]

theorem pixel_agree (K : Config) (a b : ImageCMWriter) (h : SameScan a b) (x y : Nat)
    (hf : covered a x y = false → a.getFilter K x y = b.getFilter K x y)
    (L R : List Push) (p : Mem × List Push) (q : Mem × List WriteEvent)
    (hpq : PassAgree L R p q) :
    PassAgree L R (chaosStatsPixel K a y p x) (writeChaosPixel K b y q x) := by
  obtain ⟨hm, P, hP1, hP2⟩ := hpq
  rw [chaosStatsPixel_eq, writeChaosPixel_eq, ← covered_congr a b h x y]
  by_cases hc : covered a x y = true
  · rw [if_pos hc, if_pos hc]
    refine ⟨?_, P, hP1, ?_⟩
    · show storeCell p.1 (contextCursor K x) (fun _ => 0)
        = storeCell q.1 (contextCursor K x) (fun _ => 0)
      rw [hm]
    · show residualEvents (q.2 ++ tileSymbols K b x y) = _
      rw [residualEvents_append, residualEvents_tileSymbols, List.append_nil, hP2]
  · rw [if_neg hc, if_neg hc]
    have hc' : covered a x y = false := by
      revert hc
      cases covered a x y <;> simp
    rw [← residualTuple_congr K a b h x y (hf hc'), ← hm]
    refine ⟨rfl, P ++ pixelSymbols K p.1 (contextCursor K x) (residualTuple K a x y), ?_, ?_⟩
    · show p.2 ++ _ = _
      rw [hP1, List.append_assoc]
    · show residualEvents ((q.2 ++ tileSymbols K b x y) ++ _) = _
      rw [residualEvents_append, residualEvents_append, residualEvents_tileSymbols,
        List.append_nil, residualEvents_toEncode, hP2, List.append_assoc]

theorem row_agree (K : Config) (a b : ImageCMWriter) (h : SameScan a b)
    (hf : FilterAgree K a b) (y : Nat) (hy : y < a._height) (L R : List Push) (n : Nat)
    (hn : n ≤ a._width) (p : Mem × List Push) (q : Mem × List WriteEvent)
    (hpq : PassAgree L R p q) :
    PassAgree L R (chaosStatsRow K a y n p) (writeChaosRow K b y n q) := by
  induction n with
  | zero => exact hpq
  | succ n ih =>
    rw [chaosStatsRow_succ, writeChaosRow_succ]
    exact pixel_agree K a b h n y (hf n y (by omega) hy) L R _ _ (ih (by omega))

theorem rows_agree (K : Config) (a b : ImageCMWriter) (h : SameScan a b)
    (hf : FilterAgree K a b) (L R : List Push) (n : Nat) (hn : n ≤ a._height)
    (p : Mem × List Push) (q : Mem × List WriteEvent) (hpq : PassAgree L R p q) :
    PassAgree L R (chaosStatsRows K a n p) (writeChaosRows K b n q) := by
  induction n with
  | zero => exact hpq
  | succ n ih =>
    rw [chaosStatsRows_succ, writeChaosRows_succ, ← h.2.1]
    exact row_agree K a b h hf n (by omega) L R a._width (Nat.le_refl _) _ _ (ih (by omega))

theorem contextCursor_eq (K : Config) (x : Nat) :
    contextCursor K x = (K.RECENT_SYMS : Int) * 4 + (x : Int) * 4 := rfl

theorem chaosStatsPixel_frame (K : Config) (s : ImageCMWriter) (y : Nat)
    (st : Mem × List Push) (x : Nat) (i : Int)
    (hi : i < contextCursor K x ∨ contextCursor K x + 4 ≤ i) :
    (chaosStatsPixel K s y st x).1 i = st.1 i := by
  rw [chaosStatsPixel_eq]
  split
  · exact storeCell_outside st.1 _ (fun _ => 0) i hi
  · exact storeCell_outside st.1 _ (residualTuple K s x y) i hi

theorem chaosStatsRow_frame (K : Config) (s : ImageCMWriter) (y n : Nat)
    (st : Mem × List Push) (i : Int)
    (hi : i < contextCursor K 0 ∨ contextCursor K n ≤ i) :
    (chaosStatsRow K s y n st).1 i = st.1 i := by
  induction n with
  | zero => rfl
  | succ n ih =>
    simp only [contextCursor_eq] at hi ih
    push_cast at hi
    rw [chaosStatsRow_succ, chaosStatsPixel_frame, ih]
    · omega
    · simp only [contextCursor_eq]
      omega

theorem chaosStatsRows_frame (K : Config) (s : ImageCMWriter) (n : Nat)
    (st : Mem × List Push) (i : Int)
    (hi : i < contextCursor K 0 ∨ contextCursor K s._width ≤ i) :
    (chaosStatsRows K s n st).1 i = st.1 i := by
  induction n with
  | zero => rfl
  | succ n ih => rw [chaosStatsRows_succ, chaosStatsRow_frame K s n s._width _ i hi, ih]

/-! ## Encoder: what the tile-map passes preserve -/

theorem foldl_invariant {α β : Type} (P : α → Prop) (f : α → β → α) (l : List β) (a : α)
    (h0 : P a) (hstep : ∀ a b, b ∈ l → P a → P (f a b)) : P (l.foldl f a) := by
  induction l generalizing a with
  | nil => exact h0
  | cons b l ih =>
    rw [List.foldl_cons]
    exact ih (f a b) (hstep a b (List.mem_cons_self b l) h0)
      (fun a' b' hb' => hstep a' b' (List.mem_cons_of_mem b hb'))

theorem sameButMatrix_refl (a : ImageCMWriter) : SameButMatrix a a := rfl

theorem sameButMatrix_fields {a b : ImageCMWriter} (h : SameButMatrix a b) :
    a._w = b._w ∧ a._h = b._h ∧ a._width = b._width ∧ a._height = b._height
      ∧ a._rgba = b._rgba ∧ a._mask = b._mask ∧ a._lz = b._lz ∧ a._chaos = b._chaos
      ∧ a._chaos_size = b._chaos_size ∧ a._encoder = b._encoder := by
  unfold SameButMatrix at h
  rw [h]
  exact ⟨rfl, rfl, rfl, rfl, rfl, rfl, rfl, rfl, rfl, rfl⟩

theorem sameButMatrix_trans {a b c : ImageCMWriter} (h1 : SameButMatrix a b)
    (h2 : SameButMatrix b c) : SameButMatrix a c := by
  unfold SameButMatrix at *
  rw [h1, h2]

theorem sameButMatrix_setFilter (K : Config) (s : ImageCMWriter) (x y filter : Nat) :
    SameButMatrix (s.setFilter K x y filter) s := rfl

theorem sameButMatrix_covered {a b : ImageCMWriter} (h : SameButMatrix a b) (x y : Nat) :
    covered a x y = covered b x y := by
  obtain ⟨-, -, -, -, -, h6, h7, -⟩ := (sameButMatrix_fields h)
  unfold covered
  rw [h6, h7]

theorem zoneStarts_mem (K : Config) (w z : Nat) (h : z ∈ zoneStarts K (w * K.FILTER_ZONE_SIZE)) :
    ∃ t, t < w ∧ z = t * K.FILTER_ZONE_SIZE := by
  have hpos := zone_size_pos K
  unfold zoneStarts at h
  rw [List.mem_map] at h
  obtain ⟨t, ht, rfl⟩ := h
  refine ⟨t, ?_, rfl⟩
  rw [List.mem_range] at ht
  have e : (w * K.FILTER_ZONE_SIZE + K.FILTER_ZONE_SIZE - 1) / K.FILTER_ZONE_SIZE = w := by
    have e1 : w * K.FILTER_ZONE_SIZE + K.FILTER_ZONE_SIZE - 1
        = (K.FILTER_ZONE_SIZE - 1) + w * K.FILTER_ZONE_SIZE := by omega
    rw [e1, Nat.add_mul_div_right _ _ hpos, Nat.div_eq_of_lt (by omega), Nat.zero_add]
  rw [e] at ht
  exact ht

theorem tile_index_inj (w a b c d : Nat) (ha : a < w) (hc : c < w)
    (h : a + b * w = c + d * w) : a = c ∧ b = d := by
  have h1 : (a + b * w) % w = (c + d * w) % w := by rw [h]
  rw [Nat.add_mul_mod_self_right, Nat.add_mul_mod_self_right, Nat.mod_eq_of_lt ha,
    Nat.mod_eq_of_lt hc] at h1
  subst h1
  have h2 : b * w = d * w := by omega
  exact ⟨rfl, Nat.eq_of_mul_eq_mul_right (by omega) h2⟩

theorem shift_lt_of_lt (K : Config) (w x : Nat) (h : x < w * K.FILTER_ZONE_SIZE) :
    x >>> K.FILTER_ZONE_SIZE_SHIFT < w := by
  rw [Nat.shiftRight_eq_div_pow]
  unfold Config.FILTER_ZONE_SIZE at h
  rw [Nat.one_shiftLeft] at h
  exact Nat.div_lt_of_lt_mul (by rw [Nat.mul_comm]; exact h)

theorem shift_zone_start (K : Config) (t : Nat) :
    (t * K.FILTER_ZONE_SIZE) >>> K.FILTER_ZONE_SIZE_SHIFT = t := by
  rw [Nat.shiftRight_eq_div_pow]
  unfold Config.FILTER_ZONE_SIZE
  rw [Nat.one_shiftLeft]
  exact Nat.mul_div_cancel t (Nat.pow_pos (by decide))

theorem in_zone_of_shift (K : Config) (t x : Nat) (h : x >>> K.FILTER_ZONE_SIZE_SHIFT = t) :
    ∃ ii, ii < K.FILTER_ZONE_SIZE ∧ x = t * K.FILTER_ZONE_SIZE + ii := by
  rw [Nat.shiftRight_eq_div_pow] at h
  unfold Config.FILTER_ZONE_SIZE
  rw [Nat.one_shiftLeft]
  refine ⟨x % 2 ^ K.FILTER_ZONE_SIZE_SHIFT, Nat.mod_lt _ (Nat.pow_pos (by decide)), ?_⟩
  rw [← h, Nat.mul_comm]
  exact (Nat.div_add_mod x _).symm

theorem zoneOn_false (K : Config) (s : ImageCMWriter) (x y ii jj : Nat)
    (h : zoneOn K s x y = false) (hi : ii < K.FILTER_ZONE_SIZE) (hj : jj < K.FILTER_ZONE_SIZE) :
    covered s (x + ii) (y + jj) = true := by
  unfold zoneOn at h
  rw [List.any_eq_false] at h
  have h1 := h ii (List.mem_range.mpr hi)
  rw [Bool.not_eq_true, List.any_eq_false] at h1
  have h2 := h1 jj (List.mem_range.mpr hj)
  unfold covered
  revert h2
  cases s._lz (x + ii) (y + jj) <;> cases s._mask (x + ii) (y + jj) <;> simp

theorem getFilter_setFilter_ne (K : Config) (s : ImageCMWriter) (zx zy filter x y : Nat)
    (h : x >>> K.FILTER_ZONE_SIZE_SHIFT + y >>> K.FILTER_ZONE_SIZE_SHIFT * s._w
      ≠ zx >>> K.FILTER_ZONE_SIZE_SHIFT + zy >>> K.FILTER_ZONE_SIZE_SHIFT * s._w) :
    (s.setFilter K zx zy filter).getFilter K x y = s.getFilter K x y := by
  unfold ImageCMWriter.setFilter ImageCMWriter.getFilter
  cases hm : s._matrix with
  | none => rfl
  | some m =>
    have h' : ¬ (((x >>> K.FILTER_ZONE_SIZE_SHIFT + y >>> K.FILTER_ZONE_SIZE_SHIFT * s._w : Nat)
        : Int) = ((zx >>> K.FILTER_ZONE_SIZE_SHIFT + zy >>> K.FILTER_ZONE_SIZE_SHIFT * s._w
          : Nat) : Int)) := fun e => h (Int.ofNat_inj.mp e)
    simp only [Option.map_some', if_neg h']

/-- The zone scan of `writeFilters` changes nothing but the tile map, and it leaves the
filter of every uncovered pixel of the image as it was. -/
theorem writeFiltersScan_inv (K : Config) (s : ImageCMWriter) (hv : ValidDims K s) :
    SameButMatrix (writeFiltersScan K s).writer s
      ∧ ∀ x y, x < s._width → y < s._height → covered s x y = false →
          (writeFiltersScan K s).writer.getFilter K x y = s.getFilter K x y := by
  unfold writeFiltersScan
  apply foldl_invariant (fun acc : FilterScan => SameButMatrix acc.writer s
    ∧ ∀ x y, x < s._width → y < s._height → covered s x y = false →
        acc.writer.getFilter K x y = s.getFilter K x y)
  · exact ⟨sameButMatrix_refl s, fun _ _ _ _ _ => rfl⟩
  · intro acc zy hzy hacc
    apply foldl_invariant (fun acc : FilterScan => SameButMatrix acc.writer s
      ∧ ∀ x y, x < s._width → y < s._height → covered s x y = false →
          acc.writer.getFilter K x y = s.getFilter K x y)
    · exact hacc
    · intro acc zx hzx hacc
      obtain ⟨hsame, hget⟩ := hacc
      unfold writeFiltersZone
      by_cases hon : zoneOn K acc.writer zx zy = true
      · rw [if_pos hon]
        exact ⟨hsame, hget⟩
      · rw [if_neg hon]
        have hoff : zoneOn K acc.writer zx zy = false := by
          revert hon
          cases zoneOn K acc.writer zx zy <;> simp
        refine ⟨sameButMatrix_trans (sameButMatrix_setFilter K acc.writer zx zy K.UNUSED_FILTER) hsame, ?_⟩
        intro x y hx hy hunc
        rw [← hget x y hx hy hunc]
        apply getFilter_setFilter_ne
        intro hidx
        obtain ⟨hw, hh, -⟩ := (sameButMatrix_fields hsame)
        rw [hv.1] at hzx hx
        rw [hv.2] at hzy hy
        obtain ⟨tx, htx, rfl⟩ := zoneStarts_mem K s._w zx hzx
        obtain ⟨ty, hty, rfl⟩ := zoneStarts_mem K s._h zy hzy
        rw [shift_zone_start, shift_zone_start, hw] at hidx
        obtain ⟨e1, e2⟩ := tile_index_inj s._w _ _ _ _ (shift_lt_of_lt K s._w x hx) htx hidx
        obtain ⟨ii, hii, rfl⟩ := in_zone_of_shift K tx x e1
        obtain ⟨jj, hjj, rfl⟩ := in_zone_of_shift K ty y e2
        have hcov := zoneOn_false K acc.writer _ _ ii jj hoff hii hjj
        rw [sameButMatrix_covered hsame, hunc] at hcov
        exact absurd hcov (by decide)

theorem writeFilters_inv (K : Config) (s : ImageCMWriter) (writer : List WriteEvent)
    (hv : ValidDims K s) :
    SameScan s (s.writeFilters K writer).2.1
      ∧ FilterAgree K s (s.writeFilters K writer).2.1
      ∧ (s.writeFilters K writer).2.1._chaos = s._chaos
      ∧ (s.writeFilters K writer).2.1._chaos_size = s._chaos_size
      ∧ residualEvents (s.writeFilters K writer).2.2 = residualEvents writer := by
  obtain ⟨hsame, hget⟩ := writeFiltersScan_inv K s hv
  obtain ⟨-, -, f3, f4, f5, f6, f7, f8, f9, -⟩ := (sameButMatrix_fields hsame)
  unfold ImageCMWriter.writeFilters
  lift_lets
  extract_lets scan s1 s2 s3 sf_hist cf_hist s4 s5
  have hs3 : s3._rgba = s._rgba ∧ s3._width = s._width ∧ s3._height = s._height
      ∧ s3._lz = s._lz ∧ s3._mask = s._mask ∧ s3._chaos = s._chaos
      ∧ s3._chaos_size = s._chaos_size
      ∧ ∀ x y, s3.getFilter K x y = (writeFiltersScan K s).writer.getFilter K x y :=
    ⟨f5, f3, f4, f7, f6, f8, f9, fun _ _ => rfl⟩
  obtain ⟨g1, g2, g3, g4, g5, g6, g7, g8⟩ := hs3
  have hfa : ∀ t : ImageCMWriter, (∀ x y, t.getFilter K x y = s3.getFilter K x y) →
      FilterAgree K s t := by
    intro t ht x y hx hy hunc
    rw [ht, g8, hget x y hx hy hunc]
  split
  · exact ⟨⟨g1.symm, g2.symm, g3.symm, g4.symm, g5.symm⟩, hfa s3 (fun _ _ => rfl), g6, g7, rfl⟩
  · split
    · exact ⟨⟨g1.symm, g2.symm, g3.symm, g4.symm, g5.symm⟩, hfa s4 (fun _ _ => rfl), g6, g7,
        rfl⟩
    · refine ⟨⟨g1.symm, g2.symm, g3.symm, g4.symm, g5.symm⟩, hfa s5 (fun _ _ => rfl), g6, g7,
        ?_⟩
      rw [residualEvents_append]
      exact List.append_nil _

theorem decideFilters_inv (K : Config) (s : ImageCMWriter) :
    SameButMatrix (s.decideFilters K) s := by
  unfold ImageCMWriter.decideFilters
  lift_lets
  extract_lets ee0
  apply foldl_invariant
    (fun acc : ImageCMWriter × (Nat → EntropyEstimator) => SameButMatrix acc.1 s)
  · exact sameButMatrix_refl s
  · intro acc zy _ hacc
    apply foldl_invariant
      (fun acc : ImageCMWriter × (Nat → EntropyEstimator) => SameButMatrix acc.1 s)
    · exact hacc
    · intro acc zx _ hacc
      exact sameButMatrix_trans (sameButMatrix_setFilter K acc.1 zx zy _) hacc

theorem init_ok_state (K : Config) (s : ImageCMWriter) (width height : Int)
    (heapMatrix : Int → Nat) (heapChaos : Mem)
    (hok : (s.init K width height heapMatrix heapChaos).1 = WriterResult.WE_OK) :
    ¬ badDims K width height
      ∧ s.init K width height heapMatrix heapChaos
        = (WriterResult.WE_OK,
            { s.clear with
              _width := width.toNat
              _height := height.toNat
              _w := (width >>> K.FILTER_ZONE_SIZE_SHIFT).toNat
              _h := (height >>> K.FILTER_ZONE_SIZE_SHIFT).toNat
              _matrix := some heapMatrix
              _chaos_size := (width + (K.RECENT_SYMS : Int)) * (PLANES : Int)
              _chaos := some heapChaos }) := by
  have hr := init_result K s width height heapMatrix heapChaos
  have hnb : ¬ badDims K width height := by
    intro hb
    rw [hr.1 hb] at hok
    exact WriterResult.noConfusion hok
  refine ⟨hnb, ?_⟩
  have h1 : ¬ (width < (K.FILTER_ZONE_SIZE : Int) ∨ height < (K.FILTER_ZONE_SIZE : Int)) := by
    intro h
    apply hnb
    rcases h with h | h
    · exact Or.inl h
    · exact Or.inr (Or.inl h)
  have hpos := zone_size_pos K
  have hw : (0 : Int) ≤ width := by omega
  have hh : (0 : Int) ≤ height := by omega
  have h2 : ¬ (Int.land width (K.FILTER_ZONE_SIZE_MASK : Int) ≠ 0
      ∨ Int.land height (K.FILTER_ZONE_SIZE_MASK : Int) ≠ 0) := by
    intro h
    apply hnb
    rcases h with h | h
    · exact Or.inr (Or.inr (Or.inl ((land_zone_mask_ne_zero_iff K width hw).1 h)))
    · exact Or.inr (Or.inr (Or.inr ((land_zone_mask_ne_zero_iff K height hh).1 h)))
  obtain ⟨p1, p2⟩ := init_past_checks K s width height heapMatrix heapChaos h1 h2
  cases hroom : initRoom K width height
  · rw [p2 hroom] at hok
    exact absurd hok (by decide)
  · exact p1 hroom

theorem shift_toNat_mul (K : Config) (v : Int) (h0 : 0 ≤ v)
    (hdvd : (K.FILTER_ZONE_SIZE : Int) ∣ v) :
    v.toNat = (v >>> K.FILTER_ZONE_SIZE_SHIFT).toNat * K.FILTER_ZONE_SIZE := by
  obtain ⟨n, rfl⟩ := Int.eq_ofNat_of_zero_le h0
  rw [Int.natCast_dvd_natCast] at hdvd
  have e : ((n : Int) >>> K.FILTER_ZONE_SIZE_SHIFT).toNat = n / 2 ^ K.FILTER_ZONE_SIZE_SHIFT := by
    rw [Int.shiftRight_eq_div_pow]
    norm_cast
  rw [e, Int.toNat_natCast]
  unfold Config.FILTER_ZONE_SIZE at *
  rw [Nat.one_shiftLeft] at *
  exact (Nat.div_mul_cancel hdvd).symm

theorem initFromRGBA_ok (K : Config) (s : ImageCMWriter) (rgba : Mem) (width height : Int)
    (mask lz : Nat → Nat → Bool) (heapMatrix : Int → Nat) (heapChaos : Mem)
    (hok : (s.initFromRGBA K rgba width height mask lz heapMatrix heapChaos).1
      = WriterResult.WE_OK) :
    (s.init K width height heapMatrix heapChaos).1 = WriterResult.WE_OK
      ∧ (s.initFromRGBA K rgba width height mask lz heapMatrix heapChaos).2
        = (statsInput K s rgba width height mask lz heapMatrix heapChaos).chaosStats K := by
  unfold ImageCMWriter.initFromRGBA statsInput at *
  rcases hi : s.init K width height heapMatrix heapChaos with ⟨c, s1⟩
  rw [hi] at hok
  cases c with
  | WE_OK => exact ⟨rfl, rfl⟩
  | WE_BAD_DIMS => exact WriterResult.noConfusion hok
  | noReturn => exact WriterResult.noConfusion hok

theorem statsInput_fields (K : Config) (s : ImageCMWriter) (rgba : Mem) (width height : Int)
    (mask lz : Nat → Nat → Bool) (heapMatrix : Int → Nat) (heapChaos : Mem)
    (hok : (s.init K width height heapMatrix heapChaos).1 = WriterResult.WE_OK) :
    (statsInput K s rgba width height mask lz heapMatrix heapChaos)._chaos = some heapChaos
      ∧ (statsInput K s rgba width height mask lz heapMatrix heapChaos)._chaos_size
        = (((statsInput K s rgba width height mask lz heapMatrix heapChaos)._width : Int)
            + (K.RECENT_SYMS : Int)) * 4
      ∧ ValidDims K (statsInput K s rgba width height mask lz heapMatrix heapChaos)
      ∧ (statsInput K s rgba width height mask lz heapMatrix heapChaos)._encoder = s._encoder
      ∧ (statsInput K s rgba width height mask lz heapMatrix heapChaos)._width = width.toNat
      ∧ (statsInput K s rgba width height mask lz heapMatrix heapChaos)._height
        = height.toNat := by
  obtain ⟨hnb, hst⟩ := init_ok_state K s width height heapMatrix heapChaos hok
  have hpos := zone_size_pos K
  have hw : (0 : Int) ≤ width := by
    by_contra h
    exact hnb (Or.inl (by omega))
  have hh : (0 : Int) ≤ height := by
    by_contra h
    exact hnb (Or.inr (Or.inl (by omega)))
  have hdw : (K.FILTER_ZONE_SIZE : Int) ∣ width := by
    by_contra h
    exact hnb (Or.inr (Or.inr (Or.inl h)))
  have hdh : (K.FILTER_ZONE_SIZE : Int) ∣ height := by
    by_contra h
    exact hnb (Or.inr (Or.inr (Or.inr h)))
  have hinv := decideFilters_inv K
    { (s.init K width height heapMatrix heapChaos).2 with
      _rgba := rgba, _mask := mask, _lz := lz }
  obtain ⟨f1, f2, f3, f4, -, -, -, f8, f9, f10⟩ := (sameButMatrix_fields hinv)
  unfold statsInput
  rw [f8, f9, f10, f3, f4]
  unfold ValidDims
  rw [f1, f2, f3, f4, hst]
  refine ⟨rfl, ?_, ⟨?_, ?_⟩, rfl, rfl, rfl⟩
  · show (width + (K.RECENT_SYMS : Int)) * ((4 : Nat) : Int)
      = ((width.toNat : Int) + (K.RECENT_SYMS : Int)) * 4
    rw [Int.toNat_of_nonneg hw]
    rfl
  · exact shift_toNat_mul K width hw hdw
  · exact shift_toNat_mul K height hh hdh

theorem chaosStats_state (K : Config) (s : ImageCMWriter) (chaos : Mem)
    (h : s._chaos = some chaos) :
    s.chaosStats K
      = { s with
          _chaos := some (chaosStatsRows K s s._height (chaosStatsStart K s chaos)).1
          _encoder := (chaosStatsRows K s s._height (chaosStatsStart K s chaos)).2
          _encoder_finalized := true } := by
  unfold ImageCMWriter.chaosStats
  rw [h]

theorem start_agree (K : Config) (a b : ImageCMWriter) (chaos : Mem)
    (writer : List WriteEvent) (R : List Push) (hw : a._width = b._width)
    (hsize : a._chaos_size = ((a._width : Int) + (K.RECENT_SYMS : Int)) * 4)
    (hsize2 : b._chaos_size = a._chaos_size) (hR : residualEvents writer = R) :
    PassAgree a._encoder R (chaosStatsStart K a chaos)
      (writeChaosStart K b (chaosStatsRows K a a._height (chaosStatsStart K a chaos)).1
        writer) := by
  refine ⟨?_, [], (List.append_nil _).symm, ?_⟩
  · unfold writeChaosStart
    show (chaosStatsStart K a chaos).1 = CAT_CLR _ _ _
    funext i
    by_cases hi : (K.RECENT_SYMS : Int) * (PLANES : Int) ≤ i
        ∧ i < (K.RECENT_SYMS : Int) * (PLANES : Int) + a._chaos_size
    · unfold chaosStatsStart CAT_CLR
      rw [hsize2]
      simp only [if_pos hi]
    · have e1 : CAT_CLR (chaosStatsRows K a a._height (chaosStatsStart K a chaos)).1
          ((K.RECENT_SYMS : Int) * (PLANES : Int)) b._chaos_size i
          = (chaosStatsRows K a a._height (chaosStatsStart K a chaos)).1 i := by
        unfold CAT_CLR
        rw [hsize2]
        simp only [if_neg hi]
      rw [e1, chaosStatsRows_frame]
      rw [hsize] at hi
      simp only [contextCursor_eq]
      have hP : (PLANES : Int) = 4 := rfl
      rw [hP] at hi
      push_cast
      have hr : (0 : Int) ≤ (K.RECENT_SYMS : Int) := Int.ofNat_nonneg _
      omega
  · unfold writeChaosStart
    show residualEvents (writer ++ writeChaosOverhead K) = _
    rw [residualEvents_append, residualEvents_overhead, hR]

/-- C2: after a successful `initFromRGBA`, let `sD` be the writer on which `chaosStats`
ran, `s1` the writer it left and `s2` the writer on which `write` runs `writeChaos`
(`s1` after `writeFilters`).  Then `writeChaos` starts on a context buffer `chaos2`, and
after every pixel `(x, y)` of the image the two passes hold the same context memory and
the symbols pushed by the first pass are the residual symbols encoded by the second;
over the whole image the pushed symbols are the encoded ones, so every residual symbol
encoded by `write` had been pushed, with its plane and chaos level, by `chaosStats`. -/
theorem two_pass_agreement (K : Config) (s : ImageCMWriter) (rgba : Mem) (width height : Int)
    (mask lz : Nat → Nat → Bool) (heapMatrix : Int → Nat) (heapChaos : Mem)
    (writer : List WriteEvent)
    (hok : (s.initFromRGBA K rgba width height mask lz heapMatrix heapChaos).1
      = WriterResult.WE_OK) :
    (s.initFromRGBA K rgba width height mask lz heapMatrix heapChaos).2
        = (statsInput K s rgba width height mask lz heapMatrix heapChaos).chaosStats K
      ∧ ∃ chaos2 : Mem,
        (((s.initFromRGBA K rgba width height mask lz heapMatrix heapChaos).2.writeFilters K
            writer).2.1)._chaos = some chaos2
        ∧ (∀ x y : Nat, (x : Int) < width → (y : Int) < height →
            (statsAfter K (statsInput K s rgba width height mask lz heapMatrix heapChaos)
                heapChaos x y).1
              = (emitAfter K
                  ((s.initFromRGBA K rgba width height mask lz heapMatrix
                    heapChaos).2.writeFilters K writer).2.1 chaos2
                  ((s.initFromRGBA K rgba width height mask lz heapMatrix
                    heapChaos).2.writeFilters K writer).2.2 x y).1
            ∧ ∃ P : List Push,
              (statsAfter K (statsInput K s rgba width height mask lz heapMatrix heapChaos)
                  heapChaos x y).2 = s._encoder ++ P
              ∧ residualEvents (emitAfter K
                  ((s.initFromRGBA K rgba width height mask lz heapMatrix
                    heapChaos).2.writeFilters K writer).2.1 chaos2
                  ((s.initFromRGBA K rgba width height mask lz heapMatrix
                    heapChaos).2.writeFilters K writer).2.2 x y).2
                = residualEvents writer ++ P)
        ∧ (∃ P : List Push,
            (s.initFromRGBA K rgba width height mask lz heapMatrix heapChaos).2._encoder
                = s._encoder ++ P
              ∧ residualEvents
                  ((s.initFromRGBA K rgba width height mask lz heapMatrix heapChaos).2.write K
                    writer).2 = residualEvents writer ++ P)
        ∧ ∀ q : Push,
            q ∈ residualEvents
              ((s.initFromRGBA K rgba width height mask lz heapMatrix heapChaos).2.write K
                writer).2 →
            q ∈ residualEvents writer
              ∨ q ∈ (s.initFromRGBA K rgba width height mask lz heapMatrix
                  heapChaos).2._encoder := by
  obtain ⟨hinit, hs1⟩ := initFromRGBA_ok K s rgba width height mask lz heapMatrix heapChaos hok
  obtain ⟨hc, hsize, hv, henc, hwd, hht⟩ :=
    statsInput_fields K s rgba width height mask lz heapMatrix heapChaos hinit
  refine ⟨hs1, ?_⟩
  rw [hs1]
  generalize statsInput K s rgba width height mask lz heapMatrix heapChaos = sD at *
  have hst := chaosStats_state K sD heapChaos hc
  generalize hs1' : sD.chaosStats K = s1 at *
  have hv1 : ValidDims K s1 := by rw [hst]; exact hv
  obtain ⟨w1, w2, w3, w4, w5⟩ := writeFilters_inv K s1 writer hv1
  generalize hs2 : (s1.writeFilters K writer).2.1 = s2 at *
  generalize hw2 : (s1.writeFilters K writer).2.2 = wr2 at *
  have hsame : SameScan sD s2 := by
    obtain ⟨a1, a2, a3, a4, a5⟩ := w1
    rw [hst] at a1 a2 a3 a4 a5
    exact ⟨a1, a2, a3, a4, a5⟩
  have hfa : FilterAgree K sD s2 := by
    intro x y hx hy hunc
    have := w2 x y (by rw [hst]; exact hx) (by rw [hst]; exact hy) (by rw [hst]; exact hunc)
    rw [← this, hst]
    rfl
  have hch : s2._chaos
      = some (chaosStatsRows K sD sD._height (chaosStatsStart K sD heapChaos)).1 := by
    rw [w3, hst]
  have hsz : s2._chaos_size = sD._chaos_size := by rw [w4, hst]
  have hstart := start_agree K sD s2 heapChaos wr2 (residualEvents writer) hsame.2.1 hsize hsz w5
  rw [henc] at hstart
  refine ⟨_, hch, ?_, ?_⟩
  · intro x y hx hy
    have hx' : x + 1 ≤ sD._width := by rw [hwd]; omega
    have hy' : y < sD._height := by rw [hht]; omega
    have h1 := rows_agree K sD s2 hsame hfa _ _ y (Nat.le_of_lt hy') _ _ hstart
    exact row_agree K sD s2 hsame hfa y hy' _ _ (x + 1) hx' _ _ h1
  · have hfull := rows_agree K sD s2 hsame hfa _ _ sD._height (Nat.le_refl _) _ _ hstart
    obtain ⟨-, P, hP1, hP2⟩ := hfull
    have hwrite : (s1.write K writer).2
        = (writeChaosRows K s2 sD._height (writeChaosStart K s2
            (chaosStatsRows K sD sD._height (chaosStatsStart K sD heapChaos)).1 wr2)).2 := by
      unfold ImageCMWriter.write ImageCMWriter.writeChaos
      simp only [hs2, hw2, hch, hsame.2.2.1]
    have henc1 : s1._encoder = s._encoder ++ P := by
      rw [hst]
      exact hP1
    refine ⟨⟨P, henc1, by rw [hwrite]; exact hP2⟩, ?_⟩
    intro q hq
    rw [hwrite, hP2, List.mem_append] at hq
    rcases hq with hq | hq
    · exact Or.inl hq
    · exact Or.inr (by rw [henc1]; exact List.mem_append_right _ hq)

/-- Witness of C2: the two passes on the sample image of 8 x 8 pixels. -/
theorem two_pass_agreement_witness :
    (freshWriter.initFromRGBA demoConfig sampleImage 8 8 sampleMask sampleLz (fun _ => 0)
        (fun _ => 9)).1 = WriterResult.WE_OK
      ∧ ∃ P : List Push,
        (freshWriter.initFromRGBA demoConfig sampleImage 8 8 sampleMask sampleLz (fun _ => 0)
            (fun _ => 9)).2._encoder = freshWriter._encoder ++ P
          ∧ residualEvents
              ((freshWriter.initFromRGBA demoConfig sampleImage 8 8 sampleMask sampleLz
                (fun _ => 0) (fun _ => 9)).2.write demoConfig []).2
            = residualEvents [] ++ P := by
  refine ⟨by decide, ?_⟩
  obtain ⟨-, -, -, -, h, -⟩ := two_pass_agreement demoConfig freshWriter sampleImage 8 8
    sampleMask sampleLz (fun _ => 0) (fun _ => 9) [] (by decide)
  exact h

/-! ## Encoder: content of the recent-symbol window -/

theorem cellValue_lt (K : Config) (s : ImageCMWriter) (x y k : Nat) :
    cellValue K s x y k < 256 := by
  unfold cellValue
  split
  · exact Nat.zero_lt_succ _
  · exact residualTuple_lt K s x y k

theorem chaosStatsPixel_mem (K : Config) (s : ImageCMWriter) (y : Nat) (st : Mem × List Push)
    (x : Nat) :
    (chaosStatsPixel K s y st x).1 = storeCell st.1 (contextCursor K x) (cellValue K s x y) := by
  rw [chaosStatsPixel_eq]
  unfold cellValue
  split <;> rfl

theorem context_row (K : Config) (s : ImageCMWriter) (y : Nat) (prev : Nat → Nat → Nat)
    (st : Mem × List Push)
    (hst : ∀ c k : Nat, c < s._width → k < 4 → st.1.load (contextCursor K c + (k : Int)) = prev c k)
    (x : Nat) (c k : Nat) (hc : c < s._width) (hk : k < 4) :
    (chaosStatsRow K s y x st).1.load (contextCursor K c + (k : Int))
      = if c < x then cellValue K s c y k else prev c k := by
  induction x with
  | zero => simpa using hst c k hc hk
  | succ x ih =>
    rw [chaosStatsRow_succ, chaosStatsPixel_mem]
    by_cases hcx : c = x
    · subst hcx
      rw [storeCell_load_inside _ _ _ k hk, if_pos (Nat.lt_succ_self c),
        Nat.mod_eq_of_lt (cellValue_lt K s c y k)]
    · rw [storeCell_load_outside, ih]
      · by_cases h1 : c < x
        · rw [if_pos h1, if_pos (by omega)]
        · rw [if_neg h1, if_neg (by omega)]
      · simp only [contextCursor_eq]
        omega

theorem context_start (K : Config) (s : ImageCMWriter) (chaos : Mem)
    (hsize : s._chaos_size = ((s._width : Int) + (K.RECENT_SYMS : Int)) * 4)
    (c k : Nat) (hc : c < s._width) (hk : k < 4) :
    (chaosStatsStart K s chaos).1.load (contextCursor K c + (k : Int)) = 0 := by
  unfold chaosStatsStart Mem.load CAT_CLR
  have hP : (PLANES : Int) = 4 := rfl
  have hr : (0 : Int) ≤ (K.RECENT_SYMS : Int) := Int.ofNat_nonneg _
  simp only [contextCursor_eq, hsize, hP]
  rw [if_pos (by constructor <;> omega)]

theorem context_rows (K : Config) (s : ImageCMWriter) (chaos : Mem)
    (hsize : s._chaos_size = ((s._width : Int) + (K.RECENT_SYMS : Int)) * 4)
    (y : Nat) (c k : Nat) (hc : c < s._width) (hk : k < 4) :
    (chaosStatsRows K s y (chaosStatsStart K s chaos)).1.load (contextCursor K c + (k : Int))
      = if y = 0 then 0 else cellValue K s c (y - 1) k := by
  induction y generalizing c k with
  | zero => simpa using context_start K s chaos hsize c k hc hk
  | succ y ih =>
    rw [chaosStatsRows_succ,
      context_row K s y (fun c k => if y = 0 then 0 else cellValue K s c (y - 1) k) _
        (fun c k hc hk => ih c k hc hk) s._width c k hc hk,
      if_pos hc, if_neg (Nat.succ_ne_zero y)]
    rfl

theorem context_before (K : Config) (s : ImageCMWriter) (chaos : Mem)
    (hsize : s._chaos_size = ((s._width : Int) + (K.RECENT_SYMS : Int)) * 4)
    (x y : Nat) (c k : Nat) (hc : c < s._width) (hk : k < 4) :
    (chaosStatsRow K s y x (chaosStatsRows K s y (chaosStatsStart K s chaos))).1.load
        (contextCursor K c + (k : Int))
      = contextBefore K s x y c k := by
  rw [context_row K s y (fun c k => if y = 0 then 0 else cellValue K s c (y - 1) k) _
    (fun c k hc hk => context_rows K s chaos hsize y c k hc hk) x c k hc hk]
  unfold contextBefore
  by_cases h1 : c < x
  · rw [if_pos h1, if_pos h1]
  · rw [if_neg h1, if_neg h1]
    by_cases h2 : y = 0
    · rw [if_pos h2, if_pos h2]
    · rw [if_neg h2, if_neg h2]

/-- C10 (amended): when `chaosStats` reaches pixel `(x, y)`, the context cell of every
column `c` of the image holds `contextBefore`: for `c < x` the value stored for pixel
`(c, y)`, for `c >= x` the value stored for pixel `(c, y - 1)` (zeros on row 0), the
value stored for a pixel being its residual tuple if it is uncovered and `(0, 0, 0, 0)`
if it is covered.  The window entry of index `j` is the cell of column
`x + RECENT_AHEAD - j`, and a match at index `j` on an entry inside the image means that
the residual tuple of `(x, y)` equals the content of that cell, which is all zero when
that pixel is covered. -/
theorem window_semantics (K : Config) (s : ImageCMWriter) (chaos : Mem) (x y : Nat)
    (hsize : s._chaos_size = ((s._width : Int) + (K.RECENT_SYMS : Int)) * 4) :
    (∀ c k : Nat, c < s._width → k < 4 →
      (chaosStatsRow K s y x (chaosStatsRows K s y (chaosStatsStart K s chaos))).1.load
          (contextCursor K c + (k : Int))
        = contextBefore K s x y c k)
    ∧ (∀ j c : Nat,
        recentMatch K
          (chaosStatsRow K s y x (chaosStatsRows K s y (chaosStatsStart K s chaos))).1
          (contextCursor K x) (residualTuple K s x y) = some j →
        (c : Int) = (x : Int) + K.RECENT_AHEAD - (j : Int) → c < s._width →
        ∀ k, k < 4 → residualTuple K s x y k = contextBefore K s x y c k)
    ∧ (∀ c k : Nat, covered s c y = true → contextBefore K s (c + 1) y c k = 0) := by
  refine ⟨fun c k hc hk => context_before K s chaos hsize x y c k hc hk, ?_, ?_⟩
  · intro j c hm hcj hc k hk
    obtain ⟨-, hce, -⟩ := recentMatch_some K _ _ _ j hm
    rw [hce k hk, ← context_before K s chaos hsize x y c k hc hk]
    congr 1
    simp only [contextCursor_eq]
    omega
  · intro c k hcov
    unfold contextBefore cellValue
    rw [if_pos (Nat.lt_succ_self c), if_pos hcov]

/-- Witness of C10 (amended): the context cells when the scan of the sample writer
reaches pixel `(0, 1)`. -/
theorem window_semantics_witness :
    sampleWriter._chaos_size
        = ((sampleWriter._width : Int) + (demoConfig.RECENT_SYMS : Int)) * 4
      ∧ ∀ c k : Nat, c < sampleWriter._width → k < 4 →
        (chaosStatsRow demoConfig sampleWriter 1 0
            (chaosStatsRows demoConfig sampleWriter 1
              (chaosStatsStart demoConfig sampleWriter (fun _ => 9)))).1.load
            (contextCursor demoConfig c + (k : Int))
          = contextBefore demoConfig sampleWriter 0 1 c k :=
  ⟨by decide, (window_semantics demoConfig sampleWriter (fun _ => 9) 0 1 (by decide)).1⟩

set_option maxRecDepth 100000 in
/-- C10 (counterexample): in the sample image the mask covers every pixel except
`(0, 1)`, whose residual tuple is `(0, 0, 0, 0)`.  No residual tuple is emitted before
that pixel, yet `chaosStats` pushes for it the match symbol `256 + 0` and nothing else:
with `RECENT_AHEAD = 0` the entry of index 0 is the cell at the cursor, which holds the
zeros stored for the covered pixel `(0, 0)` above.  (The context buffer is handed over
filled with the byte 9, so that only cleared or stored cells can hold zeros.) -/
theorem recent_match_on_zeroed_cell :
    (freshWriter.initFromRGBA demoConfig sampleImage 8 8 sampleMask sampleLz (fun _ => 0)
        (fun _ => 9)).1 = WriterResult.WE_OK
      ∧ ((List.range 8).flatMap fun y =>
          ((List.range 8).filter fun x => !(sampleLz x y || sampleMask x y)).map
            fun x => (x, y)) = [(0, 1)]
      ∧ (sampleLz 0 0 || sampleMask 0 0) = true
      ∧ (List.range 4).map (residualTuple demoConfig
          (statsInput demoConfig freshWriter sampleImage 8 8 sampleMask sampleLz (fun _ => 0)
            (fun _ => 9)) 0 1) = [0, 0, 0, 0]
      ∧ (freshWriter.initFromRGBA demoConfig sampleImage 8 8 sampleMask sampleLz (fun _ => 0)
          (fun _ => 9)).2._encoder = [(0, 7, 256)]
      ∧ residualEvents
          ((freshWriter.initFromRGBA demoConfig sampleImage 8 8 sampleMask sampleLz
            (fun _ => 0) (fun _ => 9)).2.write demoConfig []).2 = [(0, 7, 256)] := by
  decide

/-! ## Encoder: the context cell of a pixel and the alpha residual -/

theorem writeChaosPixel_mem (K : Config) (s : ImageCMWriter) (y : Nat)
    (st : Mem × List WriteEvent) (x : Nat) :
    (writeChaosPixel K s y st x).1 = storeCell st.1 (contextCursor K x) (cellValue K s x y) := by
  rw [writeChaosPixel_eq]
  unfold cellValue
  split <;> rfl

theorem load_lt (m : Mem) (a : Int) : m.load a < 256 := Nat.mod_lt _ (by decide)

theorem u8sub_int (a b : Nat) (ha : a < 256) (hb : b < 256) :
    ((u8sub a b : Nat) : Int) = ((a : Int) - (b : Int)) % 256 := by
  unfold u8sub
  omega

theorem u8sub_inv (a b : Nat) (ha : a < 256) (hb : b < 256) : u8sub a (u8sub a b) = b := by
  unfold u8sub
  omega

theorem residualTuple_alpha (K : Config) (s : ImageCMWriter) (x y : Nat) :
    residualTuple K s x y 3 = u8sub (prevAlpha s x y) (alphaAt s x y) := by
  unfold residualTuple prevAlpha alphaAt
  have e3 : (((x + y * s._width) * 4 + 3 : Nat) : Int)
      = (((x + y * s._width) * 4 : Nat) : Int) + 3 := by push_cast; rfl
  rw [if_neg (by decide), e3]
  by_cases hx : x > 0
  · rw [if_pos hx, if_pos hx]
    have e1 : ((((x - 1) + y * s._width) * 4 + 3 : Nat) : Int)
        = (((x + y * s._width) * 4 : Nat) : Int) - 1 := by
      obtain ⟨x', rfl⟩ : ∃ x', x = x' + 1 := ⟨x - 1, by omega⟩
      simp only [Nat.add_sub_cancel]
      push_cast
      ring
    rw [e1]
  · rw [if_neg hx, if_neg hx]

/-- C17: for an uncovered pixel `(x, y)` the fourth byte `a` of the residual tuple, as
both passes store it in the context cell (and, without a recent match, push it to the
coder of plane 3), is `(prev_a - cur_a) mod 256`, where `cur_a` is the alpha byte of the
pixel and `prev_a` the alpha byte of pixel `(x - 1, y)` for `x > 0` and 255 for `x = 0`;
and `cur_a = (prev_a - a) mod 256`, as for every pair of bytes `p`, `c` under the byte
subtraction `u8sub` of the code. -/
theorem alpha_residual (K : Config) (s : ImageCMWriter) (x y : Nat)
    (st : Mem × List Push) (wt : Mem × List WriteEvent) (hunc : covered s x y = false) :
    (((chaosStatsPixel K s y st x).1.load (contextCursor K x + 3) : Nat) : Int)
        = ((prevAlpha s x y : Int) - (alphaAt s x y : Int)) % 256
      ∧ (((writeChaosPixel K s y wt x).1.load (contextCursor K x + 3) : Nat) : Int)
        = ((prevAlpha s x y : Int) - (alphaAt s x y : Int)) % 256
      ∧ (alphaAt s x y : Int)
        = ((prevAlpha s x y : Int)
            - ((chaosStatsPixel K s y st x).1.load (contextCursor K x + 3) : Int)) % 256
      ∧ (recentMatch K st.1 (contextCursor K x) (residualTuple K s x y) = none →
          (chaosStatsPixel K s y st x).2.getLast?
            = some (3, chaosLevel K st.1 (contextCursor K x) 3,
                (chaosStatsPixel K s y st x).1.load (contextCursor K x + 3)))
      ∧ (∀ p c : Nat, p < 256 → c < 256 → (c : Int) = ((p : Int) - (u8sub p c : Int)) % 256) := by
  have hp : prevAlpha s x y < 256 := by
    unfold prevAlpha alphaAt
    split
    · exact load_lt _ _
    · decide
  have hc : alphaAt s x y < 256 := load_lt _ _
  have hv : cellValue K s x y 3 = u8sub (prevAlpha s x y) (alphaAt s x y) := by
    unfold cellValue
    rw [hunc, ← residualTuple_alpha K s x y]
    rfl
  have hcell : ∀ m : Mem, (storeCell m (contextCursor K x) (cellValue K s x y)).load
      (contextCursor K x + 3) = u8sub (prevAlpha s x y) (alphaAt s x y) := by
    intro m
    have h := storeCell_load_inside m (contextCursor K x) (cellValue K s x y) 3 (by decide)
    rw [Nat.mod_eq_of_lt (cellValue_lt K s x y 3), hv] at h
    exact h
  rw [chaosStatsPixel_mem, writeChaosPixel_mem, hcell, hcell]
  refine ⟨u8sub_int _ _ hp hc, u8sub_int _ _ hp hc, ?_, ?_, ?_⟩
  · rw [u8sub_int _ _ hp hc]
    omega
  · intro hm
    rw [chaosStatsPixel_eq, hunc]
    simp only [Bool.false_eq_true, if_false]
    unfold pixelSymbols
    rw [hm, residualTuple_alpha]
    simp
  · intro p c hp2 hc2
    rw [u8sub_int _ _ hp2 hc2]
    omega

/-- Witness of C17: the uncovered pixel `(0, 1)` of the sample writer. -/
theorem alpha_residual_witness :
    covered sampleWriter 0 1 = false
      ∧ (((chaosStatsPixel demoConfig sampleWriter 1 (fun _ => 9, []) 0).1.load
          (contextCursor demoConfig 0 + 3) : Nat) : Int)
        = ((prevAlpha sampleWriter 0 1 : Int) - (alphaAt sampleWriter 0 1 : Int)) % 256 :=
  ⟨by decide,
    (alpha_residual demoConfig sampleWriter 0 1 (fun _ => 9, []) (fun _ => 9, [])
      (by decide)).1⟩

/-- C20: after pixel `(x, y)` is processed by `chaosStats` or by `writeChaos`, byte `k` of
its context cell (the four bytes at the cursor of column `x`) is 0 if the pixel is covered
by the mask or by LZ and byte `k` of the residual tuple of the pixel otherwise, whether or
not the tuple matched a recent symbol; every byte `i` of the memory outside that cell is
what it was before the pixel. -/
theorem context_cell_update (K : Config) (s : ImageCMWriter) (x y : Nat)
    (st : Mem × List Push) (wt : Mem × List WriteEvent) (k : Nat) (hk : k < 4) (i : Int)
    (hi : i < contextCursor K x ∨ contextCursor K x + 4 ≤ i) :
    (chaosStatsPixel K s y st x).1.load (contextCursor K x + (k : Int))
        = (if covered s x y then 0 else residualTuple K s x y k)
      ∧ (writeChaosPixel K s y wt x).1.load (contextCursor K x + (k : Int))
        = (if covered s x y then 0 else residualTuple K s x y k)
      ∧ (chaosStatsPixel K s y st x).1 i = st.1 i
      ∧ (writeChaosPixel K s y wt x).1 i = wt.1 i := by
  have hv : cellValue K s x y k % 256 = (if covered s x y then 0 else residualTuple K s x y k) := by
    rw [Nat.mod_eq_of_lt (cellValue_lt K s x y k)]
    unfold cellValue
    split <;> rfl
  refine ⟨?_, ?_, chaosStatsPixel_frame K s y st x i hi, ?_⟩
  · rw [chaosStatsPixel_mem, storeCell_load_inside _ _ _ k hk, hv]
  · rw [writeChaosPixel_mem, storeCell_load_inside _ _ _ k hk, hv]
  · rw [writeChaosPixel_mem]
    exact storeCell_outside wt.1 _ (cellValue K s x y) i hi

set_option maxRecDepth 100000 in
/-- Witness of C20: the uncovered pixel `(0, 1)` and byte 35 (the cell of the next column)
of the sample writer. -/
theorem context_cell_update_witness :
    (chaosStatsPixel demoConfig sampleWriter 1 (fun _ => 9, []) 0).1.load
          (contextCursor demoConfig 0 + ((3 : Nat) : Int))
        = (if covered sampleWriter 0 1 then 0 else residualTuple demoConfig sampleWriter 0 1 3)
      ∧ (writeChaosPixel demoConfig sampleWriter 1 (fun _ => 9, []) 0).1.load
          (contextCursor demoConfig 0 + ((3 : Nat) : Int))
        = (if covered sampleWriter 0 1 then 0 else residualTuple demoConfig sampleWriter 0 1 3)
      ∧ (chaosStatsPixel demoConfig sampleWriter 1 (fun _ => 9, []) 0).1 36
        = ((fun _ => 9, []) : Mem × List Push).1 36
      ∧ (writeChaosPixel demoConfig sampleWriter 1 (fun _ => 9, []) 0).1 36
        = ((fun _ => 9, []) : Mem × List WriteEvent).1 36 :=
  context_cell_update demoConfig sampleWriter 0 1 (fun _ => 9, []) (fun _ => 9, []) 3
    (by decide) 36 (by decide)

/-! ## Encoder: tiles marked as unused -/

theorem foldl_establish {α β : Type} (Q P : α → Prop) (f : α → β → α) (l : List β) (b : β)
    (hb : b ∈ l) (hQ : ∀ a b, b ∈ l → Q a → Q (f a b)) (hset : ∀ a, Q a → P (f a b))
    (hpres : ∀ a b, b ∈ l → Q a → P a → P (f a b)) (a : α) (h0 : Q a) :
    P (l.foldl f a) := by
  induction l generalizing a with
  | nil => exact absurd hb (List.not_mem_nil b)
  | cons c l ih =>
    rw [List.foldl_cons]
    have hQc : Q (f a c) := hQ a c (List.mem_cons_self c l) h0
    rcases List.mem_cons.mp hb with rfl | hbl
    · have hP : P (f a b) := hset a h0
      have h := foldl_invariant (fun a => Q a ∧ P a) f l (f a b) ⟨hQc, hP⟩
        (fun a' b' hb' ha' => ⟨hQ a' b' (List.mem_cons_of_mem _ hb') ha'.1,
          hpres a' b' (List.mem_cons_of_mem _ hb') ha'.1 ha'.2⟩)
      exact h.2
    · exact ih hbl (fun a' b' hb' => hQ a' b' (List.mem_cons_of_mem _ hb'))
        (fun a' b' hb' => hpres a' b' (List.mem_cons_of_mem _ hb')) (f a c) hQc

theorem zoneStarts_of_lt (K : Config) (w t : Nat) (h : t < w) :
    t * K.FILTER_ZONE_SIZE ∈ zoneStarts K (w * K.FILTER_ZONE_SIZE) := by
  have hpos := zone_size_pos K
  unfold zoneStarts
  rw [List.mem_map]
  refine ⟨t, ?_, rfl⟩
  rw [List.mem_range]
  have e : (w * K.FILTER_ZONE_SIZE + K.FILTER_ZONE_SIZE - 1) / K.FILTER_ZONE_SIZE = w := by
    have e1 : w * K.FILTER_ZONE_SIZE + K.FILTER_ZONE_SIZE - 1
        = (K.FILTER_ZONE_SIZE - 1) + w * K.FILTER_ZONE_SIZE := by omega
    rw [e1, Nat.add_mul_div_right _ _ hpos, Nat.div_eq_of_lt (by omega), Nat.zero_add]
  rw [e]
  exact h

theorem getFilter_setFilter_same (K : Config) (s : ImageCMWriter) (x y filter : Nat)
    (hm : s._matrix.isSome = true) :
    (s.setFilter K x y filter).getFilter K x y = filter % 65536 := by
  unfold ImageCMWriter.setFilter ImageCMWriter.getFilter
  cases h : s._matrix with
  | none => rw [h] at hm; exact absurd hm (by decide)
  | some m => simp only [Option.map_some', if_true, Nat.mod_mod]

theorem setFilter_isSome (K : Config) (s : ImageCMWriter) (x y filter : Nat) :
    (s.setFilter K x y filter)._matrix.isSome = s._matrix.isSome := by
  unfold ImageCMWriter.setFilter
  cases s._matrix <;> rfl

theorem getFilter_setFilter_cases (K : Config) (s : ImageCMWriter) (zx zy filter x y : Nat)
    (hm : s._matrix.isSome = true) :
    (s.setFilter K zx zy filter).getFilter K x y = filter % 65536
      ∨ (s.setFilter K zx zy filter).getFilter K x y = s.getFilter K x y := by
  by_cases h : x >>> K.FILTER_ZONE_SIZE_SHIFT + y >>> K.FILTER_ZONE_SIZE_SHIFT * s._w
      = zx >>> K.FILTER_ZONE_SIZE_SHIFT + zy >>> K.FILTER_ZONE_SIZE_SHIFT * s._w
  · left
    unfold ImageCMWriter.setFilter ImageCMWriter.getFilter
    cases h2 : s._matrix with
    | none => rw [h2] at hm; exact absurd hm (by decide)
    | some m => simp only [Option.map_some', h, if_true, Nat.mod_mod]
  · right
    exact getFilter_setFilter_ne K s zx zy filter x y h

theorem zoneOn_of_covered (K : Config) (s : ImageCMWriter) (x y : Nat)
    (h : ∀ ii jj : Nat, ii < K.FILTER_ZONE_SIZE → jj < K.FILTER_ZONE_SIZE →
      covered s (x + ii) (y + jj) = true) : zoneOn K s x y = false := by
  unfold zoneOn
  rw [List.any_eq_false]
  intro ii hii
  rw [Bool.not_eq_true, List.any_eq_false]
  intro jj hjj
  have hc := h ii jj (List.mem_range.mp hii) (List.mem_range.mp hjj)
  unfold covered at hc
  revert hc
  cases s._lz (x + ii) (y + jj) <;> cases s._mask (x + ii) (y + jj) <;> simp

theorem writeFiltersZone_inv (K : Config) (s : ImageCMWriter) (y x : Nat) (acc : FilterScan)
    (h : SameButMatrix acc.writer s ∧ acc.writer._matrix.isSome = true) :
    SameButMatrix (writeFiltersZone K y acc x).writer s
      ∧ (writeFiltersZone K y acc x).writer._matrix.isSome = true := by
  unfold writeFiltersZone
  split
  · exact h
  · exact ⟨sameButMatrix_trans (sameButMatrix_setFilter K acc.writer x y K.UNUSED_FILTER) h.1,
      by rw [← h.2]; exact setFilter_isSome K acc.writer x y K.UNUSED_FILTER⟩

theorem writeFiltersZone_keep (K : Config) (y x : Nat) (acc : FilterScan) (px py : Nat)
    (hm : acc.writer._matrix.isSome = true)
    (hP : acc.writer.getFilter K px py = K.UNUSED_FILTER % 65536) :
    (writeFiltersZone K y acc x).writer.getFilter K px py = K.UNUSED_FILTER % 65536 := by
  unfold writeFiltersZone
  split
  · exact hP
  · rcases getFilter_setFilter_cases K acc.writer x y K.UNUSED_FILTER px py hm with h | h
    · exact h
    · exact h.trans hP

theorem writeFiltersScan_unused (K : Config) (s : ImageCMWriter) (hv : ValidDims K s)
    (hm : s._matrix.isSome = true) (tx ty : Nat) (htx : tx < s._w) (hty : ty < s._h)
    (hcov : tileCovered K s tx ty) :
    tileEntry K (writeFiltersScan K s).writer tx ty = K.UNUSED_FILTER % 65536 := by
  unfold writeFiltersScan tileEntry
  rw [hv.1, hv.2]
  have hrow : ∀ (acc : FilterScan) (y : Nat),
      (SameButMatrix acc.writer s ∧ acc.writer._matrix.isSome = true) →
      (SameButMatrix ((zoneStarts K (s._w * K.FILTER_ZONE_SIZE)).foldl
          (writeFiltersZone K y) acc).writer s
        ∧ ((zoneStarts K (s._w * K.FILTER_ZONE_SIZE)).foldl
          (writeFiltersZone K y) acc).writer._matrix.isSome = true) := by
    intro acc y h
    exact foldl_invariant
      (fun a : FilterScan => SameButMatrix a.writer s ∧ a.writer._matrix.isSome = true)
      (writeFiltersZone K y) _ acc h (fun a b _ ha => writeFiltersZone_inv K s y b a ha)
  apply foldl_establish
    (fun a : FilterScan => SameButMatrix a.writer s ∧ a.writer._matrix.isSome = true)
    (fun a : FilterScan => a.writer.getFilter K (tx * K.FILTER_ZONE_SIZE)
      (ty * K.FILTER_ZONE_SIZE) = K.UNUSED_FILTER % 65536) _ _
    (ty * K.FILTER_ZONE_SIZE) (zoneStarts_of_lt K s._h ty hty)
  · intro a y _ ha
    exact hrow a y ha
  · intro a ha
    apply foldl_establish
      (fun a : FilterScan => SameButMatrix a.writer s ∧ a.writer._matrix.isSome = true)
      (fun a : FilterScan => a.writer.getFilter K (tx * K.FILTER_ZONE_SIZE)
        (ty * K.FILTER_ZONE_SIZE) = K.UNUSED_FILTER % 65536) _ _
      (tx * K.FILTER_ZONE_SIZE) (zoneStarts_of_lt K s._w tx htx)
    · intro a x _ ha
      exact writeFiltersZone_inv K s _ x a ha
    · intro a ha
      have hoff : zoneOn K a.writer (tx * K.FILTER_ZONE_SIZE) (ty * K.FILTER_ZONE_SIZE)
          = false := by
        apply zoneOn_of_covered
        intro ii jj hii hjj
        rw [sameButMatrix_covered ha.1]
        exact hcov ii jj hii hjj
      unfold writeFiltersZone
      rw [hoff]
      simp only [Bool.false_eq_true, if_false]
      exact getFilter_setFilter_same K a.writer _ _ _ ha.2
    · intro a x _ ha hP
      exact writeFiltersZone_keep K _ x a _ _ ha.2 hP
    · exact ha
  · intro a y _ ha hP
    have h := foldl_invariant
      (fun a : FilterScan => (SameButMatrix a.writer s ∧ a.writer._matrix.isSome = true)
        ∧ a.writer.getFilter K (tx * K.FILTER_ZONE_SIZE)
          (ty * K.FILTER_ZONE_SIZE) = K.UNUSED_FILTER % 65536)
      (writeFiltersZone K y) (zoneStarts K (s._w * K.FILTER_ZONE_SIZE)) a ⟨ha, hP⟩
      (fun a b _ ha => ⟨writeFiltersZone_inv K s y b a ha.1,
        writeFiltersZone_keep K y b a _ _ ha.1.2 ha.2⟩)
    exact h.2
  · exact ⟨sameButMatrix_refl s, hm⟩

theorem writeFilters_getFilter (K : Config) (s : ImageCMWriter) (writer : List WriteEvent)
    (x y : Nat) :
    (s.writeFilters K writer).2.1.getFilter K x y
      = (writeFiltersScan K s).writer.getFilter K x y := by
  unfold ImageCMWriter.writeFilters
  lift_lets
  extract_lets scan s1 s2 s3 sf_hist cf_hist s4 s5
  split
  · rfl
  · split <;> rfl

theorem getFilter_in_tile (K : Config) (s : ImageCMWriter) (tx ty ii jj : Nat)
    (hii : ii < K.FILTER_ZONE_SIZE) (hjj : jj < K.FILTER_ZONE_SIZE) :
    s.getFilter K (tx * K.FILTER_ZONE_SIZE + ii) (ty * K.FILTER_ZONE_SIZE + jj)
      = s.getFilter K (tx * K.FILTER_ZONE_SIZE) (ty * K.FILTER_ZONE_SIZE) := by
  have e : ∀ t i : Nat, i < K.FILTER_ZONE_SIZE →
      (t * K.FILTER_ZONE_SIZE + i) >>> K.FILTER_ZONE_SIZE_SHIFT = t := by
    intro t i hi
    rw [Nat.shiftRight_eq_div_pow]
    unfold Config.FILTER_ZONE_SIZE at *
    rw [Nat.one_shiftLeft] at *
    rw [Nat.add_comm, Nat.add_mul_div_right _ _ (Nat.pow_pos (by decide)),
      Nat.div_eq_of_lt hi, Nat.zero_add]
  unfold ImageCMWriter.getFilter
  simp only [e tx ii hii, e ty jj hjj, shift_zone_start]

/-- C13: on a writer whose dimensions are whole numbers of tiles and whose tile map is
allocated (as `init` leaves it), `writeFilters` leaves in the entry of tile `(tx, ty)` the
sentinel `UNUSED_FILTER` (as a `u16`) if every pixel of the tile is covered by the mask or
by LZ, and leaves the entry as it was, that is as `decideFilters` stored it, if some pixel
of the tile is uncovered. -/
theorem writeFilters_unused_marking (K : Config) (s : ImageCMWriter)
    (writer : List WriteEvent) (hv : ValidDims K s) (hm : s._matrix.isSome = true)
    (tx ty : Nat) (htx : tx < s._w) (hty : ty < s._h) :
    (tileCovered K s tx ty →
        tileEntry K (s.writeFilters K writer).2.1 tx ty = K.UNUSED_FILTER % 65536)
      ∧ (¬ tileCovered K s tx ty →
        tileEntry K (s.writeFilters K writer).2.1 tx ty = tileEntry K s tx ty) := by
  constructor
  · intro hcov
    have h := writeFiltersScan_unused K s hv hm tx ty htx hty hcov
    unfold tileEntry at *
    rw [writeFilters_getFilter]
    exact h
  · intro hnc
    unfold tileCovered at hnc
    push_neg at hnc
    obtain ⟨ii, jj, hii, hjj, hc⟩ := hnc
    have hc' : covered s (tx * K.FILTER_ZONE_SIZE + ii) (ty * K.FILTER_ZONE_SIZE + jj)
        = false := by
      revert hc
      cases covered s (tx * K.FILTER_ZONE_SIZE + ii) (ty * K.FILTER_ZONE_SIZE + jj) <;> simp
    have hx : tx * K.FILTER_ZONE_SIZE + ii < s._width := by
      rw [hv.1]
      calc tx * K.FILTER_ZONE_SIZE + ii < tx * K.FILTER_ZONE_SIZE + K.FILTER_ZONE_SIZE := by
            omega
        _ = (tx + 1) * K.FILTER_ZONE_SIZE := by ring
        _ ≤ s._w * K.FILTER_ZONE_SIZE := Nat.mul_le_mul_right _ htx
    have hy : ty * K.FILTER_ZONE_SIZE + jj < s._height := by
      rw [hv.2]
      calc ty * K.FILTER_ZONE_SIZE + jj < ty * K.FILTER_ZONE_SIZE + K.FILTER_ZONE_SIZE := by
            omega
        _ = (ty + 1) * K.FILTER_ZONE_SIZE := by ring
        _ ≤ s._h * K.FILTER_ZONE_SIZE := Nat.mul_le_mul_right _ hty
    have h := (writeFiltersScan_inv K s hv).2 _ _ hx hy hc'
    unfold tileEntry
    rw [writeFilters_getFilter, ← getFilter_in_tile K _ tx ty ii jj hii hjj, h,
      getFilter_in_tile K _ tx ty ii jj hii hjj]

/-- Witness of C13: the only tile of a sample writer whose mask covers every pixel. -/
theorem writeFilters_unused_marking_witness :
    ValidDims demoConfig coveredWriter ∧ coveredWriter._matrix.isSome = true
      ∧ tileCovered demoConfig coveredWriter 0 0
      ∧ tileEntry demoConfig (coveredWriter.writeFilters demoConfig []).2.1 0 0
          = demoConfig.UNUSED_FILTER % 65536 :=
  ⟨⟨by decide, by decide⟩, by decide, fun _ _ _ _ => rfl,
    (writeFilters_unused_marking demoConfig coveredWriter [] ⟨by decide, by decide⟩
      (by decide) 0 0 (by decide) (by decide)).1 (fun _ _ _ _ => rfl)⟩

/-! ## Encoder: the tile map inside the pixel stream -/

theorem tileEventsOf_append (a b : List WriteEvent) :
    tileEventsOf (a ++ b) = tileEventsOf a ++ tileEventsOf b := by
  induction a with
  | nil => rfl
  | cons e a ih => cases e <;> simp [tileEventsOf, ih]

theorem tileEventsOf_toEncode (syms : List Push) : tileEventsOf (syms.map toEncode) = [] := by
  induction syms with
  | nil => rfl
  | cons q syms ih => simpa [tileEventsOf, toEncode] using ih

theorem tileEventsOf_tileSymbols (K : Config) (s : ImageCMWriter) (x y : Nat) :
    tileEventsOf (tileSymbols K s x y) = tileSymbols K s x y := by
  unfold tileSymbols
  split <;> rfl

theorem tileEventsOf_overhead (K : Config) : tileEventsOf (writeChaosOverhead K) = [] := by
  unfold writeChaosOverhead
  generalize List.range PLANES = l
  induction l with
  | nil => rfl
  | cons a l ih =>
    rw [List.flatMap_cons, tileEventsOf_append, ih, List.append_nil]
    generalize List.range K.CHAOS_LEVELS = l2
    induction l2 with
    | nil => rfl
    | cons b l2 ih2 => simpa [tileEventsOf] using ih2

theorem writeChaosPixel_tiles (K : Config) (s : ImageCMWriter) (y : Nat)
    (st : Mem × List WriteEvent) (x : Nat) :
    tileEventsOf (writeChaosPixel K s y st x).2 = tileEventsOf st.2 ++ tileSymbols K s x y := by
  rw [writeChaosPixel_eq]
  split
  · show tileEventsOf (st.2 ++ tileSymbols K s x y) = _
    rw [tileEventsOf_append, tileEventsOf_tileSymbols]
  · show tileEventsOf ((st.2 ++ tileSymbols K s x y) ++ _) = _
    rw [tileEventsOf_append, tileEventsOf_append, tileEventsOf_tileSymbols,
      tileEventsOf_toEncode, List.append_nil]

theorem writeChaosRow_tiles (K : Config) (s : ImageCMWriter) (y n : Nat)
    (st : Mem × List WriteEvent) :
    tileEventsOf (writeChaosRow K s y n st).2
      = tileEventsOf st.2 ++ (List.range n).flatMap fun x => tileSymbols K s x y := by
  induction n with
  | zero => simp [writeChaosRow]
  | succ n ih =>
    rw [writeChaosRow_succ, writeChaosPixel_tiles, ih, List.range_succ, List.flatMap_append,
      List.flatMap_singleton, List.append_assoc]

theorem writeChaosRows_tiles (K : Config) (s : ImageCMWriter) (n : Nat)
    (st : Mem × List WriteEvent) :
    tileEventsOf (writeChaosRows K s n st).2
      = tileEventsOf st.2 ++ (List.range n).flatMap fun y =>
          (List.range s._width).flatMap fun x => tileSymbols K s x y := by
  induction n with
  | zero => simp [writeChaosRows]
  | succ n ih =>
    rw [writeChaosRows_succ, writeChaosRow_tiles, ih, List.range_succ, List.flatMap_append,
      List.flatMap_singleton, List.append_assoc]

theorem range_flatMap_zone {α : Type} (F W : Nat) (hF : 0 < F) (g f : Nat → List α)
    (hf : ∀ x, f x = if x % F = 0 then g (x / F) else []) :
    (List.range (W * F)).flatMap f = (List.range W).flatMap g := by
  induction W with
  | zero => simp
  | succ W ih =>
    have e : (W + 1) * F = W * F + F := by ring
    rw [e, List.range_add, List.flatMap_append, ih, List.range_succ, List.flatMap_append,
      List.flatMap_singleton, List.flatMap_map]
    congr 1
    obtain ⟨F', rfl⟩ : ∃ F', F = F' + 1 := ⟨F - 1, by omega⟩
    rw [List.range_succ_eq_map, List.flatMap_cons, List.flatMap_map]
    have h0 : f (W * (F' + 1) + 0) = g W := by
      rw [hf, Nat.add_zero, Nat.mul_mod_left, if_pos rfl, Nat.mul_div_cancel _ hF]
    have hr : (List.range F').flatMap (fun i => f (W * (F' + 1) + Nat.succ i)) = [] := by
      rw [List.flatMap_eq_nil_iff]
      intro i hi
      rw [List.mem_range] at hi
      rw [hf, if_neg]
      rw [Nat.add_comm, Nat.add_mul_mod_self_right, Nat.mod_eq_of_lt (by omega)]
      exact Nat.succ_ne_zero i
    show f (W * (F' + 1) + 0) ++ (List.range F').flatMap (fun i => f (W * (F' + 1) + Nat.succ i))
      = g W
    rw [h0, hr, List.append_nil]

theorem zone_mask_eq_mod (K : Config) (x : Nat) :
    x &&& K.FILTER_ZONE_SIZE_MASK = x % K.FILTER_ZONE_SIZE := by
  unfold Config.FILTER_ZONE_SIZE_MASK Config.FILTER_ZONE_SIZE
  rw [Nat.one_shiftLeft, Nat.and_pow_two_sub_one_eq_mod]

theorem getFilter_lt (K : Config) (s : ImageCMWriter) (x y : Nat) :
    s.getFilter K x y < 65536 := by
  unfold ImageCMWriter.getFilter
  cases s._matrix with
  | none => exact Nat.zero_lt_succ _
  | some m => exact Nat.mod_lt _ (by decide)

theorem getFilter_tileEntry (K : Config) (s : ImageCMWriter) (x y : Nat) :
    s.getFilter K x y = tileEntry K s (x / K.FILTER_ZONE_SIZE) (y / K.FILTER_ZONE_SIZE) := by
  have hpos := zone_size_pos K
  unfold tileEntry
  have hx := Nat.div_add_mod x K.FILTER_ZONE_SIZE
  have hy := Nat.div_add_mod y K.FILTER_ZONE_SIZE
  rw [Nat.mul_comm] at hx hy
  conv_lhs => rw [← hx, ← hy]
  exact getFilter_in_tile K s _ _ _ _ (Nat.mod_lt _ hpos) (Nat.mod_lt _ hpos)

theorem tileSymbols_eq (K : Config) (s : ImageCMWriter) (x y : Nat) :
    tileSymbols K s x y
      = if x % K.FILTER_ZONE_SIZE = 0 ∧ y % K.FILTER_ZONE_SIZE = 0 then
          tilePair K s (x / K.FILTER_ZONE_SIZE) (y / K.FILTER_ZONE_SIZE)
        else [] := by
  unfold tileSymbols tilePair
  rw [zone_mask_eq_mod, zone_mask_eq_mod, ← getFilter_tileEntry]
  have hlt := getFilter_lt K s x y
  have e1 : (s.getFilter K x y >>> 8) % 256 = s.getFilter K x y >>> 8 := by
    rw [Nat.shiftRight_eq_div_pow]
    omega
  have e2 : s.getFilter K x y % 256 = s.getFilter K x y &&& 255 :=
    (Nat.and_pow_two_sub_one_eq_mod _ 8).symm
  rw [e1, e2]
  split
  · split <;> rfl
  · rfl

theorem tilePair_length (K : Config) (s : ImageCMWriter) (tx ty : Nat) :
    (tilePair K s tx ty).length = 2 := by
  unfold tilePair
  split <;> rfl

theorem tileMapStream_length (K : Config) (s : ImageCMWriter) :
    (tileMapStream K s).length = 2 * (s._w * s._h) := by
  have hrow : ∀ ty, ((List.range s._w).flatMap fun tx => tilePair K s tx ty).length
      = 2 * s._w := by
    intro ty
    rw [List.length_flatMap]
    have e : (fun tx => (tilePair K s tx ty).length) = fun _ => 2 :=
      funext fun tx => tilePair_length K s tx ty
    simp [Function.comp_def, e]
    ring
  unfold tileMapStream
  rw [List.length_flatMap]
  simp only [Function.comp_def, hrow]
  simp
  ring

theorem writeChaos_tileEvents (K : Config) (s : ImageCMWriter) (chaos : Mem)
    (writer : List WriteEvent) (hv : ValidDims K s) (hc : s._chaos = some chaos) :
    tileEventsOf (s.writeChaos K writer).2.2 = tileEventsOf writer ++ tileMapStream K s := by
  have hpos := zone_size_pos K
  unfold ImageCMWriter.writeChaos
  rw [hc]
  show tileEventsOf (writeChaosRows K s s._height (writeChaosStart K s chaos writer)).2 = _
  rw [writeChaosRows_tiles]
  have hstart : tileEventsOf (writeChaosStart K s chaos writer).2 = tileEventsOf writer := by
    show tileEventsOf (writer ++ writeChaosOverhead K) = _
    rw [tileEventsOf_append, tileEventsOf_overhead, List.append_nil]
  rw [hstart, hv.1, hv.2]
  congr 1
  unfold tileMapStream
  apply range_flatMap_zone K.FILTER_ZONE_SIZE s._h hpos
  intro y
  by_cases hy : y % K.FILTER_ZONE_SIZE = 0
  · rw [if_pos hy]
    apply range_flatMap_zone K.FILTER_ZONE_SIZE s._w hpos
    intro x
    rw [tileSymbols_eq]
    by_cases hx : x % K.FILTER_ZONE_SIZE = 0
    · rw [if_pos ⟨hx, hy⟩, if_pos hx]
    · rw [if_neg (fun h => hx h.1), if_neg hx]
  · rw [if_neg hy, List.flatMap_eq_nil_iff]
    intro x _
    rw [tileSymbols_eq, if_neg (fun h => hy h.2)]

/-- C15: on a writer whose dimensions are whole numbers of tiles, the tile-map symbols in
the output of `writeChaos` are, behind those already written, the pairs of all tiles in
raster order of tiles: `_w * _h` pairs, each an SF symbol followed by a CF symbol, the
surrogate pair if the tile holds `UNUSED_FILTER` and `(filter >> 8, filter & 255)`
otherwise.  At a pixel `(x, y)` the pass appends the pair of the tile whose top-left pixel
it is (nothing at any other pixel) and after it the residual symbols of the pixel. -/
theorem tile_map_streaming (K : Config) (s : ImageCMWriter) (chaos : Mem)
    (writer : List WriteEvent) (hv : ValidDims K s) (hc : s._chaos = some chaos) :
    tileEventsOf (s.writeChaos K writer).2.2 = tileEventsOf writer ++ tileMapStream K s
      ∧ (tileMapStream K s).length = 2 * (s._w * s._h)
      ∧ (∀ tx ty : Nat, ∃ sf cf : Nat,
          tilePair K s tx ty = [WriteEvent.sfSymbol sf, WriteEvent.cfSymbol cf])
      ∧ ∀ (x y : Nat) (st : Mem × List WriteEvent), ∃ syms : List Push,
          (writeChaosPixel K s y st x).2
            = st.2
              ++ (if x % K.FILTER_ZONE_SIZE = 0 ∧ y % K.FILTER_ZONE_SIZE = 0 then
                  tilePair K s (x / K.FILTER_ZONE_SIZE) (y / K.FILTER_ZONE_SIZE) else [])
              ++ syms.map toEncode := by
  have hpos := zone_size_pos K
  refine ⟨?_, tileMapStream_length K s, ?_, ?_⟩
  · exact writeChaos_tileEvents K s chaos writer hv hc
  · intro tx ty
    unfold tilePair
    split
    · exact ⟨_, _, rfl⟩
    · exact ⟨_, _, rfl⟩
  · intro x y st
    rw [writeChaosPixel_eq, ← tileSymbols_eq]
    split
    · exact ⟨[], by simp⟩
    · exact ⟨_, rfl⟩

set_option maxRecDepth 100000 in
/-- Witness of C15: the sample writer has one tile, whose filter word is 0. -/
theorem tile_map_streaming_witness :
    ValidDims demoConfig sampleWriter ∧ sampleWriter._chaos = some (fun _ => 9)
      ∧ tileEventsOf (sampleWriter.writeChaos demoConfig []).2.2
        = [WriteEvent.sfSymbol 0, WriteEvent.cfSymbol 0] :=
  ⟨⟨by decide, by decide⟩, rfl,
    (tile_map_streaming demoConfig sampleWriter (fun _ => 9) [] ⟨by decide, by decide⟩ rfl).1⟩

/-! ## Encoder: range of the tile-map symbols -/

theorem add_scores_length (f : FilterScorer) (i : Nat) (e : Int) :
    (f.add i e).scores.length = f.scores.length := by
  unfold FilterScorer.add
  exact List.length_modify _ _ _

theorem zoneScores_length (K : Config) (s : ImageCMWriter) (x y : Nat) (sc : FilterScorer) :
    (zoneScores K s x y sc).scores.length = sc.scores.length := by
  unfold zoneScores
  apply foldl_invariant (fun a : FilterScorer => a.scores.length = sc.scores.length)
  · rfl
  · intro a q _ ha
    apply foldl_invariant (fun a : FilterScorer => a.scores.length = sc.scores.length)
    · exact ha
    · intro a ii _ ha
      apply foldl_invariant (fun a : FilterScorer => a.scores.length = sc.scores.length)
      · exact ha
      · intro a jj _ ha
        rw [add_scores_length]
        exact ha

theorem getTop_index_lt (f : FilterScorer) (k : Nat) (p : Nat × Int) (hp : p ∈ f.getTop k) :
    p.1 < f.scores.length := by
  unfold FilterScorer.getTop at hp
  have h1 := List.mem_of_mem_take hp
  have h2 := (List.perm_insertionSort _ _).mem_iff.mp h1
  exact List.fst_lt_of_mem_enum h2

theorem getD_index_lt (l : List (Nat × Int)) (n ii : Nat) (hn : 0 < n)
    (hl : ∀ p ∈ l, p.1 < n) : (l.getD ii (0, 0)).1 < n := by
  by_cases h : ii < l.length
  · rw [List.getD_eq_getElem l _ h]
    exact hl _ (List.getElem_mem h)
  · rw [List.getD_eq_default l _ (by omega)]
    exact hn

theorem getLowest_index_lt (f : FilterScorer) (h : 0 < f.scores.length) :
    f.getLowest.1 < f.scores.length := by
  unfold FilterScorer.getLowest
  cases hl : f.getTop 1 with
  | nil => exact h
  | cons a l =>
    apply getTop_index_lt f 1 a
    rw [hl]
    exact List.mem_cons_self a l

theorem zone_scorer_length (K : Config) (s : ImageCMWriter) (x y : Nat) :
    (zoneScores K s x y (FilterScorer.init (K.SF_COUNT * K.CF_COUNT)).reset).scores.length
      = K.SF_COUNT * K.CF_COUNT := by
  rw [zoneScores_length]
  simp [FilterScorer.reset, FilterScorer.init]

theorem split_index_lt (K : Config) (index : Nat) (h : index < K.SF_COUNT * K.CF_COUNT) :
    index % K.SF_COUNT < K.SF_COUNT ∧ index / K.SF_COUNT < K.CF_COUNT := by
  have hpos : 0 < K.SF_COUNT := by
    rcases Nat.eq_zero_or_pos K.SF_COUNT with h0 | h0
    · rw [h0, Nat.zero_mul] at h
      exact absurd h (Nat.not_lt_zero _)
    · exact h0
  exact ⟨Nat.mod_lt _ hpos, Nat.div_lt_of_lt_mul h⟩

theorem rankStep_valid (K : Config) (s : ImageCMWriter) (x y : Nat) (top : List (Nat × Int))
    (htop : ∀ ii, (top.getD ii (0, 0)).1 < K.SF_COUNT * K.CF_COUNT) (r : RankState) (ii : Nat)
    (hr : r.bestSF < K.SF_COUNT ∧ r.bestCF < K.CF_COUNT) :
    (rankStep K s x y top r ii).bestSF < K.SF_COUNT
      ∧ (rankStep K s x y top r ii).bestCF < K.CF_COUNT := by
  obtain ⟨h1, h2⟩ := split_index_lt K _ (htop ii)
  have hs : ((top.getD ii (0, 0)).1 % K.SF_COUNT) % 256 < K.SF_COUNT :=
    Nat.lt_of_le_of_lt (Nat.mod_le _ _) h1
  have hc : ((top.getD ii (0, 0)).1 / K.SF_COUNT) % 256 < K.CF_COUNT :=
    Nat.lt_of_le_of_lt (Nat.mod_le _ _) h2
  unfold rankStep
  lift_lets
  extract_lets index sf cf ee ee2 score
  split
  · exact ⟨hs, hc⟩
  · split
    · exact ⟨hs, hc⟩
    · exact hr

theorem decideZone_valid (K : Config) (s : ImageCMWriter) (x y : Nat)
    (ee : Nat → EntropyEstimator) (hSF : 0 < K.SF_COUNT) (hCF : 0 < K.CF_COUNT) :
    (decideZone K s x y ee).1.1 < K.SF_COUNT ∧ (decideZone K s x y ee).1.2 < K.CF_COUNT := by
  have hlen := zone_scorer_length K s x y
  have hpos : 0 < K.SF_COUNT * K.CF_COUNT := Nat.mul_pos hSF hCF
  unfold decideZone
  lift_lets
  extract_lets scores best top r
  have hbest : best.1 < K.SF_COUNT * K.CF_COUNT := by
    have h := getLowest_index_lt scores (by rw [hlen]; exact hpos)
    rw [hlen] at h
    exact h
  split
  · exact split_index_lt K _ hbest
  · split
    · exact split_index_lt K _ hbest
    · have htop : ∀ ii, (top.getD ii (0, 0)).1 < K.SF_COUNT * K.CF_COUNT := by
        intro ii
        apply getD_index_lt top _ ii hpos
        intro p hp
        have h := getTop_index_lt scores K.FILTER_SELECT_FUZZ p hp
        rw [hlen] at h
        exact h
      exact foldl_invariant
        (fun r : RankState => r.bestSF < K.SF_COUNT ∧ r.bestCF < K.CF_COUNT)
        (rankStep K s x y top) _ _ ⟨hSF, hCF⟩
        (fun r ii _ hr => rankStep_valid K s x y top htop r ii hr)

theorem packed_valid (K : Config) (sf cf : Nat) (hsf : sf < K.SF_COUNT) (hcf : cf < K.CF_COUNT)
    (h256 : K.CF_COUNT ≤ 256) :
    ValidEntry K ((((sf % 65536) <<< 8) ||| cf) % 65536 % 65536) := by
  have e : ((sf % 65536) <<< 8) ||| cf = 2 ^ 8 * (sf % 65536) + cf := by
    rw [Nat.shiftLeft_eq, Nat.mul_comm]
    exact (Nat.mul_add_lt_is_or (by omega) _).symm
  unfold ValidEntry
  rw [e, Nat.shiftRight_eq_div_pow]
  constructor <;> omega

theorem getFilter_setFilter_or (K : Config) (s : ImageCMWriter) (zx zy filter x y : Nat) :
    (s.setFilter K zx zy filter).getFilter K x y = filter % 65536
      ∨ (s.setFilter K zx zy filter).getFilter K x y = s.getFilter K x y := by
  by_cases h : x >>> K.FILTER_ZONE_SIZE_SHIFT + y >>> K.FILTER_ZONE_SIZE_SHIFT * s._w
      = zx >>> K.FILTER_ZONE_SIZE_SHIFT + zy >>> K.FILTER_ZONE_SIZE_SHIFT * s._w
  · unfold ImageCMWriter.setFilter ImageCMWriter.getFilter
    cases h2 : s._matrix with
    | none => right; rfl
    | some m => left; simp only [Option.map_some', h, if_true, Nat.mod_mod]
  · right
    exact getFilter_setFilter_ne K s zx zy filter x y h

theorem decideFilters_valid (K : Config) (s : ImageCMWriter) (hSF : 0 < K.SF_COUNT)
    (hCF : 0 < K.CF_COUNT) (h256 : K.CF_COUNT ≤ 256) (hv : ValidDims K s)
    (hm : s._matrix.isSome = true) (tx ty : Nat) (htx : tx < s._w) (hty : ty < s._h) :
    ValidEntry K (tileEntry K (s.decideFilters K) tx ty) := by
  unfold ImageCMWriter.decideFilters tileEntry
  lift_lets
  extract_lets ee0
  rw [hv.1, hv.2]
  have hstepQ : ∀ (acc : ImageCMWriter × (Nat → EntropyEstimator)) (x y : Nat),
      acc.1._matrix.isSome = true →
      (acc.1.setFilter K x y
        ((((decideZone K acc.1 x y acc.2).1.1 % 65536) <<< 8
          ||| (decideZone K acc.1 x y acc.2).1.2) % 65536),
        (decideZone K acc.1 x y acc.2).2).1._matrix.isSome = true := by
    intro acc x y h
    rw [← h]
    exact setFilter_isSome K acc.1 x y _
  have hstepP : ∀ (acc : ImageCMWriter × (Nat → EntropyEstimator)) (x y : Nat),
      ValidEntry K (acc.1.getFilter K (tx * K.FILTER_ZONE_SIZE) (ty * K.FILTER_ZONE_SIZE)) →
      ValidEntry K ((acc.1.setFilter K x y
        ((((decideZone K acc.1 x y acc.2).1.1 % 65536) <<< 8
          ||| (decideZone K acc.1 x y acc.2).1.2) % 65536),
        (decideZone K acc.1 x y acc.2).2).1.getFilter K (tx * K.FILTER_ZONE_SIZE)
          (ty * K.FILTER_ZONE_SIZE)) := by
    intro acc x y h
    obtain ⟨h1, h2⟩ := decideZone_valid K acc.1 x y acc.2 hSF hCF
    rcases getFilter_setFilter_or K acc.1 x y
      ((((decideZone K acc.1 x y acc.2).1.1 % 65536) <<< 8
          ||| (decideZone K acc.1 x y acc.2).1.2) % 65536)
      (tx * K.FILTER_ZONE_SIZE) (ty * K.FILTER_ZONE_SIZE) with h3 | h3
    · show ValidEntry K ((acc.1.setFilter K x y _).getFilter K _ _)
      rw [h3]
      exact packed_valid K _ _ h1 h2 h256
    · show ValidEntry K ((acc.1.setFilter K x y _).getFilter K _ _)
      rw [h3]
      exact h
  have hrowQ : ∀ (acc : ImageCMWriter × (Nat → EntropyEstimator)) (y : Nat),
      acc.1._matrix.isSome = true →
      ((zoneStarts K (s._w * K.FILTER_ZONE_SIZE)).foldl
        (fun (acc : ImageCMWriter × (Nat → EntropyEstimator)) x =>
          let r := decideZone K acc.1 x y acc.2
          let filter := (((r.1.1 % 65536) <<< 8) ||| r.1.2) % 65536
          (acc.1.setFilter K x y filter, r.2)) acc).1._matrix.isSome = true := by
    intro acc y h
    exact foldl_invariant
      (fun a : ImageCMWriter × (Nat → EntropyEstimator) => a.1._matrix.isSome = true)
      _ _ acc h (fun a b _ ha => hstepQ a b y ha)
  apply foldl_establish
    (fun a : ImageCMWriter × (Nat → EntropyEstimator) => a.1._matrix.isSome = true)
    (fun a : ImageCMWriter × (Nat → EntropyEstimator) =>
      ValidEntry K (a.1.getFilter K (tx * K.FILTER_ZONE_SIZE) (ty * K.FILTER_ZONE_SIZE))) _ _
    (ty * K.FILTER_ZONE_SIZE) (zoneStarts_of_lt K s._h ty hty)
  · intro a y _ ha
    exact hrowQ a y ha
  · intro a ha
    apply foldl_establish
      (fun a : ImageCMWriter × (Nat → EntropyEstimator) => a.1._matrix.isSome = true)
      (fun a : ImageCMWriter × (Nat → EntropyEstimator) =>
        ValidEntry K (a.1.getFilter K (tx * K.FILTER_ZONE_SIZE) (ty * K.FILTER_ZONE_SIZE))) _ _
      (tx * K.FILTER_ZONE_SIZE) (zoneStarts_of_lt K s._w tx htx)
    · intro a x _ ha
      exact hstepQ a x _ ha
    · intro a ha
      obtain ⟨h1, h2⟩ := decideZone_valid K a.1 (tx * K.FILTER_ZONE_SIZE)
        (ty * K.FILTER_ZONE_SIZE) a.2 hSF hCF
      show ValidEntry K ((a.1.setFilter K _ _ _).getFilter K _ _)
      rw [getFilter_setFilter_same K a.1 _ _ _ ha]
      exact packed_valid K _ _ h1 h2 h256
    · intro a x _ _ hP
      exact hstepP a x _ hP
    · exact ha
  · intro a y _ ha hP
    have h := foldl_invariant
      (fun a : ImageCMWriter × (Nat → EntropyEstimator) => a.1._matrix.isSome = true
        ∧ ValidEntry K (a.1.getFilter K (tx * K.FILTER_ZONE_SIZE) (ty * K.FILTER_ZONE_SIZE)))
      (fun (acc : ImageCMWriter × (Nat → EntropyEstimator)) x =>
          let r := decideZone K acc.1 x y acc.2
          let filter := (((r.1.1 % 65536) <<< 8) ||| r.1.2) % 65536
          (acc.1.setFilter K x y filter, r.2))
      (zoneStarts K (s._w * K.FILTER_ZONE_SIZE)) a ⟨ha, hP⟩
      (fun a b _ ha => ⟨hstepQ a b y ha.1, hstepP a b y ha.2⟩)
    exact h.2
  · exact hm

theorem statsInput_valid (K : Config) (s : ImageCMWriter) (rgba : Mem) (width height : Int)
    (mask lz : Nat → Nat → Bool) (heapMatrix : Int → Nat) (heapChaos : Mem)
    (hSF : 0 < K.SF_COUNT) (hCF : 0 < K.CF_COUNT) (h256 : K.CF_COUNT ≤ 256)
    (hok : (s.init K width height heapMatrix heapChaos).1 = WriterResult.WE_OK)
    (tx ty : Nat)
    (htx : tx < (statsInput K s rgba width height mask lz heapMatrix heapChaos)._w)
    (hty : ty < (statsInput K s rgba width height mask lz heapMatrix heapChaos)._h) :
    ValidEntry K
      (tileEntry K (statsInput K s rgba width height mask lz heapMatrix heapChaos) tx ty) := by
  obtain ⟨-, -, hv, -, -, -⟩ :=
    statsInput_fields K s rgba width height mask lz heapMatrix heapChaos hok
  obtain ⟨-, hst⟩ := init_ok_state K s width height heapMatrix heapChaos hok
  have hinv := decideFilters_inv K
    { (s.init K width height heapMatrix heapChaos).2 with
      _rgba := rgba, _mask := mask, _lz := lz }
  obtain ⟨f1, f2, f3, f4, -⟩ := (sameButMatrix_fields hinv)
  unfold statsInput at *
  unfold ValidDims at hv
  rw [f1, f2, f3, f4] at hv
  rw [f1] at htx
  rw [f2] at hty
  apply decideFilters_valid K _ hSF hCF h256 hv _ tx ty htx hty
  rw [hst]
  rfl

theorem addMore_length (h : FreqHistogram) (sym count : Nat) :
    (h.addMore sym count).hist.length = h.hist.length := by
  unfold FreqHistogram.addMore
  exact List.length_modify _ _ _

theorem firstHighestPeak_lt (h : FreqHistogram) (hl : 0 < h.hist.length) :
    h.firstHighestPeak < h.hist.length := by
  unfold FreqHistogram.firstHighestPeak
  apply foldl_invariant (fun best : Nat => best < h.hist.length)
  · exact hl
  · intro best i hi hb
    split
    · exact List.mem_range.mp hi
    · exact hb

theorem writeFiltersScan_hist (K : Config) (s : ImageCMWriter) :
    (writeFiltersScan K s).sf_hist.hist.length = K.SF_COUNT
      ∧ (writeFiltersScan K s).cf_hist.hist.length = K.CF_COUNT
      ∧ ∀ x y, (writeFiltersScan K s).writer.getFilter K x y = s.getFilter K x y
          ∨ (writeFiltersScan K s).writer.getFilter K x y = K.UNUSED_FILTER % 65536 := by
  unfold writeFiltersScan
  have hstep : ∀ (acc : FilterScan) (y x : Nat),
      (acc.sf_hist.hist.length = K.SF_COUNT ∧ acc.cf_hist.hist.length = K.CF_COUNT
        ∧ ∀ x y, acc.writer.getFilter K x y = s.getFilter K x y
            ∨ acc.writer.getFilter K x y = K.UNUSED_FILTER % 65536) →
      ((writeFiltersZone K y acc x).sf_hist.hist.length = K.SF_COUNT
        ∧ (writeFiltersZone K y acc x).cf_hist.hist.length = K.CF_COUNT
        ∧ ∀ px py, (writeFiltersZone K y acc x).writer.getFilter K px py = s.getFilter K px py
            ∨ (writeFiltersZone K y acc x).writer.getFilter K px py
              = K.UNUSED_FILTER % 65536) := by
    intro acc y x h
    obtain ⟨h1, h2, h3⟩ := h
    unfold writeFiltersZone
    split
    · refine ⟨?_, ?_, h3⟩
      · show (acc.sf_hist.add _).hist.length = _
        unfold FreqHistogram.add
        rw [addMore_length, h1]
      · show (acc.cf_hist.add _).hist.length = _
        unfold FreqHistogram.add
        rw [addMore_length, h2]
    · refine ⟨h1, h2, ?_⟩
      intro px py
      rcases getFilter_setFilter_or K acc.writer x y K.UNUSED_FILTER px py with h | h
      · exact Or.inr h
      · show (acc.writer.setFilter K x y K.UNUSED_FILTER).getFilter K px py = _ ∨ _
        rw [h]
        exact h3 px py
  apply foldl_invariant (fun acc : FilterScan =>
    acc.sf_hist.hist.length = K.SF_COUNT ∧ acc.cf_hist.hist.length = K.CF_COUNT
      ∧ ∀ x y, acc.writer.getFilter K x y = s.getFilter K x y
          ∨ acc.writer.getFilter K x y = K.UNUSED_FILTER % 65536)
  · exact ⟨by simp [FreqHistogram.init], by simp [FreqHistogram.init], fun _ _ => Or.inl rfl⟩
  · intro acc y _ hacc
    exact foldl_invariant (fun acc : FilterScan =>
      acc.sf_hist.hist.length = K.SF_COUNT ∧ acc.cf_hist.hist.length = K.CF_COUNT
        ∧ ∀ x y, acc.writer.getFilter K x y = s.getFilter K x y
            ∨ acc.writer.getFilter K x y = K.UNUSED_FILTER % 65536)
      (writeFiltersZone K y) _ acc hacc (fun a b _ ha => hstep a y b ha)

theorem writeFilters_tilemap (K : Config) (s : ImageCMWriter) (writer : List WriteEvent)
    (hSF : 0 < K.SF_COUNT) (hCF : 0 < K.CF_COUNT) (hv : ValidDims K s) :
    (s.writeFilters K writer).2.1._sf_unused_sym < K.SF_COUNT
      ∧ (s.writeFilters K writer).2.1._cf_unused_sym < K.CF_COUNT
      ∧ (s.writeFilters K writer).2.1._w = s._w
      ∧ (s.writeFilters K writer).2.1._h = s._h
      ∧ tileEventsOf (s.writeFilters K writer).2.2 = tileEventsOf writer := by
  obtain ⟨h1, h2, -⟩ := writeFiltersScan_hist K s
  obtain ⟨f1, f2, -⟩ := (sameButMatrix_fields (writeFiltersScan_inv K s hv).1)
  have p1 := firstHighestPeak_lt (writeFiltersScan K s).sf_hist (by rw [h1]; exact hSF)
  have p2 := firstHighestPeak_lt (writeFiltersScan K s).cf_hist (by rw [h2]; exact hCF)
  rw [h1] at p1
  rw [h2] at p2
  unfold ImageCMWriter.writeFilters
  lift_lets
  extract_lets scan s1 s2 s3 sf_hist cf_hist s4 s5
  split
  · exact ⟨p1, p2, f1, f2, rfl⟩
  · split
    · exact ⟨p1, p2, f1, f2, rfl⟩
    · refine ⟨p1, p2, f1, f2, ?_⟩
      rw [tileEventsOf_append]
      exact List.append_nil _

theorem mem_tileEventsOf (l : List WriteEvent) (e : WriteEvent) :
    e ∈ tileEventsOf l
      ↔ e ∈ l ∧ ((∃ sf, e = WriteEvent.sfSymbol sf) ∨ (∃ cf, e = WriteEvent.cfSymbol cf)) := by
  induction l with
  | nil => simp [tileEventsOf]
  | cons a l ih =>
    cases a <;> simp only [tileEventsOf, List.mem_cons, ih] <;> constructor
    all_goals
      intro h
      first
        | (rcases h with ⟨h1 | h1, h2⟩
           · first
               | exact Or.inl h1
               | (rcases h2 with ⟨v, h2⟩ | ⟨v, h2⟩ <;> rw [h2] at h1 <;>
                  exact WriteEvent.noConfusion h1)
           · first
               | exact Or.inr ⟨h1, h2⟩
               | exact ⟨h1, h2⟩)
        | (rcases h with h | h
           · exact ⟨Or.inl h, by rw [h]; first | exact Or.inl ⟨_, rfl⟩ | exact Or.inr ⟨_, rfl⟩⟩
           · exact ⟨Or.inr h.1, h.2⟩)
        | exact ⟨Or.inr h.1, h.2⟩

theorem tilePair_valid (K : Config) (s : ImageCMWriter) (tx ty : Nat)
    (hs : s._sf_unused_sym < K.SF_COUNT) (hc : s._cf_unused_sym < K.CF_COUNT)
    (he : tileEntry K s tx ty ≠ K.UNUSED_FILTER → ValidEntry K (tileEntry K s tx ty))
    (e : WriteEvent) (hmem : e ∈ tilePair K s tx ty) :
    (∀ sf, e = WriteEvent.sfSymbol sf → sf < K.SF_COUNT)
      ∧ (∀ cf, e = WriteEvent.cfSymbol cf → cf < K.CF_COUNT) := by
  have hlt : tileEntry K s tx ty < 65536 := getFilter_lt K s _ _
  unfold tilePair at hmem
  split at hmem
  · simp only [List.mem_cons, List.mem_singleton, List.not_mem_nil, or_false] at hmem
    rcases hmem with rfl | rfl
    · refine ⟨?_, fun cf h => WriteEvent.noConfusion h⟩
      intro sf h
      injection h with h
      rw [← h]
      exact Nat.lt_of_le_of_lt (Nat.mod_le _ _) hs
    · refine ⟨fun sf h => WriteEvent.noConfusion h, ?_⟩
      intro cf h
      injection h with h
      rw [← h]
      exact Nat.lt_of_le_of_lt (Nat.mod_le _ _) hc
  · rename_i hne
    obtain ⟨v1, v2⟩ := he hne
    simp only [List.mem_cons, List.mem_singleton, List.not_mem_nil, or_false] at hmem
    rcases hmem with rfl | rfl
    · refine ⟨?_, fun cf h => WriteEvent.noConfusion h⟩
      intro sf h
      injection h with h
      rw [← h]
      rw [Nat.shiftRight_eq_div_pow] at v1 ⊢
      omega
    · refine ⟨fun sf h => WriteEvent.noConfusion h, ?_⟩
      intro cf h
      injection h with h
      rw [← h, show (255 : Nat) = 2 ^ 8 - 1 from rfl, Nat.and_pow_two_sub_one_eq_mod]
      exact v2

/-- C11: let the catalogue sizes satisfy `0 < SF_COUNT` and `0 < CF_COUNT <= 256` and let
`UNUSED_FILTER` be a 16-bit value.  After a successful `initFromRGBA`, every SF symbol that
`write` hands to the SF encoder is below `SF_COUNT` and every CF symbol below `CF_COUNT`:
for a used tile the symbols are the halves of the filter word packed by `decideFilters`
from a scorer index, for an unused tile they are the surrogate symbols chosen by
`firstHighestPeak`. -/
theorem tile_symbols_in_range (K : Config) (s : ImageCMWriter) (rgba : Mem)
    (width height : Int) (mask lz : Nat → Nat → Bool) (heapMatrix : Int → Nat)
    (heapChaos : Mem) (writer : List WriteEvent)
    (hSF : 0 < K.SF_COUNT) (hCF : 0 < K.CF_COUNT) (h256 : K.CF_COUNT ≤ 256)
    (hU : K.UNUSED_FILTER < 65536)
    (hok : (s.initFromRGBA K rgba width height mask lz heapMatrix heapChaos).1
      = WriterResult.WE_OK) :
    ∀ e ∈ ((s.initFromRGBA K rgba width height mask lz heapMatrix heapChaos).2.write K
        writer).2,
      e ∈ writer ∨ ((∀ sf, e = WriteEvent.sfSymbol sf → sf < K.SF_COUNT)
        ∧ (∀ cf, e = WriteEvent.cfSymbol cf → cf < K.CF_COUNT)) := by
  obtain ⟨hinit, hs1⟩ := initFromRGBA_ok K s rgba width height mask lz heapMatrix heapChaos hok
  obtain ⟨hc, -, hv, -, -, -⟩ :=
    statsInput_fields K s rgba width height mask lz heapMatrix heapChaos hinit
  have hvalid := statsInput_valid K s rgba width height mask lz heapMatrix heapChaos hSF hCF
    h256 hinit
  rw [hs1]
  generalize statsInput K s rgba width height mask lz heapMatrix heapChaos = sD at *
  have hst := chaosStats_state K sD heapChaos hc
  generalize hs1' : sD.chaosStats K = s1 at *
  have hv1 : ValidDims K s1 := by rw [hst]; exact hv
  have hvalid1 : ∀ tx ty, tx < s1._w → ty < s1._h → ValidEntry K (tileEntry K s1 tx ty) := by
    intro tx ty htx hty
    rw [hst] at htx hty ⊢
    exact hvalid tx ty htx hty
  obtain ⟨w1, -, w3, -, -⟩ := writeFilters_inv K s1 writer hv1
  obtain ⟨u1, u2, u3, u4, u5⟩ := writeFilters_tilemap K s1 writer hSF hCF hv1
  have hget : ∀ x y, (s1.writeFilters K writer).2.1.getFilter K x y = s1.getFilter K x y
      ∨ (s1.writeFilters K writer).2.1.getFilter K x y = K.UNUSED_FILTER % 65536 := by
    intro x y
    rw [writeFilters_getFilter]
    exact (writeFiltersScan_hist K s1).2.2 x y
  have hwrite : (s1.write K writer).2
      = ((s1.writeFilters K writer).2.1.writeChaos K (s1.writeFilters K writer).2.2).2.2 := rfl
  generalize (s1.writeFilters K writer).2.1 = s2 at *
  generalize (s1.writeFilters K writer).2.2 = wr2 at *
  have hv2 : ValidDims K s2 := by
    unfold ValidDims
    rw [u3, u4, ← w1.2.1, ← w1.2.2.1]
    exact hv1
  have hch : s2._chaos = some (chaosStatsRows K sD sD._height (chaosStatsStart K sD heapChaos)).1 := by
    rw [w3, hst]
  have htiles := writeChaos_tileEvents K s2 _ wr2 hv2 hch
  intro e he
  by_cases hk : (∃ sf, e = WriteEvent.sfSymbol sf) ∨ (∃ cf, e = WriteEvent.cfSymbol cf)
  · have hmem : e ∈ tileEventsOf (s1.write K writer).2 := (mem_tileEventsOf _ e).mpr ⟨he, hk⟩
    rw [hwrite, htiles, u5, List.mem_append] at hmem
    rcases hmem with hmem | hmem
    · exact Or.inl ((mem_tileEventsOf _ e).mp hmem).1
    · right
      unfold tileMapStream at hmem
      rw [List.mem_flatMap] at hmem
      obtain ⟨ty, hty, hmem⟩ := hmem
      rw [List.mem_flatMap] at hmem
      obtain ⟨tx, htx, hmem⟩ := hmem
      rw [List.mem_range] at htx hty
      apply tilePair_valid K s2 tx ty u1 u2 _ e hmem
      intro hne
      unfold tileEntry at hne ⊢
      rcases hget (tx * K.FILTER_ZONE_SIZE) (ty * K.FILTER_ZONE_SIZE) with h | h
      · rw [h]
        exact hvalid1 tx ty (by rw [← u3]; exact htx) (by rw [← u4]; exact hty)
      · rw [h, Nat.mod_eq_of_lt hU] at hne
        exact absurd rfl hne
  · right
    constructor
    · intro sf h
      exact absurd (Or.inl ⟨sf, h⟩) hk
    · intro cf h
      exact absurd (Or.inr ⟨cf, h⟩) hk

set_option maxRecDepth 100000 in
/-- Witness of C11: the symbols of the only tile of the sample image. -/
theorem tile_symbols_in_range_witness :
    (freshWriter.initFromRGBA demoConfig sampleImage 8 8 sampleMask sampleLz (fun _ => 0)
        (fun _ => 9)).1 = WriterResult.WE_OK
      ∧ tileEventsOf ((freshWriter.initFromRGBA demoConfig sampleImage 8 8 sampleMask sampleLz
          (fun _ => 0) (fun _ => 9)).2.write demoConfig []).2
        = [WriteEvent.sfSymbol 0, WriteEvent.cfSymbol 0]
      ∧ ∀ e ∈ ((freshWriter.initFromRGBA demoConfig sampleImage 8 8 sampleMask sampleLz
          (fun _ => 0) (fun _ => 9)).2.write demoConfig []).2,
        e ∈ ([] : List WriteEvent)
          ∨ ((∀ sf, e = WriteEvent.sfSymbol sf → sf < demoConfig.SF_COUNT)
            ∧ (∀ cf, e = WriteEvent.cfSymbol cf → cf < demoConfig.CF_COUNT)) :=
  ⟨by decide, by decide,
    tile_symbols_in_range demoConfig freshWriter sampleImage 8 8 sampleMask sampleLz
      (fun _ => 0) (fun _ => 9) [] (by decide) (by decide) (by decide) (by decide)
      (by decide)⟩

/-! ## Encoder: filter selection of the fast tier -/

set_option maxRecDepth 100000 in
/-- C19: the sample writer has `width = 8` and `RECENT_SYMS = 8`, so its context buffer is
the 64 bytes at offsets 0 to 63, of which the first 32 are the left padding; it is handed
over filled with the byte 9.  At the start of either pass the 32 bytes of the padding still
hold 9, the bytes 32 to 63 are zero, and the 32 bytes behind the buffer (offsets 64 to 95)
have been zeroed: `CAT_CLR(lastStart, _chaos_size)` clears `_chaos_size` bytes from
`lastStart = _chaos + RECENT_SYMS * PLANES` on.  The padding still holds 9 after
`initFromRGBA` has run the statistics pass. -/
theorem context_padding_not_cleared :
    sampleWriter._chaos_size
        = ((sampleWriter._width : Int) + (demoConfig.RECENT_SYMS : Int)) * (PLANES : Int)
      ∧ (List.range 96).map (fun i =>
          (chaosStatsStart demoConfig sampleWriter (fun _ => 9)).1.load (i : Int))
        = List.replicate 32 9 ++ List.replicate 64 0
      ∧ (List.range 96).map (fun i =>
          (writeChaosStart demoConfig sampleWriter (fun _ => 9) []).1.load (i : Int))
        = List.replicate 32 9 ++ List.replicate 64 0
      ∧ ((freshWriter.initFromRGBA demoConfig sampleImage 8 8 sampleMask sampleLz (fun _ => 0)
          (fun _ => 9)).2._chaos.map fun m => (List.range 32).map fun i => m.load (i : Int))
        = some (List.replicate 32 9) := by
  decide

/-! ## Encoder: inputs of the chaos level -/

theorem writeChaosRow_mem (K : Config) (s : ImageCMWriter) (y n : Nat)
    (wt : Mem × List WriteEvent) (st : Mem × List Push) (h : wt.1 = st.1) :
    (writeChaosRow K s y n wt).1 = (chaosStatsRow K s y n st).1 := by
  induction n with
  | zero => exact h
  | succ n ih =>
    rw [writeChaosRow_succ, chaosStatsRow_succ, writeChaosPixel_mem, chaosStatsPixel_mem, ih]

theorem writeChaosRows_mem (K : Config) (s : ImageCMWriter) (n : Nat)
    (wt : Mem × List WriteEvent) (st : Mem × List Push) (h : wt.1 = st.1) :
    (writeChaosRows K s n wt).1 = (chaosStatsRows K s n st).1 := by
  induction n with
  | zero => exact h
  | succ n ih =>
    rw [writeChaosRows_succ, chaosStatsRows_succ]
    exact writeChaosRow_mem K s n s._width _ _ ih

theorem emitBefore_mem (K : Config) (s : ImageCMWriter) (chaos : Mem)
    (writer : List WriteEvent) (x y : Nat) :
    (emitBefore K s chaos writer x y).1 = (statsBefore K s chaos x y).1 := by
  unfold emitBefore statsBefore
  exact writeChaosRow_mem K s y x _ _ (writeChaosRows_mem K s y _ _ rfl)

theorem statsBefore_padding (K : Config) (s : ImageCMWriter) (chaos : Mem) (x y : Nat)
    (i : Int) (hi : i < contextCursor K 0) :
    (statsBefore K s chaos x y).1 i = chaos i := by
  unfold statsBefore
  rw [chaosStatsRow_frame K s y x _ i (Or.inl hi), chaosStatsRows_frame K s y _ i (Or.inl hi)]
  unfold chaosStatsStart CAT_CLR
  simp only [contextCursor_eq] at hi
  have hP : (PLANES : Int) = 4 := rfl
  rw [hP]
  show (if (K.RECENT_SYMS : Int) * 4 ≤ i ∧ i < (K.RECENT_SYMS : Int) * 4 + s._chaos_size
    then 0 else chaos i) = chaos i
  rw [if_neg (by omega)]

/-- C18: when either pass reaches a pixel `(x, y)` of the image, the chaos level of plane
`c` is `CHAOS_TABLE[chaosScore(left) + chaosScore(above)]` (as a byte), where `above` is
the byte stored for pixel `(x, y - 1)`, and 0 for `y = 0`, and `left` is the byte stored
for pixel `(x - 1, y)` for `x > 0`; for `x = 0` the left input is the byte that the last
cell of the left padding held before the pass, which need not be 0.  An uncovered pixel
gets its symbols with these levels. -/
theorem chaos_inputs (K : Config) (s : ImageCMWriter) (chaos : Mem)
    (writer : List WriteEvent) (x y c : Nat)
    (hsize : s._chaos_size = ((s._width : Int) + (K.RECENT_SYMS : Int)) * 4)
    (hx : x < s._width) (hc : c < 4) :
    chaosLevel K (statsBefore K s chaos x y).1 (contextCursor K x) c
        = K.CHAOS_TABLE (K.chaosScore (leftInput K s chaos x y c)
            + K.chaosScore (aboveInput K s x y c)) % 256
      ∧ chaosLevel K (emitBefore K s chaos writer x y).1 (contextCursor K x) c
        = K.CHAOS_TABLE (K.chaosScore (leftInput K s chaos x y c)
            + K.chaosScore (aboveInput K s x y c)) % 256
      ∧ (covered s x y = false →
          (chaosStatsPixel K s y (statsBefore K s chaos x y) x).2
            = (statsBefore K s chaos x y).2
              ++ pixelSymbols K (statsBefore K s chaos x y).1 (contextCursor K x)
                (residualTuple K s x y)
          ∧ (writeChaosPixel K s y (emitBefore K s chaos writer x y) x).2
            = ((emitBefore K s chaos writer x y).2 ++ tileSymbols K s x y)
              ++ (pixelSymbols K (emitBefore K s chaos writer x y).1 (contextCursor K x)
                (residualTuple K s x y)).map toEncode) := by
  have habove : (statsBefore K s chaos x y).1.load (contextCursor K x + (c : Int))
      = aboveInput K s x y c := by
    unfold statsBefore
    rw [context_before K s chaos hsize x y x c hx hc]
    unfold contextBefore aboveInput
    rw [if_neg (Nat.lt_irrefl x)]
    split <;> rfl
  have hleft : (statsBefore K s chaos x y).1.load (contextCursor K x + ((c : Int) - 4))
      = leftInput K s chaos x y c := by
    unfold leftInput
    by_cases h0 : x = 0
    · subst h0
      rw [if_pos rfl]
      unfold Mem.load
      rw [statsBefore_padding K s chaos 0 y _ (by omega)]
    · rw [if_neg h0]
      have e : contextCursor K x + ((c : Int) - 4) = contextCursor K (x - 1) + (c : Int) := by
        obtain ⟨x', rfl⟩ : ∃ x', x = x' + 1 := ⟨x - 1, by omega⟩
        simp only [contextCursor_eq, Nat.add_sub_cancel]
        push_cast
        ring
      rw [e]
      unfold statsBefore
      rw [context_before K s chaos hsize x y (x - 1) c (by omega) hc]
      unfold contextBefore
      rw [if_pos (by omega)]
  have hlevel : chaosLevel K (statsBefore K s chaos x y).1 (contextCursor K x) c
      = K.CHAOS_TABLE (K.chaosScore (leftInput K s chaos x y c)
          + K.chaosScore (aboveInput K s x y c)) % 256 := by
    unfold chaosLevel
    rw [hleft, habove]
  refine ⟨hlevel, by rw [emitBefore_mem]; exact hlevel, ?_⟩
  intro hunc
  rw [chaosStatsPixel_eq, writeChaosPixel_eq, hunc]
  exact ⟨rfl, rfl⟩

set_option maxRecDepth 100000 in
/-- Witness of C18: in the sample image the only uncovered pixel is `(0, 1)`, in the first
column, and the context buffer is handed over filled with the byte 9.  The left input of
that pixel is 9 on every plane, its above input is 0, so its chaos level is
`CHAOS_TABLE[chaosScore(9) + chaosScore(0)] = 7`, not `CHAOS_TABLE[0 + 0] = 0`; both passes
use level 7 for the symbol of the pixel.  With a buffer handed over filled with zeros the
level is 0. -/
theorem first_column_left_input :
    (chaosLevel demoConfig (statsBefore demoConfig sampleWriter (fun _ => 9) 0 1).1
          (contextCursor demoConfig 0) 0
        = demoConfig.CHAOS_TABLE
            (demoConfig.chaosScore (leftInput demoConfig sampleWriter (fun _ => 9) 0 1 0)
              + demoConfig.chaosScore (aboveInput demoConfig sampleWriter 0 1 0)) % 256)
      ∧ ((List.range 8).flatMap fun y =>
          ((List.range 8).filter fun x => !(covered sampleWriter x y)).map fun x => (x, y))
        = [(0, 1)]
      ∧ (List.range 4).map (leftInput demoConfig sampleWriter (fun _ => 9) 0 1) = [9, 9, 9, 9]
      ∧ (List.range 4).map (aboveInput demoConfig sampleWriter 0 1) = [0, 0, 0, 0]
      ∧ (List.range 4).map (chaosLevel demoConfig
          (statsBefore demoConfig sampleWriter (fun _ => 9) 0 1).1 (contextCursor demoConfig 0))
        = [7, 7, 7, 7]
      ∧ demoConfig.CHAOS_TABLE (demoConfig.chaosScore 0 + demoConfig.chaosScore 0) = 0
      ∧ (freshWriter.initFromRGBA demoConfig sampleImage 8 8 sampleMask sampleLz (fun _ => 0)
          (fun _ => 9)).2._encoder = [(0, 7, 256)]
      ∧ residualEvents
          ((freshWriter.initFromRGBA demoConfig sampleImage 8 8 sampleMask sampleLz
            (fun _ => 0) (fun _ => 9)).2.write demoConfig []).2 = [(0, 7, 256)]
      ∧ (freshWriter.initFromRGBA demoConfig sampleImage 8 8 sampleMask sampleLz (fun _ => 0)
          (fun _ => 0)).2._encoder = [(0, 0, 256)] :=
  ⟨(chaos_inputs demoConfig sampleWriter (fun _ => 9) [] 0 1 0 (by decide) (by decide)
      (by decide)).1,
    by decide, by decide, by decide, by decide, by decide, by decide, by decide, by decide⟩

/-! ## Residual magnitude -/

/-- C25: for every byte `p`, `score p` is the absolute value of `p` read as a signed 8-bit
integer; it equals `min p (256 - p)`, lies between 0 and 128, and is 0 exactly for
`p = 0`.  `scoreYUV` of a triple is the sum of the three scores and lies between 0 and
384. -/
theorem score_magnitude (p : Nat) (yuv : Nat → Nat) (hp : p < 256) :
    score p = |signed8 p|
      ∧ score p = min (p : Int) (256 - (p : Int))
      ∧ 0 ≤ score p ∧ score p ≤ 128
      ∧ (score p = 0 ↔ p = 0)
      ∧ scoreYUV yuv = score (yuv 0) + score (yuv 1) + score (yuv 2)
      ∧ 0 ≤ scoreYUV yuv ∧ scoreYUV yuv ≤ 384 := by
  have hb : ∀ q : Nat, 0 ≤ score q ∧ score q ≤ 128 := by
    intro q
    unfold score
    simp only
    split <;> omega
  have hmod : p % 256 = p := Nat.mod_eq_of_lt hp
  refine ⟨?_, ?_, (hb p).1, (hb p).2, ?_, rfl, ?_, ?_⟩
  · unfold score signed8
    simp only [hmod]
    split
    · rw [abs_of_nonneg (by omega)]
    · rw [abs_of_neg (by omega)]
      omega
  · unfold score
    simp only [hmod]
    split
    · rw [min_eq_left (by omega)]
    · rw [min_eq_right (by omega)]
  · unfold score
    simp only [hmod]
    split <;> omega
  · unfold scoreYUV
    have h0 := hb (yuv 0)
    have h1 := hb (yuv 1)
    have h2 := hb (yuv 2)
    omega
  · unfold scoreYUV
    have h0 := hb (yuv 0)
    have h1 := hb (yuv 1)
    have h2 := hb (yuv 2)
    omega

/-- Witness of C25: the byte 200 is -56 as a signed byte and has the score 56. -/
theorem score_magnitude_witness :
    (200 : Nat) < 256 ∧ signed8 200 = -56 ∧ score 200 = |signed8 200| :=
  ⟨by decide, by decide, (score_magnitude 200 (fun _ => 0) (by decide)).1⟩

/-! ## Encoder: addressing of the tile map -/

theorem init_valid (K : Config) (s : ImageCMWriter) (width height : Int)
    (heapMatrix : Int → Nat) (heapChaos : Mem)
    (hok : (s.init K width height heapMatrix heapChaos).1 = WriterResult.WE_OK) :
    ValidDims K (s.init K width height heapMatrix heapChaos).2
      ∧ (s.init K width height heapMatrix heapChaos).2._matrix = some heapMatrix
      ∧ ((s.init K width height heapMatrix heapChaos).2._width : Int) = width
      ∧ ((s.init K width height heapMatrix heapChaos).2._height : Int) = height := by
  obtain ⟨hnb, hst⟩ := init_ok_state K s width height heapMatrix heapChaos hok
  have hpos := zone_size_pos K
  have hw : (0 : Int) ≤ width := by
    by_contra h
    exact hnb (Or.inl (by omega))
  have hh : (0 : Int) ≤ height := by
    by_contra h
    exact hnb (Or.inr (Or.inl (by omega)))
  have hdw : (K.FILTER_ZONE_SIZE : Int) ∣ width := by
    by_contra h
    exact hnb (Or.inr (Or.inr (Or.inl h)))
  have hdh : (K.FILTER_ZONE_SIZE : Int) ∣ height := by
    by_contra h
    exact hnb (Or.inr (Or.inr (Or.inr h)))
  rw [hst]
  exact ⟨⟨shift_toNat_mul K width hw hdw, shift_toNat_mul K height hh hdh⟩, rfl,
    Int.toNat_of_nonneg hw, Int.toNat_of_nonneg hh⟩

theorem tileIndex_lt (K : Config) (t : ImageCMWriter) (hv : ValidDims K t) (x y : Nat)
    (hx : x < t._width) (hy : y < t._height) : tileIndex K t x y < t._w * t._h := by
  have h1 := shift_lt_of_lt K t._w x (by rw [← hv.1]; exact hx)
  have h2 := shift_lt_of_lt K t._h y (by rw [← hv.2]; exact hy)
  unfold tileIndex
  calc x >>> K.FILTER_ZONE_SIZE_SHIFT + y >>> K.FILTER_ZONE_SIZE_SHIFT * t._w
      < t._w + y >>> K.FILTER_ZONE_SIZE_SHIFT * t._w := by omega
    _ = (y >>> K.FILTER_ZONE_SIZE_SHIFT + 1) * t._w := by ring
    _ ≤ t._h * t._w := Nat.mul_le_mul_right _ h2
    _ = t._w * t._h := Nat.mul_comm _ _

/-- C29: after a successful `init` the writer has dimensions that are whole numbers of
tiles and an allocated tile map of `_w * _h` entries.  On every such writer `t`, for pixels
`(x, y)` and `(x', y')` of the image: the index that `getFilter` and `setFilter` compute is
below `_w * _h`; `getFilter` reads, and `setFilter` writes, the entry of that index only;
`getFilter` gives the same value for two pixels of one tile; after
`setFilter(x', y', f)`, `getFilter(x, y)` is `f` (as a `u16`) if the two pixels are in the
same tile and is unchanged otherwise. -/
theorem tile_map_addressing (K : Config) (s : ImageCMWriter) (width height : Int)
    (heapMatrix : Int → Nat) (heapChaos : Mem) (t : ImageCMWriter) (m : Int → Nat)
    (x y x' y' f : Nat)
    (hok : (s.init K width height heapMatrix heapChaos).1 = WriterResult.WE_OK)
    (hv : ValidDims K t) (hm : t._matrix = some m)
    (hx : x < t._width) (hy : y < t._height) (hx' : x' < t._width) :
    (ValidDims K (s.init K width height heapMatrix heapChaos).2
        ∧ (s.init K width height heapMatrix heapChaos).2._matrix = some heapMatrix
        ∧ ((s.init K width height heapMatrix heapChaos).2._width : Int) = width
        ∧ ((s.init K width height heapMatrix heapChaos).2._height : Int) = height)
      ∧ tileIndex K t x y < t._w * t._h
      ∧ t.getFilter K x y = m ((tileIndex K t x y : Nat) : Int) % 65536
      ∧ (t.setFilter K x' y' f)._matrix
        = some (fun i => if i = ((tileIndex K t x' y' : Nat) : Int) then f % 65536 else m i)
      ∧ (SameTile K x y x' y' → t.getFilter K x y = t.getFilter K x' y')
      ∧ (SameTile K x y x' y' → (t.setFilter K x' y' f).getFilter K x y = f % 65536)
      ∧ (¬ SameTile K x y x' y' →
          (t.setFilter K x' y' f).getFilter K x y = t.getFilter K x y) := by
  refine ⟨init_valid K s width height heapMatrix heapChaos hok, tileIndex_lt K t hv x y hx hy,
    ?_, ?_, ?_, ?_, ?_⟩
  · unfold ImageCMWriter.getFilter tileIndex
    rw [hm]
  · unfold ImageCMWriter.setFilter tileIndex
    rw [hm]
    rfl
  · intro h
    unfold ImageCMWriter.getFilter
    rw [h.1, h.2]
  · intro h
    have hs : (t.setFilter K x' y' f).getFilter K x y = (t.setFilter K x' y' f).getFilter K x' y' := by
      unfold ImageCMWriter.getFilter
      rw [h.1, h.2]
    rw [hs]
    exact getFilter_setFilter_same K t x' y' f (by rw [hm]; rfl)
  · intro h
    apply getFilter_setFilter_ne
    intro hidx
    apply h
    have h1 := shift_lt_of_lt K t._w x (by rw [← hv.1]; exact hx)
    have h2 := shift_lt_of_lt K t._w x' (by rw [← hv.1]; exact hx')
    exact tile_index_inj t._w _ _ _ _ h1 h2 hidx

/-- Witness of C29: the writer initialised for 16 x 8 pixels with 8 x 8 tiles has two
tiles; the pixels `(3, 2)` and `(7, 7)` are in tile 0, the pixel `(8, 0)` is in tile 1. -/
theorem tile_map_addressing_witness :
    (freshWriter.init demoConfig 16 8 (fun _ => 0) (fun _ => 0)).1 = WriterResult.WE_OK
      ∧ tileIndex demoConfig (freshWriter.init demoConfig 16 8 (fun _ => 0) (fun _ => 0)).2 8 0
        < (freshWriter.init demoConfig 16 8 (fun _ => 0) (fun _ => 0)).2._w
          * (freshWriter.init demoConfig 16 8 (fun _ => 0) (fun _ => 0)).2._h
      ∧ SameTile demoConfig 3 2 7 7
      ∧ ((freshWriter.init demoConfig 16 8 (fun _ => 0) (fun _ => 0)).2.setFilter demoConfig
          7 7 513).getFilter demoConfig 3 2 = 513 % 65536 :=
  ⟨by decide,
    (tile_map_addressing demoConfig freshWriter 16 8 (fun _ => 0) (fun _ => 0)
      (freshWriter.init demoConfig 16 8 (fun _ => 0) (fun _ => 0)).2 (fun _ => 0) 8 0 7 7 513
      (by decide) ⟨by decide, by decide⟩ rfl (by decide) (by decide) (by decide)).2.1,
    ⟨by decide, by decide⟩,
    (tile_map_addressing demoConfig freshWriter 16 8 (fun _ => 0) (fun _ => 0)
      (freshWriter.init demoConfig 16 8 (fun _ => 0) (fun _ => 0)).2 (fun _ => 0) 3 2 7 7 513
      (by decide) ⟨by decide, by decide⟩ rfl (by decide) (by decide)
      (by decide)).2.2.2.2.2.1 ⟨by decide, by decide⟩⟩

/-! ## Encoder: shape of the symbols of a pixel -/

/-- C21: let `(x, y)` be an uncovered pixel, reached by `chaosStats` with the loop state `st`
and by `writeChaos` with the loop state `wt`.  If the search finds the match index `j`,
then `j < RECENT_SYMS` and the pass sends exactly one symbol, `256 + j`, to the coder of
plane 0 (Y) and of the chaos level of plane 0, and nothing to the planes 1, 2, 3.  If it
finds none, the pass sends four symbols, the bytes of the residual tuple, each below 256,
to the coders of the planes 0, 1, 2, 3 in this order, each with the chaos level of its own
plane.  In `writeChaos` these symbols follow the tile-map symbols of the pixel. -/
theorem match_emission_shape (K : Config) (s : ImageCMWriter) (x y : Nat)
    (st : Mem × List Push) (wt : Mem × List WriteEvent) (hunc : covered s x y = false) :
    (∀ j, recentMatch K st.1 (contextCursor K x) (residualTuple K s x y) = some j →
        j < K.RECENT_SYMS
        ∧ (chaosStatsPixel K s y st x).2
          = st.2 ++ [(0, chaosLevel K st.1 (contextCursor K x) 0, 256 + j)])
      ∧ (recentMatch K st.1 (contextCursor K x) (residualTuple K s x y) = none →
        (chaosStatsPixel K s y st x).2
          = st.2 ++ [(0, chaosLevel K st.1 (contextCursor K x) 0, residualTuple K s x y 0),
              (1, chaosLevel K st.1 (contextCursor K x) 1, residualTuple K s x y 1),
              (2, chaosLevel K st.1 (contextCursor K x) 2, residualTuple K s x y 2),
              (3, chaosLevel K st.1 (contextCursor K x) 3, residualTuple K s x y 3)])
      ∧ (∀ j, recentMatch K wt.1 (contextCursor K x) (residualTuple K s x y) = some j →
        j < K.RECENT_SYMS
        ∧ (writeChaosPixel K s y wt x).2
          = (wt.2 ++ tileSymbols K s x y)
            ++ [WriteEvent.encode 0 (chaosLevel K wt.1 (contextCursor K x) 0) (256 + j)])
      ∧ (recentMatch K wt.1 (contextCursor K x) (residualTuple K s x y) = none →
        (writeChaosPixel K s y wt x).2
          = (wt.2 ++ tileSymbols K s x y)
            ++ [WriteEvent.encode 0 (chaosLevel K wt.1 (contextCursor K x) 0)
                (residualTuple K s x y 0),
              WriteEvent.encode 1 (chaosLevel K wt.1 (contextCursor K x) 1)
                (residualTuple K s x y 1),
              WriteEvent.encode 2 (chaosLevel K wt.1 (contextCursor K x) 2)
                (residualTuple K s x y 2),
              WriteEvent.encode 3 (chaosLevel K wt.1 (contextCursor K x) 3)
                (residualTuple K s x y 3)])
      ∧ (∀ c, residualTuple K s x y c < 256) := by
  refine ⟨?_, ?_, ?_, ?_, fun c => residualTuple_lt K s x y c⟩
  · intro j hj
    refine ⟨(recentMatch_some K _ _ _ j hj).1, ?_⟩
    rw [chaosStatsPixel_eq, hunc]
    simp only [Bool.false_eq_true, if_false]
    unfold pixelSymbols
    rw [hj]
  · intro hn
    rw [chaosStatsPixel_eq, hunc]
    simp only [Bool.false_eq_true, if_false]
    unfold pixelSymbols
    rw [hn]
  · intro j hj
    refine ⟨(recentMatch_some K _ _ _ j hj).1, ?_⟩
    rw [writeChaosPixel_eq, hunc]
    simp only [Bool.false_eq_true, if_false]
    unfold pixelSymbols
    rw [hj]
    rfl
  · intro hn
    rw [writeChaosPixel_eq, hunc]
    simp only [Bool.false_eq_true, if_false]
    unfold pixelSymbols
    rw [hn]
    rfl

set_option maxRecDepth 100000 in
/-- Witness of C21: the uncovered pixel `(0, 1)` of a sample image, whose residual tuple
`(5, 9, 9, 246)` matches no cell of the window: four symbols are pushed. -/
theorem match_emission_shape_witness :
    covered freshSampleWriter 0 1 = false
      ∧ recentMatch demoConfig (statsBefore demoConfig freshSampleWriter (fun _ => 9) 0 1).1
          (contextCursor demoConfig 0) (residualTuple demoConfig freshSampleWriter 0 1) = none
      ∧ (chaosStatsPixel demoConfig freshSampleWriter 1
          (statsBefore demoConfig freshSampleWriter (fun _ => 9) 0 1) 0).2
        = [(0, 7, 5), (1, 7, 9), (2, 7, 9), (3, 7, 246)] :=
  ⟨by decide, by decide,
    ((match_emission_shape demoConfig freshSampleWriter 0 1
      (statsBefore demoConfig freshSampleWriter (fun _ => 9) 0 1) (fun _ => 9, [])
      (by decide)).2.1 (by decide)).trans (by decide)⟩

/-! ## Encoder: bounds of the accesses to the context buffer -/

/-- C26: let the context buffer have the `(width + RECENT_SYMS) * PLANES` bytes that `init`
allocates, and let `x < width`, `c < 4`, `ii < RECENT_SYMS`.  The cell write `last[c]` and
the chaos reads `last[c]`, `last[c - 4]` at column `x` lie inside the allocation; the
recent-match read `last[c - (ii - RECENT_AHEAD) * 4]` lies inside it when
`-1 <= RECENT_AHEAD <= 0`, and lies behind it at the last column for `ii = 0` when
`RECENT_AHEAD > 0`.  The clear at the start of either pass does not stay inside: every
offset `i` of the `RECENT_SYMS * PLANES` bytes behind the allocation is zeroed, whatever it
held, and the offsets of the left padding are not cleared. -/
theorem context_access_bounds (K : Config) (s : ImageCMWriter) (chaos : Mem)
    (writer : List WriteEvent) (x c ii : Nat) (i : Int)
    (hsize : s._chaos_size = ((s._width : Int) + (K.RECENT_SYMS : Int)) * 4)
    (hx : x < s._width) (hc : c < 4) (hii : ii < K.RECENT_SYMS)
    (hi : s._chaos_size ≤ i) (hi2 : i < s._chaos_size + (K.RECENT_SYMS : Int) * 4) :
    InBuffer s (contextCursor K x + (c : Int))
      ∧ InBuffer s (contextCursor K x + ((c : Int) - 4))
      ∧ (-1 ≤ K.RECENT_AHEAD → K.RECENT_AHEAD ≤ 0 → InBuffer s (matchReadOffset K x ii c))
      ∧ (0 < K.RECENT_AHEAD → ¬ InBuffer s (matchReadOffset K (s._width - 1) 0 c))
      ∧ ¬ InBuffer s i
      ∧ (chaosStatsStart K s chaos).1 i = 0
      ∧ (writeChaosStart K s chaos writer).1 i = 0
      ∧ (∀ j : Int, 0 ≤ j → j < (K.RECENT_SYMS : Int) * 4 →
          InBuffer s j ∧ (chaosStatsStart K s chaos).1 j = chaos j
            ∧ (writeChaosStart K s chaos writer).1 j = chaos j) := by
  have hP : (PLANES : Int) = 4 := rfl
  have hclr : ∀ j : Int, (CAT_CLR chaos ((K.RECENT_SYMS : Int) * (PLANES : Int)) s._chaos_size) j
      = if (K.RECENT_SYMS : Int) * 4 ≤ j ∧ j < (K.RECENT_SYMS : Int) * 4 + s._chaos_size then 0
        else chaos j := fun j => rfl
  have hw : (0 : Int) ≤ (s._width : Int) := Int.ofNat_nonneg _
  unfold InBuffer matchReadOffset
  simp only [contextCursor_eq]
  refine ⟨by omega, by omega, fun h1 h2 => by omega, ?_, by omega, ?_, ?_, ?_⟩
  · intro hA
    have hw1 : ((s._width - 1 : Nat) : Int) = (s._width : Int) - 1 := by omega
    rw [hw1]
    omega
  · show (CAT_CLR chaos _ _) i = 0
    rw [hclr, if_pos (by omega)]
  · show (CAT_CLR chaos _ _) i = 0
    rw [hclr, if_pos (by omega)]
  · intro j hj1 hj2
    refine ⟨by omega, ?_, ?_⟩
    · show (CAT_CLR chaos _ _) j = chaos j
      rw [hclr, if_neg (by omega)]
    · show (CAT_CLR chaos _ _) j = chaos j
      rw [hclr, if_neg (by omega)]

/-- Witness of C26: the context buffer of the sample writer is the 64 bytes at the offsets
0 to 63, handed over filled with the byte 9; the offset 64 is behind it and is zeroed at
the start of the statistics pass. -/
theorem context_access_bounds_witness :
    sampleWriter._chaos_size = 64
      ∧ ¬ InBuffer sampleWriter 64
      ∧ (fun _ => 9 : Mem) 64 = 9
      ∧ (chaosStatsStart demoConfig sampleWriter (fun _ => 9)).1 64 = 0 :=
  ⟨rfl,
    (context_access_bounds demoConfig sampleWriter (fun _ => 9) [] 0 0 0 64 (by decide)
      (by decide) (by decide) (by decide) (by decide) (by decide)).2.2.2.2.1,
    rfl,
    (context_access_bounds demoConfig sampleWriter (fun _ => 9) [] 0 0 0 64 (by decide)
      (by decide) (by decide) (by decide) (by decide) (by decide)).2.2.2.2.2.1⟩

/-! ## Decoder: filter ids -/

theorem skipFilterIds_pos (k : Nat) (r : ImageReader) :
    (skipFilterIds k r).pos = r.pos + 7 * k := by
  induction k generalizing r with
  | zero => simp [skipFilterIds]
  | succ k ih =>
    simp only [skipFilterIds, ih, ImageReader.readBits]
    omega

theorem filterIdAt_succ (r : ImageReader) (k : Nat) :
    filterIdAt r (k + 1) = filterIdAt (r.readBits 7).2 k := rfl

section DecoderTheorems

variable {Mono Ent Chaos Mask : Type}

theorem sameButSf_refl (a : ImageRGBAReader Mono Ent Chaos Mask) : SameButSf a a := rfl

theorem sameButSf_step (a b : ImageRGBAReader Mono Ent Chaos Mask) (ii sf : Nat)
    (h : SameButSf a (b.storeSf ii sf)) : SameButSf a b := by
  unfold SameButSf at *
  rw [h]
  rfl

theorem readFilterChoices_succ (S : Services Mono Ent Chaos Mask) (n ii : Nat)
    (s : ImageRGBAReader Mono Ent Chaos Mask) (r : ImageReader) :
    readFilterChoices S (n + 1) ii s r
      = if S.SF_COUNT ≤ (r.readBits 7).1 % 256 then
          (ReadResult.GCIF_RE_BAD_RGBA, s, (r.readBits 7).2)
        else
          readFilterChoices S n (ii + 1) (s.storeSf ii ((r.readBits 7).1 % 256))
            (r.readBits 7).2 := rfl

theorem readFilterChoices_bad (S : Services Mono Ent Chaos Mask) (n : Nat) :
    ∀ (ii : Nat) (s : ImageRGBAReader Mono Ent Chaos Mask) (r : ImageReader) (i : Nat),
      i < n → S.SF_COUNT ≤ filterIdAt r i → (∀ j < i, filterIdAt r j < S.SF_COUNT) →
      (readFilterChoices S n ii s r).1 = ReadResult.GCIF_RE_BAD_RGBA
        ∧ (readFilterChoices S n ii s r).2.2 = skipFilterIds (i + 1) r
        ∧ SameButSf (readFilterChoices S n ii s r).2.1 s := by
  induction n with
  | zero => intro ii s r i hi; omega
  | succ n ih =>
    intro ii s r i hi hbad hfirst
    cases i with
    | zero =>
      have h0 : S.SF_COUNT ≤ (r.readBits 7).1 % 256 := hbad
      rw [readFilterChoices_succ, if_pos h0]
      exact ⟨rfl, rfl, sameButSf_refl s⟩
    | succ i =>
      have h0 : ¬ S.SF_COUNT ≤ (r.readBits 7).1 % 256 :=
        Nat.not_le.mpr (hfirst 0 (Nat.succ_pos i))
      rw [readFilterChoices_succ, if_neg h0]
      have hrec := ih (ii + 1) (s.storeSf ii ((r.readBits 7).1 % 256)) (r.readBits 7).2 i
        (Nat.lt_of_succ_lt_succ hi) hbad (fun j hj => hfirst (j + 1) (Nat.succ_lt_succ hj))
      exact ⟨hrec.1, hrec.2.1, sameButSf_step _ _ _ _ hrec.2.2⟩

theorem readFilterChoices_ok (S : Services Mono Ent Chaos Mask) (n : Nat) :
    ∀ (ii : Nat) (s : ImageRGBAReader Mono Ent Chaos Mask) (r : ImageReader),
      (∀ j < n, filterIdAt r j < S.SF_COUNT) →
      (readFilterChoices S n ii s r).1 = ReadResult.GCIF_RE_OK
        ∧ (readFilterChoices S n ii s r).2.2 = skipFilterIds n r
        ∧ SameButSf (readFilterChoices S n ii s r).2.1 s := by
  induction n with
  | zero => intro ii s r _; exact ⟨rfl, rfl, sameButSf_refl s⟩
  | succ n ih =>
    intro ii s r hall
    have h0 : ¬ S.SF_COUNT ≤ (r.readBits 7).1 % 256 :=
      Nat.not_le.mpr (hall 0 (Nat.succ_pos n))
    rw [readFilterChoices_succ, if_neg h0]
    have hrec := ih (ii + 1) (s.storeSf ii ((r.readBits 7).1 % 256)) (r.readBits 7).2
      (fun j hj => hall (j + 1) (Nat.succ_lt_succ hj))
    exact ⟨hrec.1, hrec.2.1, sameButSf_step _ _ _ _ hrec.2.2⟩

theorem readFilterTables_unfold (S : Services Mono Ent Chaos Mask)
    (s : ImageRGBAReader Mono Ent Chaos Mask) (reader : ImageReader) :
    s.readFilterTables S reader
      = match readFilterChoices S (sfCountOf reader) 0 (filterChoicesEntry s reader)
          (filterIdsStart reader) with
        | (ReadResult.GCIF_RE_OK, s, reader) => s.readFilterDecoders S reader
        | (err, s, reader) => (err, s, reader) := rfl

theorem readFilterTables_of_bad (S : Services Mono Ent Chaos Mask)
    (s : ImageRGBAReader Mono Ent Chaos Mask) (reader : ImageReader)
    (h : (readFilterChoices S (sfCountOf reader) 0 (filterChoicesEntry s reader)
      (filterIdsStart reader)).1 = ReadResult.GCIF_RE_BAD_RGBA) :
    s.readFilterTables S reader
      = readFilterChoices S (sfCountOf reader) 0 (filterChoicesEntry s reader)
          (filterIdsStart reader) := by
  rw [readFilterTables_unfold]
  generalize readFilterChoices S (sfCountOf reader) 0 (filterChoicesEntry s reader)
    (filterIdsStart reader) = t at h
  obtain ⟨c, s1, r1⟩ := t
  simp only at h
  subst h
  rfl

theorem readFilterTables_of_ok (S : Services Mono Ent Chaos Mask)
    (s : ImageRGBAReader Mono Ent Chaos Mask) (reader : ImageReader)
    (h : (readFilterChoices S (sfCountOf reader) 0 (filterChoicesEntry s reader)
      (filterIdsStart reader)).1 = ReadResult.GCIF_RE_OK) :
    s.readFilterTables S reader
      = (readFilterChoices S (sfCountOf reader) 0 (filterChoicesEntry s reader)
          (filterIdsStart reader)).2.1.readFilterDecoders S
        (readFilterChoices S (sfCountOf reader) 0 (filterChoicesEntry s reader)
          (filterIdsStart reader)).2.2 := by
  rw [readFilterTables_unfold]
  generalize readFilterChoices S (sfCountOf reader) 0 (filterChoicesEntry s reader)
    (filterIdsStart reader) = t at h
  obtain ⟨c, s1, r1⟩ := t
  simp only at h
  subst h
  rfl

theorem read_unfold (S : Services Mono Ent Chaos Mask)
    (s : ImageRGBAReader Mono Ent Chaos Mask) (reader : ImageReader) (maskReader : Mask)
    (image : GCIFImage) :
    s.read S reader maskReader image
      = match (readEntry s maskReader image).readFilterTables S reader with
        | (ReadResult.GCIF_RE_OK, s, reader) =>
          match s.readRGBATables S reader with
          | (ReadResult.GCIF_RE_OK, s, reader) =>
            match s.readPixels S reader with
            | (ReadResult.GCIF_RE_OK, s, reader) =>
              (ReadResult.GCIF_RE_OK, { s with _rgba := false }, reader)
            | (err, s, reader) => (err, s, reader)
          | (err, s, reader) => (err, s, reader)
        | (err, s, reader) => (err, s, reader) := rfl

theorem read_of_filterTables_bad (S : Services Mono Ent Chaos Mask)
    (s : ImageRGBAReader Mono Ent Chaos Mask) (reader : ImageReader) (maskReader : Mask)
    (image : GCIFImage)
    (h : ((readEntry s maskReader image).readFilterTables S reader).1
      = ReadResult.GCIF_RE_BAD_RGBA) :
    s.read S reader maskReader image
      = (readEntry s maskReader image).readFilterTables S reader := by
  rw [read_unfold]
  generalize (readEntry s maskReader image).readFilterTables S reader = t at h
  obtain ⟨c, s1, r1⟩ := t
  simp only at h
  subst h
  rfl

theorem filterIdsStart_pos (reader : ImageReader) :
    (filterIdsStart reader).pos = reader.pos + 8 := by
  simp only [filterIdsStart, ImageReader.readBits]

/-- C5: if one of the `_sf_count` filter ids read by `readFilterTables` is at least
`SF_COUNT`, then, `i` being the first such id, `readFilterTables` returns
`GCIF_RE_BAD_RGBA` with the bit reader standing right behind id `i` (no further id and
no table has been read: the SF and CF decoders are untouched), and `read` returns the
same code in the same state, the alpha, Y, U, V decoders, the chaos context and the
output buffer being as they were on entry; if every id is below `SF_COUNT` the loop over
the ids ends with `GCIF_RE_OK` and `readFilterTables` goes on to read the decoders. -/
theorem readFilterTables_bad_filter_id (S : Services Mono Ent Chaos Mask)
    (s : ImageRGBAReader Mono Ent Chaos Mask) (reader : ImageReader) (maskReader : Mask)
    (image : GCIFImage) :
    (∀ i, i < sfCountOf reader →
      S.SF_COUNT ≤ filterIdAt (filterIdsStart reader) i →
      (∀ j < i, filterIdAt (filterIdsStart reader) j < S.SF_COUNT) →
      (s.readFilterTables S reader).1 = ReadResult.GCIF_RE_BAD_RGBA
        ∧ (s.readFilterTables S reader).2.2 = skipFilterIds (i + 1) (filterIdsStart reader)
        ∧ (s.readFilterTables S reader).2.2.pos = reader.pos + 8 + 7 * (i + 1)
        ∧ (s.readFilterTables S reader).2.1._sf_decoder = s._sf_decoder
        ∧ (s.readFilterTables S reader).2.1._cf_decoder = s._cf_decoder
        ∧ (s.read S reader maskReader image).1 = ReadResult.GCIF_RE_BAD_RGBA
        ∧ (s.read S reader maskReader image).2.2 = skipFilterIds (i + 1) (filterIdsStart reader)
        ∧ (s.read S reader maskReader image).2.1._sf_decoder = s._sf_decoder
        ∧ (s.read S reader maskReader image).2.1._cf_decoder = s._cf_decoder
        ∧ (s.read S reader maskReader image).2.1._a_decoder = s._a_decoder
        ∧ (s.read S reader maskReader image).2.1._y_decoder = s._y_decoder
        ∧ (s.read S reader maskReader image).2.1._u_decoder = s._u_decoder
        ∧ (s.read S reader maskReader image).2.1._v_decoder = s._v_decoder
        ∧ (s.read S reader maskReader image).2.1._chaos = s._chaos
        ∧ (s.read S reader maskReader image).2.1.image_rgba = image.rgba)
    ∧ ((∀ j < sfCountOf reader, filterIdAt (filterIdsStart reader) j < S.SF_COUNT) →
      (readFilterChoices S (sfCountOf reader) 0 (filterChoicesEntry s reader)
          (filterIdsStart reader)).1 = ReadResult.GCIF_RE_OK
        ∧ s.readFilterTables S reader
          = (readFilterChoices S (sfCountOf reader) 0 (filterChoicesEntry s reader)
              (filterIdsStart reader)).2.1.readFilterDecoders S
            (skipFilterIds (sfCountOf reader) (filterIdsStart reader))) := by
  constructor
  · intro i hi hbad hfirst
    have key : ∀ (s0 : ImageRGBAReader Mono Ent Chaos Mask),
        (s0.readFilterTables S reader).1 = ReadResult.GCIF_RE_BAD_RGBA
          ∧ (s0.readFilterTables S reader).2.2 = skipFilterIds (i + 1) (filterIdsStart reader)
          ∧ SameButSf (s0.readFilterTables S reader).2.1 (filterChoicesEntry s0 reader) := by
      intro s0
      have h := readFilterChoices_bad S (sfCountOf reader) 0 (filterChoicesEntry s0 reader)
        (filterIdsStart reader) i hi hbad hfirst
      rw [readFilterTables_of_bad S s0 reader h.1]
      exact h
    have k1 := key s
    have k2 := key (readEntry s maskReader image)
    have e := read_of_filterTables_bad S s reader maskReader image k2.1
    have hpos : (skipFilterIds (i + 1) (filterIdsStart reader)).pos
        = reader.pos + 8 + 7 * (i + 1) := by
      rw [skipFilterIds_pos, filterIdsStart_pos]
    have f1 := k1.2.2
    have f2 := k2.2.2
    unfold SameButSf at f1 f2
    refine ⟨k1.1, k1.2.1, ?_, ?_, ?_, ?_, ?_, ?_, ?_, ?_, ?_, ?_, ?_, ?_, ?_⟩
    · rw [k1.2.1]; exact hpos
    · rw [f1]; rfl
    · rw [f1]; rfl
    · rw [e]; exact k2.1
    · rw [e]; exact k2.2.1
    · rw [e, f2]; rfl
    · rw [e, f2]; rfl
    · rw [e, f2]; rfl
    · rw [e, f2]; rfl
    · rw [e, f2]; rfl
    · rw [e, f2]; rfl
    · rw [e, f2]; rfl
    · rw [e, f2]; rfl
  · intro hall
    have h := readFilterChoices_ok S (sfCountOf reader) 0 (filterChoicesEntry s reader)
      (filterIdsStart reader) hall
    refine ⟨h.1, ?_⟩
    rw [readFilterTables_of_ok S s reader h.1, h.2.1]

/-- Witness of C5: in `badIdStream` the second filter id is 127, above `SF_COUNT` = 17. -/
theorem readFilterTables_bad_filter_id_witness :
    (1 < sfCountOf badIdStream
        ∧ demoServices.SF_COUNT ≤ filterIdAt (filterIdsStart badIdStream) 1
        ∧ ∀ j < 1, filterIdAt (filterIdsStart badIdStream) j < demoServices.SF_COUNT)
      ∧ (demoDecoder.readFilterTables demoServices badIdStream).1
          = ReadResult.GCIF_RE_BAD_RGBA
      ∧ (demoDecoder.readFilterTables demoServices badIdStream).2.2.pos = 0 + 8 + 7 * (1 + 1)
      ∧ (demoDecoder.read demoServices badIdStream demoMask demoImage).1
          = ReadResult.GCIF_RE_BAD_RGBA :=
  ⟨⟨by decide, by decide, by decide⟩,
    ((readFilterTables_bad_filter_id demoServices demoDecoder badIdStream demoMask
      demoImage).1 1 (by decide) (by decide) (by decide)).1,
    ((readFilterTables_bad_filter_id demoServices demoDecoder badIdStream demoMask
      demoImage).1 1 (by decide) (by decide) (by decide)).2.2.1,
    ((readFilterTables_bad_filter_id demoServices demoDecoder badIdStream demoMask
      demoImage).1 1 (by decide) (by decide) (by decide)).2.2.2.2.2.1⟩

/-! ## Decoder: mask scan -/

theorem pixelBody_regs (S : Services Mono Ent Chaos Mask) (MASK_COLOR MASK_ALPHA : Nat)
    (decode : Int → Nat → Nat → ImageRGBAReader Mono Ent Chaos Mask × ImageReader →
      ImageRGBAReader Mono Ent Chaos Mask × ImageReader)
    (y : Nat) (st : PixelScan Mono Ent Chaos Mask) (x : Int) :
    (pixelBody S MASK_COLOR MASK_ALPHA decode y st x).mask = st.mask
      ∧ (pixelBody S MASK_COLOR MASK_ALPHA decode y st x).mask_left = st.mask_left
      ∧ (pixelBody S MASK_COLOR MASK_ALPHA decode y st x).mask_next = st.mask_next
      ∧ (pixelBody S MASK_COLOR MASK_ALPHA decode y st x).p = st.p + 1 := by
  unfold pixelBody
  split <;> exact ⟨rfl, rfl, rfl, rfl⟩

theorem nextMaskWord_frame (words : Nat → Nat) (st : PixelScan Mono Ent Chaos Mask) :
    (nextMaskWord words st).self = st.self ∧ (nextMaskWord words st).reader = st.reader
      ∧ (nextMaskWord words st).p = st.p := by
  unfold nextMaskWord
  split <;> exact ⟨rfl, rfl, rfl⟩

theorem readPixelsRow_eq_scan (S : Services Mono Ent Chaos Mask)
    (MASK_COLOR MASK_ALPHA xsize : Nat) (st : PixelScan Mono Ent Chaos Mask) (y : Nat) :
    readPixelsRow S MASK_COLOR MASK_ALPHA xsize st y
      = readPixelsRowScan S MASK_COLOR MASK_ALPHA st y xsize :=
  rfl

theorem tileRowStart_p (S : Services Mono Ent Chaos Mask) (b : Bool) (y : Nat)
    (st : PixelScan Mono Ent Chaos Mask) : (tileRowStart S b y st).p = st.p := rfl

/-- The function `readPixels` has a single exit, which returns `GCIF_RE_OK`. -/
theorem readPixels_result (S : Services Mono Ent Chaos Mask)
    (s : ImageRGBAReader Mono Ent Chaos Mask) (reader : ImageReader) :
    (s.readPixels S reader).1 = ReadResult.GCIF_RE_OK := rfl

/-- C6 (amended): `read` returns `GCIF_RE_OK` whenever `readFilterTables` and
`readRGBATables` both return `GCIF_RE_OK`, whatever the bit reader holds behind the
tables: `readPixels` has no failure exit. -/
theorem read_ok_of_tables_ok (S : Services Mono Ent Chaos Mask)
    (s : ImageRGBAReader Mono Ent Chaos Mask) (reader : ImageReader) (maskReader : Mask)
    (image : GCIFImage)
    (h1 : ((readEntry s maskReader image).readFilterTables S reader).1 = ReadResult.GCIF_RE_OK)
    (h2 : (((readEntry s maskReader image).readFilterTables S reader).2.1.readRGBATables S
      ((readEntry s maskReader image).readFilterTables S reader).2.2).1
        = ReadResult.GCIF_RE_OK) :
    (s.read S reader maskReader image).1 = ReadResult.GCIF_RE_OK := by
  rw [read_unfold]
  generalize (readEntry s maskReader image).readFilterTables S reader = t at h1 h2
  obtain ⟨c, s1, r1⟩ := t
  simp only at h1 h2
  subst h1
  simp only
  generalize s1.readRGBATables S r1 = t2 at h2
  obtain ⟨c2, s2, r2⟩ := t2
  simp only at h2
  subst h2
  rfl

/-! ## Tile geometry of decoder and encoder -/

theorem readBits_fold_lt (l : List Bool) (acc : Nat) :
    l.foldl (fun acc b => 2 * acc + (if b then 1 else 0)) acc + 1 ≤ (acc + 1) * 2 ^ l.length := by
  induction l generalizing acc with
  | nil => simp
  | cons b l ih =>
    rw [List.foldl_cons, List.length_cons, Nat.pow_succ]
    have h := ih (2 * acc + (if b then 1 else 0))
    have h2 : (2 * acc + (if b then 1 else 0) + 1) * 2 ^ l.length
        ≤ (acc + 1) * (2 ^ l.length * 2) := by
      have h3 : 2 * acc + (if b then 1 else 0) + 1 ≤ (acc + 1) * 2 := by
        cases b <;> simp <;> omega
      calc (2 * acc + (if b then 1 else 0) + 1) * 2 ^ l.length
          ≤ ((acc + 1) * 2) * 2 ^ l.length := Nat.mul_le_mul_right _ h3
        _ = (acc + 1) * (2 ^ l.length * 2) := by ring
    exact Nat.le_trans h h2

theorem readBits_lt (r : ImageReader) (n : Nat) : (r.readBits n).1 < 2 ^ n := by
  unfold ImageReader.readBits
  have h := readBits_fold_lt ((r.bits.take n) ++ List.replicate (n - r.bits.length) false) 0
  have hl : ((r.bits.take n) ++ List.replicate (n - r.bits.length) false).length = n := by
    rw [List.length_append, List.length_take, List.length_replicate]
    omega
  rw [hl] at h
  simp only [Nat.zero_add, Nat.one_mul] at h
  exact h

theorem ceil_shift (x k : Nat) :
    x ≤ ((x + (1 <<< k - 1)) >>> k) * 2 ^ k
      ∧ ((x + (1 <<< k - 1)) >>> k) * 2 ^ k < x + 2 ^ k := by
  rw [Nat.shiftRight_eq_div_pow, Nat.one_shiftLeft]
  have hpos : 0 < 2 ^ k := Nat.pow_pos (by decide)
  have h1 := Nat.div_add_mod (x + (2 ^ k - 1)) (2 ^ k)
  have h2 := Nat.mod_lt (x + (2 ^ k - 1)) hpos
  rw [Nat.mul_comm] at h1
  constructor <;> omega

/-- C12: in the decoder, `readFilterTables` reads a 3-bit value `b < 8` and sets the tile
size to `T = 2 ^ (b + 1)` in both directions, with `1 <= b + 1 <= 8`, and the tile counts
to the ceilings of `xsize / T` and `ysize / T` (the least `n` with `xsize <= n * T`); in the
encoder, after a successful `init`, `_w` and `_h` are the ceilings of
`width / FILTER_ZONE_SIZE` and `height / FILTER_ZONE_SIZE` (the quotients are exact); with
the same tile size and the same image width or height the two counts are equal. -/
theorem tile_geometry (s : ImageRGBAReader Mono Ent Chaos Mask) (reader : ImageReader)
    (K : Config) (w : ImageCMWriter) (width height : Int) (heapMatrix : Int → Nat)
    (heapChaos : Mem)
    (hok : (w.init K width height heapMatrix heapChaos).1 = WriterResult.WE_OK) :
    (reader.readBits 3).1 < 8
      ∧ (s.readTileBits reader).1._tile_bits_x = (reader.readBits 3).1 + 1
      ∧ (s.readTileBits reader).1._tile_bits_y = (reader.readBits 3).1 + 1
      ∧ 1 ≤ (s.readTileBits reader).1._tile_bits_x ∧ (s.readTileBits reader).1._tile_bits_x ≤ 8
      ∧ (s.readTileBits reader).1._tile_xsize = 2 ^ ((reader.readBits 3).1 + 1)
      ∧ (s.readTileBits reader).1._tile_ysize = 2 ^ ((reader.readBits 3).1 + 1)
      ∧ (s._xsize ≤ (s.readTileBits reader).1._tiles_x * 2 ^ ((reader.readBits 3).1 + 1)
        ∧ (s.readTileBits reader).1._tiles_x * 2 ^ ((reader.readBits 3).1 + 1)
          < s._xsize + 2 ^ ((reader.readBits 3).1 + 1))
      ∧ (s._ysize ≤ (s.readTileBits reader).1._tiles_y * 2 ^ ((reader.readBits 3).1 + 1)
        ∧ (s.readTileBits reader).1._tiles_y * 2 ^ ((reader.readBits 3).1 + 1)
          < s._ysize + 2 ^ ((reader.readBits 3).1 + 1))
      ∧ (((w.init K width height heapMatrix heapChaos).2._w : Int) * (K.FILTER_ZONE_SIZE : Int)
          = width
        ∧ ((w.init K width height heapMatrix heapChaos).2._h : Int) * (K.FILTER_ZONE_SIZE : Int)
          = height)
      ∧ (K.FILTER_ZONE_SIZE_SHIFT = (reader.readBits 3).1 + 1 →
          ((s._xsize : Int) = width →
            (s.readTileBits reader).1._tiles_x
              = (w.init K width height heapMatrix heapChaos).2._w)
          ∧ ((s._ysize : Int) = height →
            (s.readTileBits reader).1._tiles_y
              = (w.init K width height heapMatrix heapChaos).2._h)) := by
  have hb : (reader.readBits 3).1 < 8 := readBits_lt reader 3
  have hx : (s.readTileBits reader).1._tiles_x
      = (s._xsize + (1 <<< ((reader.readBits 3).1 + 1) - 1)) >>> ((reader.readBits 3).1 + 1) := rfl
  have hy : (s.readTileBits reader).1._tiles_y
      = (s._ysize + (1 <<< ((reader.readBits 3).1 + 1) - 1)) >>> ((reader.readBits 3).1 + 1) := rfl
  have hbx : (s.readTileBits reader).1._tile_bits_x = (reader.readBits 3).1 + 1 := rfl
  have hcx := ceil_shift s._xsize ((reader.readBits 3).1 + 1)
  have hcy := ceil_shift s._ysize ((reader.readBits 3).1 + 1)
  rw [← hx] at hcx
  rw [← hy] at hcy
  obtain ⟨hnb, hst⟩ := init_ok_state K w width height heapMatrix heapChaos hok
  have hpos := zone_size_pos K
  have hw0 : (0 : Int) ≤ width := by
    by_contra h
    exact hnb (Or.inl (by omega))
  have hh0 : (0 : Int) ≤ height := by
    by_contra h
    exact hnb (Or.inr (Or.inl (by omega)))
  have hdw : (K.FILTER_ZONE_SIZE : Int) ∣ width := by
    by_contra h
    exact hnb (Or.inr (Or.inr (Or.inl h)))
  have hdh : (K.FILTER_ZONE_SIZE : Int) ∣ height := by
    by_contra h
    exact hnb (Or.inr (Or.inr (Or.inr h)))
  have hw : (w.init K width height heapMatrix heapChaos).2._w
      = (width >>> K.FILTER_ZONE_SIZE_SHIFT).toNat := by rw [hst]
  have hh : (w.init K width height heapMatrix heapChaos).2._h
      = (height >>> K.FILTER_ZONE_SIZE_SHIFT).toNat := by rw [hst]
  have ew : ((w.init K width height heapMatrix heapChaos).2._w : Int) * (K.FILTER_ZONE_SIZE : Int)
      = width := by
    have h := shift_toNat_mul K width hw0 hdw
    have h2 : ((width.toNat : Nat) : Int) = width := Int.toNat_of_nonneg hw0
    rw [h] at h2
    push_cast at h2
    rw [hw]
    exact h2
  have eh : ((w.init K width height heapMatrix heapChaos).2._h : Int) * (K.FILTER_ZONE_SIZE : Int)
      = height := by
    have h := shift_toNat_mul K height hh0 hdh
    have h2 : ((height.toNat : Nat) : Int) = height := Int.toNat_of_nonneg hh0
    rw [h] at h2
    push_cast at h2
    rw [hh]
    exact h2
  have hagree : ∀ (X q n T : Nat), 0 < T → X ≤ q * T → q * T < X + T → n * T = X → q = n := by
    intro X q n T hT h1 h2 h3
    subst h3
    have a1 : n ≤ q := Nat.le_of_mul_le_mul_right h1 hT
    have a2 : q * T < (n + 1) * T := by rw [Nat.add_mul, Nat.one_mul]; exact h2
    have a3 : q < n + 1 := Nat.lt_of_mul_lt_mul_right a2
    omega
  refine ⟨hb, rfl, rfl, by rw [hbx]; omega, by rw [hbx]; omega, ?_, ?_, hcx, hcy, ⟨ew, eh⟩, ?_⟩
  · show 1 <<< ((reader.readBits 3).1 + 1) = _
    rw [Nat.one_shiftLeft]
  · show 1 <<< ((reader.readBits 3).1 + 1) = _
    rw [Nat.one_shiftLeft]
  · intro hshift
    have hT : K.FILTER_ZONE_SIZE = 2 ^ ((reader.readBits 3).1 + 1) := by
      unfold Config.FILTER_ZONE_SIZE
      rw [Nat.one_shiftLeft, hshift]
    rw [hT] at ew eh
    constructor
    · intro hX
      apply hagree s._xsize _ _ (2 ^ ((reader.readBits 3).1 + 1)) (Nat.pow_pos (by decide))
        hcx.1 hcx.2
      have ew2 := ew.trans hX.symm
      exact_mod_cast ew2
    · intro hY
      apply hagree s._ysize _ _ (2 ^ ((reader.readBits 3).1 + 1)) (Nat.pow_pos (by decide))
        hcy.1 hcy.2
      have eh2 := eh.trans hY.symm
      exact_mod_cast eh2

/-- Witness of C12: a stream whose tile bits read 2 (tiles of 8 x 8) in front of a decoder
of an image of 16 x 8 pixels, and the sample encoder initialised for 16 x 8 pixels. -/
theorem tile_geometry_witness :
    (freshWriter.init demoConfig 16 8 (fun _ => 0) (fun _ => 0)).1 = WriterResult.WE_OK
      ∧ (sizedDecoder.readTileBits tileBitsStream).1._tiles_x
        = (freshWriter.init demoConfig 16 8 (fun _ => 0) (fun _ => 0)).2._w :=
  ⟨by decide,
    ((tile_geometry sizedDecoder tileBitsStream demoConfig freshWriter 16 8 (fun _ => 0)
      (fun _ => 0) (by decide)).2.2.2.2.2.2.2.2.2.2 (by decide)).1 (by decide)⟩

/-! ## Order of the coder tables -/

theorem flatMap_range_length {α : Type} (A B : Nat) (f : Nat → Nat → α) :
    ((List.range A).flatMap fun a => (List.range B).map (f a)).length = A * B := by
  induction A with
  | zero => simp
  | succ A ih =>
    rw [List.range_succ, List.flatMap_append, List.length_append, ih, List.flatMap_singleton,
      List.length_map, List.length_range]
    ring

theorem flatMap_range_getElem? {α : Type} (A B : Nat) (f : Nat → Nat → α) (a b : Nat)
    (ha : a < A) (hb : b < B) :
    ((List.range A).flatMap fun a => (List.range B).map (f a))[a * B + b]? = some (f a b) := by
  induction A with
  | zero => exact absurd ha (Nat.not_lt_zero _)
  | succ A ih =>
    rw [List.range_succ, List.flatMap_append, List.flatMap_singleton]
    by_cases h : a < A
    · have hlt : a * B + b < A * B := by
        calc a * B + b < a * B + B := by omega
          _ = (a + 1) * B := by ring
          _ ≤ A * B := Nat.mul_le_mul_right _ h
      rw [List.getElem?_append_left (by rw [flatMap_range_length]; exact hlt)]
      exact ih h
    · have e : a = A := by omega
      subst e
      rw [List.getElem?_append_right (by rw [flatMap_range_length]; omega),
        flatMap_range_length, Nat.add_sub_cancel_left, List.getElem?_map,
        List.getElem?_range hb]
      rfl

theorem writeChaosRows_extends (K : Config) (s : ImageCMWriter) (n : Nat)
    (st : Mem × List WriteEvent) : ∃ rest, (writeChaosRows K s n st).2 = st.2 ++ rest := by
  have hrow : ∀ (y m : Nat) (st : Mem × List WriteEvent),
      ∃ rest, (writeChaosRow K s y m st).2 = st.2 ++ rest := by
    intro y m st
    induction m with
    | zero => exact ⟨[], (List.append_nil _).symm⟩
    | succ m ih =>
      obtain ⟨r1, h1⟩ := ih
      rw [writeChaosRow_succ, writeChaosPixel_eq]
      split
      · exact ⟨r1 ++ tileSymbols K s m y, by
          show (writeChaosRow K s y m st).2 ++ _ = _
          rw [h1, List.append_assoc]⟩
      · exact ⟨r1 ++ (tileSymbols K s m y ++ _), by
          show ((writeChaosRow K s y m st).2 ++ _) ++ _ = _
          rw [h1, List.append_assoc, List.append_assoc]⟩
  induction n with
  | zero => exact ⟨[], (List.append_nil _).symm⟩
  | succ n ih =>
    obtain ⟨r1, h1⟩ := ih
    obtain ⟨r2, h2⟩ := hrow n s._width (writeChaosRows K s n st)
    rw [writeChaosRows_succ, h2, h1]
    exact ⟨r1 ++ r2, List.append_assoc _ _ _⟩

theorem readChaosLevels_succ (S : Services Mono Ent Chaos Mask) (n jj : Nat)
    (s : ImageRGBAReader Mono Ent Chaos Mask) (reader : ImageReader) :
    readChaosLevels S (n + 1) jj s reader
      = if !(initOk S (s, reader) (0, jj)) then
          (ReadResult.GCIF_RE_BAD_RGBA, initTable S (s, reader) (0, jj))
        else if !(initOk S (initTable S (s, reader) (0, jj)) (1, jj)) then
          (ReadResult.GCIF_RE_BAD_RGBA, initTable S (initTable S (s, reader) (0, jj)) (1, jj))
        else if !(initOk S (initTable S (initTable S (s, reader) (0, jj)) (1, jj)) (2, jj)) then
          (ReadResult.GCIF_RE_BAD_RGBA,
            initTable S (initTable S (initTable S (s, reader) (0, jj)) (1, jj)) (2, jj))
        else
          readChaosLevels S n (jj + 1)
            (initTable S (initTable S (initTable S (s, reader) (0, jj)) (1, jj)) (2, jj)).1
            (initTable S (initTable S (initTable S (s, reader) (0, jj)) (1, jj)) (2, jj)).2 :=
  rfl

theorem readChaosLevels_order (S : Services Mono Ent Chaos Mask) (n : Nat) :
    ∀ (jj : Nat) (s : ImageRGBAReader Mono Ent Chaos Mask) (reader : ImageReader),
      (readChaosLevels S n jj s reader).1 = ReadResult.GCIF_RE_OK →
      (readChaosLevels S n jj s reader).2
        = ((List.range n).flatMap fun l => (List.range 3).map fun p => (p, l + jj)).foldl
            (initTable S) (s, reader) := by
  induction n with
  | zero =>
    intro jj s reader _
    rfl
  | succ n ih =>
    intro jj s reader hok
    have e : (fun l => (List.range 3).map fun p => (p, Nat.succ l + jj))
        = fun l => (List.range 3).map fun p => (p, l + (jj + 1)) := by
      funext l
      rw [Nat.succ_add]
      rfl
    have hlist : ((List.range (n + 1)).flatMap fun l => (List.range 3).map fun p => (p, l + jj))
        = [(0, jj), (1, jj), (2, jj)]
          ++ ((List.range n).flatMap fun l => (List.range 3).map fun p => (p, l + (jj + 1))) := by
      rw [List.range_succ_eq_map, List.flatMap_cons, List.flatMap_map, ← e]
      simp only [Nat.zero_add]
      rfl
    rw [hlist, List.foldl_append]
    rw [readChaosLevels_succ] at hok ⊢
    by_cases h1 : initOk S (s, reader) (0, jj) = true
    · rw [h1] at hok ⊢
      simp only [Bool.not_true, Bool.false_eq_true, if_false] at hok ⊢
      by_cases h2 : initOk S (initTable S (s, reader) (0, jj)) (1, jj) = true
      · rw [h2] at hok ⊢
        simp only [Bool.not_true, Bool.false_eq_true, if_false] at hok ⊢
        by_cases h3 : initOk S (initTable S (initTable S (s, reader) (0, jj)) (1, jj)) (2, jj)
            = true
        · rw [h3] at hok ⊢
          simp only [Bool.not_true, Bool.false_eq_true, if_false] at hok ⊢
          rw [ih (jj + 1) _ _ hok]
          rfl
        · rw [Bool.not_eq_true] at h3
          rw [h3] at hok
          simp only [Bool.not_false, if_true] at hok
          exact ReadResult.noConfusion hok
      · rw [Bool.not_eq_true] at h2
        rw [h2] at hok
        simp only [Bool.not_false, if_true] at hok
        exact ReadResult.noConfusion hok
    · rw [Bool.not_eq_true] at h1
      rw [h1] at hok
      simp only [Bool.not_false, if_true] at hok
      exact ReadResult.noConfusion hok

/-- C14 (amended): `writeChaos` writes, behind the events already written, the
`PLANES * CHAOS_LEVELS` coder tables plane by plane: the table of plane `p` and chaos level
`l` is the one of index `p * CHAOS_LEVELS + l`; in the order of the wire format of the
specification it has the index `l * PLANES + p`, and with two or more chaos levels the two
orders differ.  The loop of `readRGBATables` over `n` chaos levels, when it succeeds, is the
sequence of `init` calls on the tables of the planes Y, U, V in the order of the
specification for three planes: level by level. -/
theorem coder_table_order (K : Config) (s : ImageCMWriter) (writer : List WriteEvent)
    (S : Services Mono Ent Chaos Mask) (n : Nat) (d : ImageRGBAReader Mono Ent Chaos Mask)
    (reader : ImageReader)
    (hok : (readChaosLevels S n 0 d reader).1 = ReadResult.GCIF_RE_OK) :
    (∃ rest, (s.writeChaos K writer).2.2 = (writer ++ writeChaosOverhead K) ++ rest)
      ∧ (writeChaosOverhead K).length = PLANES * K.CHAOS_LEVELS
      ∧ (∀ p l : Nat, p < PLANES → l < K.CHAOS_LEVELS →
          (writeChaosOverhead K)[p * K.CHAOS_LEVELS + l]? = some (WriteEvent.overhead p l)
          ∧ ((specTableOrder PLANES K.CHAOS_LEVELS).map overheadOf)[l * PLANES + p]?
            = some (WriteEvent.overhead p l))
      ∧ (2 ≤ K.CHAOS_LEVELS →
          writeChaosOverhead K ≠ (specTableOrder PLANES K.CHAOS_LEVELS).map overheadOf)
      ∧ (readChaosLevels S n 0 d reader).2
        = (specTableOrder 3 n).foldl (initTable S) (d, reader) := by
  have hpos : ∀ p l : Nat, p < PLANES → l < K.CHAOS_LEVELS →
      (writeChaosOverhead K)[p * K.CHAOS_LEVELS + l]? = some (WriteEvent.overhead p l)
      ∧ ((specTableOrder PLANES K.CHAOS_LEVELS).map overheadOf)[l * PLANES + p]?
        = some (WriteEvent.overhead p l) := by
    intro p l hp hl
    constructor
    · unfold writeChaosOverhead
      exact flatMap_range_getElem? PLANES K.CHAOS_LEVELS (fun ii jj => WriteEvent.overhead ii jj)
        p l hp hl
    · unfold specTableOrder
      rw [List.getElem?_map,
        flatMap_range_getElem? K.CHAOS_LEVELS PLANES (fun l p => (p, l)) l p hl hp]
      rfl
  refine ⟨?_, ?_, hpos, ?_, ?_⟩
  · unfold ImageCMWriter.writeChaos
    cases hc : s._chaos with
    | none => exact ⟨[], (List.append_nil _).symm⟩
    | some chaos => exact writeChaosRows_extends K s s._height (writeChaosStart K s chaos writer)
  · unfold writeChaosOverhead
    exact flatMap_range_length PLANES K.CHAOS_LEVELS _
  · intro h2 heq
    have a1 := (hpos 0 1 (by decide) (by omega)).1
    have a2 := (hpos 1 0 (by decide) (by omega)).2
    rw [heq] at a1
    simp only [Nat.zero_mul, Nat.zero_add] at a1 a2
    rw [a2] at a1
    injection a1 with a1
    injection a1 with a1 a3
    exact absurd a1 (by decide)
  · exact readChaosLevels_order S n 0 d reader hok

/-- Witness of C14 (amended): with services that log the calls, the loop over two chaos
levels initialises Y, U, V of level 0 and then Y, U, V of level 1. -/
theorem coder_table_order_witness :
    (readChaosLevels traceServices 2 0 demoDecoder { bits := [], pos := 0, eof := false }).1
        = ReadResult.GCIF_RE_OK
      ∧ (readChaosLevels traceServices 2 0 demoDecoder
          { bits := [], pos := 0, eof := false }).2.2.pos = 123123
      ∧ (readChaosLevels traceServices 2 0 demoDecoder { bits := [], pos := 0, eof := false }).2
        = (specTableOrder 3 2).foldl (initTable traceServices)
            (demoDecoder, { bits := [], pos := 0, eof := false }) :=
  ⟨by decide, by decide,
    (coder_table_order demoConfig sampleWriter [] traceServices 2 demoDecoder
      { bits := [], pos := 0, eof := false } (by decide)).2.2.2.2⟩

/-- C14 (counterexample): with four planes and the eight chaos levels of the sample
configuration the encoder writes the tables of plane 0 for the levels 0 to 7 first, so the
second table written is that of plane 0 (Y) and level 1, whereas the second table of the
wire format of the specification, and the second one the decoder reads, is that of plane 1
(U) and level 0. -/
theorem plane_major_table_order :
    writeChaosOverhead demoConfig ≠ (specTableOrder PLANES demoConfig.CHAOS_LEVELS).map overheadOf
      ∧ (writeChaosOverhead demoConfig).take 9
        = [WriteEvent.overhead 0 0, WriteEvent.overhead 0 1, WriteEvent.overhead 0 2,
            WriteEvent.overhead 0 3, WriteEvent.overhead 0 4, WriteEvent.overhead 0 5,
            WriteEvent.overhead 0 6, WriteEvent.overhead 0 7, WriteEvent.overhead 1 0]
      ∧ ((specTableOrder PLANES demoConfig.CHAOS_LEVELS).map overheadOf).take 5
        = [WriteEvent.overhead 0 0, WriteEvent.overhead 1 0, WriteEvent.overhead 2 0,
            WriteEvent.overhead 3 0, WriteEvent.overhead 0 1]
      ∧ (sampleWriter.writeChaos demoConfig []).2.2.take 2
        = [WriteEvent.overhead 0 0, WriteEvent.overhead 0 1]
      ∧ specTableOrder 3 2 = [(0, 0), (1, 0), (2, 0), (0, 1), (1, 1), (2, 1)] := by
  decide

/-! ## Decoder: the unrolled pixel loop -/

theorem readPixels_eq_end (S : Services Mono Ent Chaos Mask)
    (s : ImageRGBAReader Mono Ent Chaos Mask) (reader : ImageReader) :
    s.readPixels S reader
      = (ReadResult.GCIF_RE_OK, (s.readPixelsEnd S reader).self,
          (s.readPixelsEnd S reader).reader) := by
  unfold ImageRGBAReader.readPixels ImageRGBAReader.readPixelsEnd
  cases S.CAT_UNROLL_READER <;> rfl

theorem unrolled_row_eq (S : Services Mono Ent Chaos Mask) (MASK_COLOR MASK_ALPHA xsize : Nat)
    (st : PixelScan Mono Ent Chaos Mask) (y : Nat) :
    readPixelsRowUnrolled S MASK_COLOR MASK_ALPHA xsize st y
      = pixelBody S MASK_COLOR MASK_ALPHA S.readSafe y
          (edgeMaskWord (unrolledRowStart S st y).1
            (((List.range (xsize - 1)).drop 1).foldl
              (unrolledPixel S MASK_COLOR MASK_ALPHA (unrolledRowStart S st y).1 y)
              (shiftMask (pixelBody S MASK_COLOR MASK_ALPHA S.readSafe y
                (firstMaskWord (unrolledRowStart S st y).1 (unrolledRowStart S st y).2) 0))))
          ((xsize : Int) - 1) :=
  rfl

theorem drop_one_range (k : Nat) : (List.range (k + 1)).drop 1 = (List.range k).map Nat.succ := by
  rw [List.range_succ_eq_map]
  rfl

theorem mem_drop_range (k x : Nat) (h : x ∈ (List.range k).drop 1) : 1 ≤ x ∧ x < k := by
  cases k with
  | zero => simp at h
  | succ k =>
    rw [drop_one_range, List.mem_map] at h
    obtain ⟨a, ha, rfl⟩ := h
    rw [List.mem_range] at ha
    omega

theorem range_split (n : Nat) :
    List.range (n + 2) = 0 :: ((List.range (n + 1)).drop 1 ++ [n + 1]) := by
  rw [List.range_succ, drop_one_range, List.range_succ_eq_map]
  rfl

theorem range_head (m : Nat) : List.range (m + 1) = 0 :: (List.range (m + 1)).drop 1 := by
  rw [drop_one_range, List.range_succ_eq_map]

theorem offBorder_iff (xsize : Nat) (x : Int) (y : Nat) :
    offBorder xsize x y = true ↔ 1 ≤ x ∧ x + 2 ≤ (xsize : Int) ∧ 1 ≤ y := by
  unfold offBorder
  simp only [Bool.and_eq_true, decide_eq_true_eq]

theorem foldl_rel {α β γ : Type} (R : α → β → Prop) (f : α → γ → α) (g : β → γ → β)
    (l : List γ) (a : α) (b : β) (h0 : R a b)
    (hstep : ∀ a b y, y ∈ l → R a b → R (f a y) (g b y)) :
    R (l.foldl f a) (l.foldl g b) := by
  induction l generalizing a b with
  | nil => exact h0
  | cons y l ih =>
    rw [List.foldl_cons, List.foldl_cons]
    exact ih (f a y) (g b y) (hstep a b y (List.mem_cons_self y l) h0)
      (fun a' b' y' hy' => hstep a' b' y' (List.mem_cons_of_mem y hy'))

theorem foldl_pointer {γ : Type} (f : PixelScan Mono Ent Chaos Mask → γ →
      PixelScan Mono Ent Chaos Mask) (c : Nat) (l : List γ)
    (hstep : ∀ st y, y ∈ l → (f st y).p = st.p + c) (st : PixelScan Mono Ent Chaos Mask) :
    (l.foldl f st).p = st.p + c * l.length := by
  induction l generalizing st with
  | nil => simp
  | cons y l ih =>
    rw [List.foldl_cons, ih (fun st' y' hy' => hstep st' y' (List.mem_cons_of_mem y hy')),
      hstep st y (List.mem_cons_self y l), List.length_cons]
    ring

theorem pixel_dispatch (S : Services Mono Ent Chaos Mask) (MASK_COLOR MASK_ALPHA xsize : Nat)
    (words : Nat → Nat) (y : Nat) (st : PixelScan Mono Ent Chaos Mask) (x : Nat) :
    readPixelsPixel (dispatchServices S xsize) MASK_COLOR MASK_ALPHA words y st x
      = if offBorder xsize x y then unrolledPixel S MASK_COLOR MASK_ALPHA words y st x
        else readPixelsPixel S MASK_COLOR MASK_ALPHA words y st x := by
  cases h : offBorder xsize x y
  · simp only [readPixelsPixel, pixelBody, dispatchServices, h, Bool.false_eq_true, if_false]
    rfl
  · simp only [readPixelsPixel, unrolledPixel, pixelBody, dispatchServices, h, if_true]
    rfl

theorem pixelBody_out (S : Services Mono Ent Chaos Mask) (MASK_COLOR MASK_ALPHA : Nat)
    (decode : Int → Nat → Nat → ImageRGBAReader Mono Ent Chaos Mask × ImageReader →
      ImageRGBAReader Mono Ent Chaos Mask × ImageReader)
    (y : Nat) (a b : PixelScan Mono Ent Chaos Mask) (x : Int) (h : SameOutput a b)
    (hmask : a.mask = b.mask) :
    SameOutput (pixelBody S MASK_COLOR MASK_ALPHA decode y a x)
      (pixelBody S MASK_COLOR MASK_ALPHA decode y b x) := by
  obtain ⟨h1, h2, h3⟩ := h
  unfold pixelBody SameOutput
  rw [h1, h2, h3, hmask]
  split <;> exact ⟨rfl, rfl, rfl⟩

theorem edge_like_next (words : Nat → Nat) (st : PixelScan Mono Ent Chaos Mask) :
    SameOutput (edgeMaskWord words st) (nextMaskWord words st)
      ∧ (edgeMaskWord words st).mask = (nextMaskWord words st).mask := by
  unfold edgeMaskWord nextMaskWord SameOutput
  split <;> exact ⟨⟨rfl, rfl, rfl⟩, rfl⟩

theorem tileRowStart_out (S : Services Mono Ent Chaos Mask) (z : Bool) (y : Nat)
    (a b : PixelScan Mono Ent Chaos Mask) (h : SameOutput a b) :
    SameOutput (tileRowStart S z y a) (tileRowStart S z y b) := by
  obtain ⟨h1, h2, h3⟩ := h
  unfold tileRowStart SameOutput
  simp only [h1, h2, h3]
  exact ⟨trivial, trivial, trivial⟩

theorem scanlineStart_out (S : Services Mono Ent Chaos Mask) (y : Nat)
    (a b : PixelScan Mono Ent Chaos Mask) (h : SameOutput a b) :
    (scanlineStart S y a).1 = (scanlineStart S y b).1
      ∧ firstMaskWord (scanlineStart S y a).1 (scanlineStart S y a).2
        = nextMaskWord (scanlineStart S y b).1 (scanlineStart S y b).2 := by
  obtain ⟨h1, h2, h3⟩ := h
  unfold scanlineStart firstMaskWord nextMaskWord
  simp only [h1, h2, h3, le_refl, if_true]
  exact ⟨trivial, trivial⟩

theorem readPixelsEnd_unrolled (S : Services Mono Ent Chaos Mask)
    (s : ImageRGBAReader Mono Ent Chaos Mask) (reader : ImageReader)
    (h : S.CAT_UNROLL_READER = true) :
    s.readPixelsEnd S reader
      = ((List.range s._ysize).drop 1).foldl
          (readPixelsRowUnrolled S (S.maskGetColor s._mask) (maskAlpha S s) s._xsize)
          (readPixelsRowZero S (S.maskGetColor s._mask) (maskAlpha S s) s._xsize
            (scanStart S s reader)) := by
  unfold ImageRGBAReader.readPixelsEnd
  rw [h]
  rfl

theorem readPixelsEnd_plain (S : Services Mono Ent Chaos Mask)
    (s : ImageRGBAReader Mono Ent Chaos Mask) (reader : ImageReader)
    (h : S.CAT_UNROLL_READER = false) :
    s.readPixelsEnd S reader
      = (List.range s._ysize).foldl
          (readPixelsRow S (S.maskGetColor s._mask) (maskAlpha S s) s._xsize)
          (scanStart S s reader) := by
  unfold ImageRGBAReader.readPixelsEnd
  rw [h]
  rfl

theorem sameOutput_refl (a : PixelScan Mono Ent Chaos Mask) : SameOutput a a :=
  ⟨rfl, rfl, rfl⟩

theorem sameOutput_shift (a b : PixelScan Mono Ent Chaos Mask) (h : SameOutput a b) :
    SameOutput a (shiftMask b) := h

theorem row_start_dispatch (S : Services Mono Ent Chaos Mask) (xsize : Nat)
    (a b : PixelScan Mono Ent Chaos Mask) (y : Nat) (hy : 1 ≤ y) (h : SameOutput a b) :
    (unrolledRowStart S a y).1 = (readPixelsRowStart (dispatchServices S xsize) b y).1
      ∧ firstMaskWord (unrolledRowStart S a y).1 (unrolledRowStart S a y).2
        = nextMaskWord (readPixelsRowStart (dispatchServices S xsize) b y).1
            (readPixelsRowStart (dispatchServices S xsize) b y).2 := by
  have hd : decide (y > 0) = true := decide_eq_true hy
  have hstart : readPixelsRowStart (dispatchServices S xsize) b y
      = scanlineStart S y
          (if y &&& b.self._tile_mask_y = 0 then tileRowStart S true y b else b) := by
    unfold readPixelsRowStart
    rw [hd]
    rfl
  rw [hstart]
  unfold unrolledRowStart
  apply scanlineStart_out
  rw [h.1]
  split
  · exact tileRowStart_out S true y a b h
  · exact h

theorem unrolledRowStart_p (S : Services Mono Ent Chaos Mask)
    (st : PixelScan Mono Ent Chaos Mask) (y : Nat) : (unrolledRowStart S st y).2.p = st.p := by
  unfold unrolledRowStart
  split
  · rfl
  · rfl

theorem unrolled_row_dispatch (S : Services Mono Ent Chaos Mask)
    (MASK_COLOR MASK_ALPHA n : Nat) (a b : PixelScan Mono Ent Chaos Mask) (y : Nat)
    (hy : 1 ≤ y) (h : SameOutput a b) :
    SameOutput (readPixelsRowUnrolled S MASK_COLOR MASK_ALPHA (n + 2) a y)
      (readPixelsRow (dispatchServices S (n + 2)) MASK_COLOR MASK_ALPHA (n + 2) b y) := by
  obtain ⟨hw, hfirst⟩ := row_start_dispatch S (n + 2) a b y hy h
  have hb0 : offBorder (n + 2) ((0 : Nat) : Int) y = false := by
    cases hc : offBorder (n + 2) ((0 : Nat) : Int) y
    · rfl
    · exact absurd ((offBorder_iff _ _ _).mp hc).1 (by decide)
  have hbe : offBorder (n + 2) ((n + 1 : Nat) : Int) y = false := by
    cases hc : offBorder (n + 2) ((n + 1 : Nat) : Int) y
    · rfl
    · exact absurd ((offBorder_iff _ _ _).mp hc).2.1 (by omega)
  have hedge : ((n + 2 : Nat) : Int) - 1 = ((n + 1 : Nat) : Int) := by omega
  rw [unrolled_row_eq, readPixelsRow_eq_scan, hedge]
  unfold readPixelsRowScan
  rw [range_split n, List.foldl_cons, List.foldl_append, List.foldl_cons, List.foldl_nil]
  rw [pixel_dispatch S MASK_COLOR MASK_ALPHA (n + 2) _ y _ (n + 1), hbe]
  rw [pixel_dispatch S MASK_COLOR MASK_ALPHA (n + 2) _ y _ 0, hb0]
  simp only [Bool.false_eq_true, if_false]
  rw [← hw]
  have hpix0 : readPixelsPixel S MASK_COLOR MASK_ALPHA (unrolledRowStart S a y).1 y
      (readPixelsRowStart (dispatchServices S (n + 2)) b y).2 0
      = shiftMask (pixelBody S MASK_COLOR MASK_ALPHA S.readSafe y
          (firstMaskWord (unrolledRowStart S a y).1 (unrolledRowStart S a y).2) 0) := by
    rw [hfirst, ← hw]
    rfl
  rw [hpix0]
  have hmid : ((List.range (n + 1)).drop 1).foldl
        (readPixelsPixel (dispatchServices S (n + 2)) MASK_COLOR MASK_ALPHA
          (unrolledRowStart S a y).1 y)
        (shiftMask (pixelBody S MASK_COLOR MASK_ALPHA S.readSafe y
          (firstMaskWord (unrolledRowStart S a y).1 (unrolledRowStart S a y).2) 0))
      = ((List.range (n + 1)).drop 1).foldl
          (unrolledPixel S MASK_COLOR MASK_ALPHA (unrolledRowStart S a y).1 y)
          (shiftMask (pixelBody S MASK_COLOR MASK_ALPHA S.readSafe y
            (firstMaskWord (unrolledRowStart S a y).1 (unrolledRowStart S a y).2) 0)) := by
    apply foldl_rel (fun u v => u = v)
    · rfl
    · intro u v x hx huv
      obtain ⟨x1, x2⟩ := mem_drop_range _ _ hx
      rw [huv, pixel_dispatch,
        if_pos ((offBorder_iff _ _ _).mpr ⟨by omega, by omega, hy⟩)]
  rw [hmid]
  show SameOutput (pixelBody S MASK_COLOR MASK_ALPHA S.readSafe y _ ((n + 1 : Nat) : Int))
    (shiftMask (pixelBody S MASK_COLOR MASK_ALPHA S.readSafe y _ ((n + 1 : Nat) : Int)))
  apply sameOutput_shift
  exact pixelBody_out S MASK_COLOR MASK_ALPHA S.readSafe y _ _ ((n + 1 : Nat) : Int)
    (edge_like_next _ _).1 (edge_like_next _ _).2

theorem unrolled_row_pointer (S : Services Mono Ent Chaos Mask)
    (MASK_COLOR MASK_ALPHA n : Nat) (a : PixelScan Mono Ent Chaos Mask) (y : Nat) :
    (readPixelsRowUnrolled S MASK_COLOR MASK_ALPHA (n + 2) a y).p = a.p + (n + 2) := by
  rw [unrolled_row_eq, (pixelBody_regs S MASK_COLOR MASK_ALPHA S.readSafe y _ _).2.2.2,
    (edge_like_next _ _).1.2.2, (nextMaskWord_frame _ _).2.2]
  rw [foldl_pointer (unrolledPixel S MASK_COLOR MASK_ALPHA (unrolledRowStart S a y).1 y) 1]
  · rw [List.length_drop, List.length_range]
    show (pixelBody S MASK_COLOR MASK_ALPHA S.readSafe y _ 0).p + _ + 1 = _
    rw [(pixelBody_regs S MASK_COLOR MASK_ALPHA S.readSafe y _ _).2.2.2]
    show (unrolledRowStart S a y).2.p + 1 + _ + 1 = _
    rw [unrolledRowStart_p]
    omega
  · intro st x _
    show (pixelBody S MASK_COLOR MASK_ALPHA S.readUnsafe y _ x).p = _
    rw [(pixelBody_regs S MASK_COLOR MASK_ALPHA S.readUnsafe y _ _).2.2.2,
      (nextMaskWord_frame _ _).2.2]

theorem row_zero_dispatch (S : Services Mono Ent Chaos Mask)
    (MASK_COLOR MASK_ALPHA xsize : Nat) (st : PixelScan Mono Ent Chaos Mask) :
    readPixelsRowZero S MASK_COLOR MASK_ALPHA xsize st
      = readPixelsRow (dispatchServices S xsize) MASK_COLOR MASK_ALPHA xsize st 0 := by
  have hz : (0 &&& st.self._tile_mask_y = 0) := Nat.zero_and _
  unfold readPixelsRowZero readPixelsRow
  simp only [hz, if_true]
  apply foldl_rel (fun u v => u = v)
  · rfl
  · intro u v x _ huv
    have hb : offBorder xsize x 0 = false := by
      cases hc : offBorder xsize x 0
      · rfl
      · exact absurd ((offBorder_iff _ _ _).mp hc).2.2 (by decide)
    rw [huv, pixel_dispatch, hb]
    rfl

theorem row_zero_pointer (S : Services Mono Ent Chaos Mask)
    (MASK_COLOR MASK_ALPHA xsize : Nat) (st : PixelScan Mono Ent Chaos Mask) :
    (readPixelsRowZero S MASK_COLOR MASK_ALPHA xsize st).p = st.p + xsize := by
  unfold readPixelsRowZero
  rw [foldl_pointer (readPixelsPixel S MASK_COLOR MASK_ALPHA
    (scanlineStart S 0 (tileRowStart S false 0 st)).1 0) 1]
  · rw [List.length_range]
    show st.p + _ = _
    omega
  · intro u x _
    show (pixelBody S MASK_COLOR MASK_ALPHA S.readSafe 0 _ x).p = _
    rw [(pixelBody_regs S MASK_COLOR MASK_ALPHA S.readSafe 0 _ _).2.2.2,
      (nextMaskWord_frame _ _).2.2]

theorem rows_dispatch (S : Services Mono Ent Chaos Mask) (MASK_COLOR MASK_ALPHA n m : Nat)
    (st : PixelScan Mono Ent Chaos Mask) :
    SameOutput
        (((List.range (m + 1)).drop 1).foldl
          (readPixelsRowUnrolled S MASK_COLOR MASK_ALPHA (n + 2))
          (readPixelsRowZero S MASK_COLOR MASK_ALPHA (n + 2) st))
        ((List.range (m + 1)).foldl
          (readPixelsRow (dispatchServices S (n + 2)) MASK_COLOR MASK_ALPHA (n + 2)) st)
      ∧ (((List.range (m + 1)).drop 1).foldl
          (readPixelsRowUnrolled S MASK_COLOR MASK_ALPHA (n + 2))
          (readPixelsRowZero S MASK_COLOR MASK_ALPHA (n + 2) st)).p
        = st.p + (n + 2) * (m + 1) := by
  constructor
  · rw [range_head m, List.foldl_cons, ← range_head m, row_zero_dispatch]
    apply foldl_rel SameOutput
    · exact sameOutput_refl _
    · intro a b y hy hab
      exact unrolled_row_dispatch S MASK_COLOR MASK_ALPHA n a b y (mem_drop_range _ _ hy).1 hab
  · rw [foldl_pointer (readPixelsRowUnrolled S MASK_COLOR MASK_ALPHA (n + 2)) (n + 2)]
    · rw [row_zero_pointer, List.length_drop, List.length_range]
      show st.p + (n + 2) + (n + 2) * m = _
      ring
    · intro u y _
      exact unrolled_row_pointer S MASK_COLOR MASK_ALPHA n u y

theorem end_dispatch (S : Services Mono Ent Chaos Mask)
    (s : ImageRGBAReader Mono Ent Chaos Mask) (reader : ImageReader)
    (hunroll : S.CAT_UNROLL_READER = true) (hx : 2 ≤ s._xsize) (hy : 1 ≤ s._ysize) :
    SameOutput (s.readPixelsEnd S reader)
        (s.readPixelsEnd (dispatchServices S s._xsize) reader)
      ∧ (s.readPixelsEnd S reader).p = s._xsize * s._ysize := by
  obtain ⟨n, hn⟩ : ∃ n, s._xsize = n + 2 := ⟨s._xsize - 2, by omega⟩
  obtain ⟨m, hm⟩ : ∃ m, s._ysize = m + 1 := ⟨s._ysize - 1, by omega⟩
  rw [readPixelsEnd_unrolled S s reader hunroll,
    readPixelsEnd_plain (dispatchServices S s._xsize) s reader rfl, hn, hm]
  obtain ⟨h1, h2⟩ := rows_dispatch S (S.maskGetColor s._mask) (maskAlpha S s) n m
    (scanStart S s reader)
  refine ⟨h1, ?_⟩
  rw [h2]
  show 0 + _ = _
  omega

theorem readPixels_dispatch (S : Services Mono Ent Chaos Mask)
    (s : ImageRGBAReader Mono Ent Chaos Mask) (reader : ImageReader)
    (hunroll : S.CAT_UNROLL_READER = true) (hx : 2 ≤ s._xsize) (hy : 1 ≤ s._ysize) :
    s.readPixels S reader = s.readPixels (dispatchServices S s._xsize) reader := by
  obtain ⟨⟨h1, h2, -⟩, -⟩ := end_dispatch S s reader hunroll hx hy
  rw [readPixels_eq_end, readPixels_eq_end, h1, h2]

theorem dispatch_same (S : Services Mono Ent Chaos Mask) (xsize : Nat)
    (h : ∀ x y p st, offBorder xsize x y = true → S.readUnsafe x y p st = S.readSafe x y p st) :
    dispatchServices S xsize = { S with CAT_UNROLL_READER := false } := by
  have hf : (fun x y p st =>
      if offBorder xsize x y then S.readUnsafe x y p st else S.readSafe x y p st)
      = S.readSafe := by
    funext x y p st
    cases hc : offBorder xsize x y
    · rfl
    · exact h x y p st hc
  unfold dispatchServices
  rw [hf]

/-- C27: in an image at least 2 pixels wide and 1 pixel high the unrolled `readPixels`
returns what the plain loop returns when the plain loop decodes the pixels off the border
with `readUnsafe` and the pixels of the border with `readSafe`, whatever the services,
the mask words and the bit stream are: the two leave the same reader object, bit reader and
output pointer, and the pointer has advanced by one pixel (4 bytes) for each of the
`xsize * ysize` pixels.  Where `readUnsafe` and `readSafe` decode the pixels off the border
alike, the unrolled variant returns what the plain variant returns. -/
theorem unrolled_reader_equivalence (S : Services Mono Ent Chaos Mask)
    (s : ImageRGBAReader Mono Ent Chaos Mask) (reader : ImageReader)
    (hunroll : S.CAT_UNROLL_READER = true) (hx : 2 ≤ s._xsize) (hy : 1 ≤ s._ysize) :
    SameOutput (s.readPixelsEnd S reader)
        (s.readPixelsEnd (dispatchServices S s._xsize) reader)
      ∧ (s.readPixelsEnd S reader).p = s._xsize * s._ysize
      ∧ s.readPixels S reader = s.readPixels (dispatchServices S s._xsize) reader
      ∧ ((∀ x y p st, offBorder s._xsize x y = true →
            S.readUnsafe x y p st = S.readSafe x y p st) →
          s.readPixels S reader = s.readPixels { S with CAT_UNROLL_READER := false } reader) := by
  obtain ⟨h1, h2⟩ := end_dispatch S s reader hunroll hx hy
  refine ⟨h1, h2, readPixels_dispatch S s reader hunroll hx hy, ?_⟩
  intro h
  rw [← dispatch_same S s._xsize h]
  exact readPixels_dispatch S s reader hunroll hx hy

set_option maxRecDepth 100000 in
/-- Witness of C27: on an image of 3 x 3 pixels with no masked pixel the unrolled reader
stores the nine bytes of the stream in raster order, the pixels `(1, 1)` and `(1, 2)`
through `readUnsafe`, and returns what the dispatching plain loop returns. -/
theorem unrolled_reader_equivalence_witness :
    markServices.CAT_UNROLL_READER = true ∧ 2 ≤ blockDecoder._xsize ∧ 1 ≤ blockDecoder._ysize
      ∧ (List.range 9).map (blockDecoder.readPixels markServices nineBytes).2.1.image_rgba
        = [1, 2, 3, 4, 261, 6, 7, 264, 9]
      ∧ (blockDecoder.readPixelsEnd markServices nineBytes).p = 9
      ∧ blockDecoder.readPixels markServices nineBytes
        = blockDecoder.readPixels (dispatchServices markServices blockDecoder._xsize)
            nineBytes :=
  ⟨rfl, by decide, by decide, by decide, by decide,
    (unrolled_reader_equivalence markServices blockDecoder nineBytes rfl (by decide)
      (by decide)).2.2.1⟩

set_option maxRecDepth 100000 in
/-- C27, the case `xsize = 1`: on an image of 1 x 2 pixels with no masked pixel the unrolled
`readPixels` decodes the pixel `(0, 1)` twice, once as the pixel `x = 0` and once as the
right edge `x = xsize - 1`: it consumes three bytes of the stream, advances the output
pointer by three pixels and stores the third byte behind the two pixels of the image, while
the plain loop consumes two bytes, advances the pointer by two pixels and leaves the word
behind the image alone. -/
theorem unrolled_single_column :
    markServices.CAT_UNROLL_READER = true ∧ columnDecoder._xsize = 1
      ∧ columnDecoder._ysize = 2
      ∧ (columnDecoder.readPixelsEnd markServices nineBytes).p = 3
      ∧ (columnDecoder.readPixelsEnd (dispatchServices markServices 1) nineBytes).p = 2
      ∧ (columnDecoder.readPixels markServices nineBytes).2.2.pos = 24
      ∧ (columnDecoder.readPixels (dispatchServices markServices 1) nineBytes).2.2.pos = 16
      ∧ (List.range 3).map (columnDecoder.readPixels markServices nineBytes).2.1.image_rgba
        = [1, 2, 3]
      ∧ (List.range 3).map
          (columnDecoder.readPixels (dispatchServices markServices 1) nineBytes).2.1.image_rgba
        = [1, 2, 0] := by
  decide

/-! ## Decoder: where the unrolled loop calls `readUnsafe` -/

theorem pixelBody_decode (S : Services Mono Ent Chaos Mask) (MASK_COLOR MASK_ALPHA : Nat)
    (d1 d2 : Int → Nat → Nat → ImageRGBAReader Mono Ent Chaos Mask × ImageReader →
      ImageRGBAReader Mono Ent Chaos Mask × ImageReader)
    (y : Nat) (st : PixelScan Mono Ent Chaos Mask) (x : Int)
    (h : ∀ p t, d1 x y p t = d2 x y p t) :
    pixelBody S MASK_COLOR MASK_ALPHA d1 y st x = pixelBody S MASK_COLOR MASK_ALPHA d2 y st x := by
  unfold pixelBody
  rw [h]

theorem unrolled_row_replace (S : Services Mono Ent Chaos Mask)
    (u : Int → Nat → Nat → ImageRGBAReader Mono Ent Chaos Mask × ImageReader →
      ImageRGBAReader Mono Ent Chaos Mask × ImageReader)
    (MASK_COLOR MASK_ALPHA xsize : Nat) (st : PixelScan Mono Ent Chaos Mask) (y : Nat)
    (hy : 1 ≤ y)
    (hu : ∀ x y p t, offBorder xsize x y = true → u x y p t = S.readUnsafe x y p t) :
    readPixelsRowUnrolled { S with readUnsafe := u } MASK_COLOR MASK_ALPHA xsize st y
      = readPixelsRowUnrolled S MASK_COLOR MASK_ALPHA xsize st y := by
  rw [unrolled_row_eq, unrolled_row_eq]
  have hmid : ((List.range (xsize - 1)).drop 1).foldl
        (unrolledPixel { S with readUnsafe := u } MASK_COLOR MASK_ALPHA
          (unrolledRowStart S st y).1 y)
        (shiftMask (pixelBody S MASK_COLOR MASK_ALPHA S.readSafe y
          (firstMaskWord (unrolledRowStart S st y).1 (unrolledRowStart S st y).2) 0))
      = ((List.range (xsize - 1)).drop 1).foldl
          (unrolledPixel S MASK_COLOR MASK_ALPHA (unrolledRowStart S st y).1 y)
          (shiftMask (pixelBody S MASK_COLOR MASK_ALPHA S.readSafe y
            (firstMaskWord (unrolledRowStart S st y).1 (unrolledRowStart S st y).2) 0)) := by
    apply foldl_rel (fun a b => a = b)
    · rfl
    · intro a b x hx hab
      obtain ⟨x1, x2⟩ := mem_drop_range _ _ hx
      rw [hab]
      show shiftMask (pixelBody S MASK_COLOR MASK_ALPHA u y _ x)
        = shiftMask (pixelBody S MASK_COLOR MASK_ALPHA S.readUnsafe y _ x)
      rw [pixelBody_decode S MASK_COLOR MASK_ALPHA u S.readUnsafe y _ x
        (fun p t => hu x y p t ((offBorder_iff _ _ _).mpr ⟨by omega, by omega, hy⟩))]
  exact congrArg (fun t => pixelBody S MASK_COLOR MASK_ALPHA S.readSafe y
    (edgeMaskWord (unrolledRowStart S st y).1 t) ((xsize : Int) - 1)) hmid

theorem readPixels_replace (S : Services Mono Ent Chaos Mask)
    (s : ImageRGBAReader Mono Ent Chaos Mask) (reader : ImageReader)
    (u : Int → Nat → Nat → ImageRGBAReader Mono Ent Chaos Mask × ImageReader →
      ImageRGBAReader Mono Ent Chaos Mask × ImageReader)
    (hunroll : S.CAT_UNROLL_READER = true)
    (hu : ∀ x y p t, offBorder s._xsize x y = true → u x y p t = S.readUnsafe x y p t) :
    s.readPixels { S with readUnsafe := u } reader = s.readPixels S reader := by
  have hend : s.readPixelsEnd { S with readUnsafe := u } reader = s.readPixelsEnd S reader := by
    rw [readPixelsEnd_unrolled { S with readUnsafe := u } s reader hunroll,
      readPixelsEnd_unrolled S s reader hunroll]
    apply foldl_rel (fun a b => a = b)
    · rfl
    · intro a b y hy hab
      rw [hab]
      exact unrolled_row_replace S u _ _ s._xsize b y (mem_drop_range _ _ hy).1 hu
  rw [readPixels_eq_end, readPixels_eq_end, hend]

/-- C28: the unrolled `readPixels` returns the same result when `readUnsafe` is replaced by
any routine `u` that agrees with it at the pixels with `1 <= x <= xsize - 2` and `y >= 1`,
so it calls `readUnsafe` at no other pixel; at such a pixel the neighbours to the left,
above, above left and above right lie in the image.  In an image at least 2 pixels wide and
1 pixel high it returns what the plain loop returns when the plain loop decodes exactly
those pixels with `readUnsafe`, and every pixel of row 0, of column 0 and of column
`xsize - 1` with `readSafe`. -/
theorem unsafe_path_precondition (S : Services Mono Ent Chaos Mask)
    (s : ImageRGBAReader Mono Ent Chaos Mask) (reader : ImageReader)
    (u : Int → Nat → Nat → ImageRGBAReader Mono Ent Chaos Mask × ImageReader →
      ImageRGBAReader Mono Ent Chaos Mask × ImageReader)
    (hunroll : S.CAT_UNROLL_READER = true)
    (hu : ∀ x y p t, offBorder s._xsize x y = true → u x y p t = S.readUnsafe x y p t) :
    s.readPixels { S with readUnsafe := u } reader = s.readPixels S reader
      ∧ (∀ x y, offBorder s._xsize x y = true ↔ 1 ≤ x ∧ x + 2 ≤ s._xsize ∧ 1 ≤ y)
      ∧ (∀ x y, offBorder s._xsize x y = true →
          x - 1 < s._xsize ∧ x + 1 < s._xsize ∧ y - 1 < y ∧ 0 < x)
      ∧ (2 ≤ s._xsize → 1 ≤ s._ysize →
          s.readPixels S reader = s.readPixels (dispatchServices S s._xsize) reader)
      ∧ ∀ x y p t, (y = 0 ∨ x = 0 ∨ x + 1 = s._xsize) →
          (dispatchServices S s._xsize).readSafe x y p t = S.readSafe x y p t := by
  refine ⟨readPixels_replace S s reader u hunroll hu, offBorder_iff s._xsize, ?_,
    readPixels_dispatch S s reader hunroll, ?_⟩
  · intro x y h
    obtain ⟨h1, h2, h3⟩ := (offBorder_iff _ _ _).mp h
    omega
  · intro x y p t h
    have hb : offBorder s._xsize x y = false := by
      cases hc : offBorder s._xsize x y
      · rfl
      · obtain ⟨h1, h2, h3⟩ := (offBorder_iff _ _ _).mp hc
        omega
    show (if offBorder s._xsize x y then S.readUnsafe x y p t else S.readSafe x y p t) = _
    rw [hb]
    rfl

set_option maxRecDepth 100000 in
/-- Witness of C28: on an image of 3 x 3 pixels the sample reader gives the same result with
a `readUnsafe` that wrecks the output at every pixel but `(1, 1)` and `(1, 2)`; these two
are the only ones stored through `readUnsafe`. -/
theorem unsafe_path_precondition_witness :
    markServices.CAT_UNROLL_READER = true
      ∧ poisonedUnsafe 0 1 3 (blockDecoder, nineBytes)
        ≠ markServices.readUnsafe 0 1 3 (blockDecoder, nineBytes)
      ∧ blockDecoder.readPixels { markServices with readUnsafe := poisonedUnsafe } nineBytes
        = blockDecoder.readPixels markServices nineBytes
      ∧ (List.range 9).map
          (blockDecoder.readPixels { markServices with readUnsafe := poisonedUnsafe }
            nineBytes).2.1.image_rgba
        = [1, 2, 3, 4, 261, 6, 7, 264, 9] :=
  ⟨rfl,
    fun h => absurd (congrArg (fun r => r.1.image_rgba 0) h) (by decide),
    (unsafe_path_precondition markServices blockDecoder nineBytes poisonedUnsafe rfl
      (fun _ _ _ _ h => if_pos h)).1,
    by decide⟩

/-! ## Decoder: mask handling of `readPixels` -/

end DecoderTheorems

/-- C6 (counterexample): on `truncatedStream` the header and the tables are accepted,
no bit of pixel data is left behind them, the two pixels are read past the end of the
data, and `read` still returns `GCIF_RE_OK`. -/
theorem read_truncated_payload_returns_ok :
    ((readEntry demoDecoder demoMask demoImage).readFilterTables demoServices
        truncatedStream).1 = ReadResult.GCIF_RE_OK
      ∧ (((readEntry demoDecoder demoMask demoImage).readFilterTables demoServices
          truncatedStream).2.1.readRGBATables demoServices
            ((readEntry demoDecoder demoMask demoImage).readFilterTables demoServices
              truncatedStream).2.2).1 = ReadResult.GCIF_RE_OK
      ∧ (((readEntry demoDecoder demoMask demoImage).readFilterTables demoServices
          truncatedStream).2.1.readRGBATables demoServices
            ((readEntry demoDecoder demoMask demoImage).readFilterTables demoServices
              truncatedStream).2.2).2.2 = { bits := [], pos := 19, eof := false }
      ∧ (demoDecoder.read demoServices truncatedStream demoMask demoImage).2.2
          = { bits := [], pos := 35, eof := true }
      ∧ (demoDecoder.read demoServices truncatedStream demoMask demoImage).1
          = ReadResult.GCIF_RE_OK := by
  decide

/-- Witness of C6 (amended): a stream with tables and two bytes of pixel data. -/
theorem read_ok_of_tables_ok_witness :
    (demoDecoder.read demoServices completeStream demoMask demoImage).1
      = ReadResult.GCIF_RE_OK :=
  read_ok_of_tables_ok demoServices demoDecoder completeStream demoMask demoImage
    (by decide) (by decide)


/-! ## Encoder: frequencies of the tile-map symbols -/

theorem foldl_flatMap {α β γ : Type} (f : α → γ → α) (g : β → List γ) (l : List β) (a : α) :
    (l.flatMap g).foldl f a = l.foldl (fun a x => (g x).foldl f a) a := by
  induction l generalizing a with
  | nil => rfl
  | cons x l ih => rw [List.flatMap_cons, List.foldl_append, List.foldl_cons, ih]

theorem zoneStarts_eq (K : Config) (w : Nat) :
    zoneStarts K (w * K.FILTER_ZONE_SIZE) = (List.range w).map fun t => t * K.FILTER_ZONE_SIZE := by
  have hpos := zone_size_pos K
  unfold zoneStarts
  have e : (w * K.FILTER_ZONE_SIZE + K.FILTER_ZONE_SIZE - 1) / K.FILTER_ZONE_SIZE = w := by
    have e1 : w * K.FILTER_ZONE_SIZE + K.FILTER_ZONE_SIZE - 1
        = (K.FILTER_ZONE_SIZE - 1) + w * K.FILTER_ZONE_SIZE := by omega
    rw [e1, Nat.add_mul_div_right _ _ hpos, Nat.div_eq_of_lt (by omega), Nat.zero_add]
  rw [e]

theorem writeFiltersScan_tiles (K : Config) (s : ImageCMWriter) (hv : ValidDims K s) :
    writeFiltersScan K s
      = (tileList s).foldl (tileStep K)
          { writer := s, sf_hist := FreqHistogram.init K.SF_COUNT,
            cf_hist := FreqHistogram.init K.CF_COUNT, unused_count := 0 } := by
  unfold writeFiltersScan tileList
  rw [hv.1, hv.2, zoneStarts_eq, zoneStarts_eq, List.foldl_map, foldl_flatMap]
  congr 1
  funext acc ty
  rw [List.foldl_map, List.foldl_map]
  rfl

theorem mem_tileList (s : ImageCMWriter) (t : Nat × Nat) :
    t ∈ tileList s ↔ t.1 < s._w ∧ t.2 < s._h := by
  unfold tileList
  rw [List.mem_flatMap]
  constructor
  · rintro ⟨ty, hty, ht⟩
    rw [List.mem_map] at ht
    obtain ⟨tx, htx, rfl⟩ := ht
    exact ⟨List.mem_range.mp htx, List.mem_range.mp hty⟩
  · rintro ⟨h1, h2⟩
    exact ⟨t.2, List.mem_range.mpr h2, List.mem_map.mpr ⟨t.1, List.mem_range.mpr h1, rfl⟩⟩

theorem tileList_length (s : ImageCMWriter) : (tileList s).length = s._w * s._h := by
  unfold tileList
  rw [flatMap_range_length]
  exact Nat.mul_comm _ _

theorem zoneOn_true (K : Config) (s : ImageCMWriter) (x y : Nat) (h : zoneOn K s x y = true) :
    ∃ ii jj, ii < K.FILTER_ZONE_SIZE ∧ jj < K.FILTER_ZONE_SIZE
      ∧ covered s (x + ii) (y + jj) = false := by
  unfold zoneOn at h
  rw [List.any_eq_true] at h
  obtain ⟨ii, hii, h⟩ := h
  rw [List.any_eq_true] at h
  obtain ⟨jj, hjj, h⟩ := h
  refine ⟨ii, jj, List.mem_range.mp hii, List.mem_range.mp hjj, ?_⟩
  unfold covered
  revert h
  cases s._lz (x + ii) (y + jj) <;> cases s._mask (x + ii) (y + jj) <;> simp

theorem zoneOn_congr (K : Config) (a b : ImageCMWriter) (h : SameButMatrix a b) (x y : Nat) :
    zoneOn K a x y = zoneOn K b x y := by
  obtain ⟨-, -, -, -, -, h6, h7, -⟩ := (sameButMatrix_fields h)
  unfold zoneOn
  rw [h6, h7]

theorem tile_pixel_lt (K : Config) (w t ii : Nat) (ht : t < w) (hii : ii < K.FILTER_ZONE_SIZE) :
    t * K.FILTER_ZONE_SIZE + ii < w * K.FILTER_ZONE_SIZE := by
  calc t * K.FILTER_ZONE_SIZE + ii < t * K.FILTER_ZONE_SIZE + K.FILTER_ZONE_SIZE := by omega
    _ = (t + 1) * K.FILTER_ZONE_SIZE := by ring
    _ ≤ w * K.FILTER_ZONE_SIZE := Nat.mul_le_mul_right _ ht

theorem scanAgree_used (K : Config) (s : ImageCMWriter) (hv : ValidDims K s) (acc : FilterScan)
    (hacc : ScanAgree K s acc) (t : Nat × Nat) (ht : t ∈ tileList s)
    (hused : tileUsed K s t = true) :
    tileEntry K acc.writer t.1 t.2 = tileEntry K s t.1 t.2 := by
  obtain ⟨h1, h2⟩ := (mem_tileList s t).mp ht
  obtain ⟨ii, jj, hii, hjj, hc⟩ := zoneOn_true K s _ _ hused
  have hx := tile_pixel_lt K s._w t.1 ii h1 hii
  have hy := tile_pixel_lt K s._h t.2 jj h2 hjj
  rw [← hv.1] at hx
  rw [← hv.2] at hy
  have h := hacc.2 _ _ hx hy hc
  unfold tileEntry
  rw [← getFilter_in_tile K acc.writer t.1 t.2 ii jj hii hjj, h,
    getFilter_in_tile K s t.1 t.2 ii jj hii hjj]

theorem tileStep_agree (K : Config) (s : ImageCMWriter) (hv : ValidDims K s) (acc : FilterScan)
    (hacc : ScanAgree K s acc) (t : Nat × Nat) (ht : t ∈ tileList s) :
    ScanAgree K s (tileStep K acc t) := by
  obtain ⟨h1, h2⟩ := (mem_tileList s t).mp ht
  obtain ⟨hsame, hget⟩ := hacc
  unfold tileStep writeFiltersZone
  by_cases hon : zoneOn K acc.writer (t.1 * K.FILTER_ZONE_SIZE) (t.2 * K.FILTER_ZONE_SIZE) = true
  · rw [if_pos hon]
    exact ⟨hsame, hget⟩
  · rw [if_neg hon]
    have hoff : zoneOn K acc.writer (t.1 * K.FILTER_ZONE_SIZE) (t.2 * K.FILTER_ZONE_SIZE)
        = false := by
      revert hon
      cases zoneOn K acc.writer (t.1 * K.FILTER_ZONE_SIZE) (t.2 * K.FILTER_ZONE_SIZE) <;> simp
    refine ⟨sameButMatrix_trans (sameButMatrix_setFilter K acc.writer _ _ K.UNUSED_FILTER) hsame,
      ?_⟩
    intro x y hx hy hunc
    rw [← hget x y hx hy hunc]
    apply getFilter_setFilter_ne
    intro hidx
    obtain ⟨hw, -⟩ := (sameButMatrix_fields hsame)
    rw [hv.1] at hx
    rw [hv.2] at hy
    rw [shift_zone_start, shift_zone_start, hw] at hidx
    obtain ⟨e1, e2⟩ := tile_index_inj s._w _ _ _ _ (shift_lt_of_lt K s._w x hx) h1 hidx
    obtain ⟨ii, hii, rfl⟩ := in_zone_of_shift K t.1 x e1
    obtain ⟨jj, hjj, rfl⟩ := in_zone_of_shift K t.2 y e2
    have hcov := zoneOn_false K acc.writer _ _ ii jj hoff hii hjj
    rw [sameButMatrix_covered hsame, hunc] at hcov
    exact absurd hcov (by decide)

theorem addMore_getD (h : FreqHistogram) (sym count i : Nat) :
    (h.addMore sym count).hist.getD i 0
      = h.hist.getD i 0 + (if sym = i ∧ i < h.hist.length then count else 0) := by
  unfold FreqHistogram.addMore
  rw [List.getD_eq_getElem?_getD, List.getD_eq_getElem?_getD, List.getElem?_modify]
  by_cases hi : i < h.hist.length
  · rw [List.getElem?_eq_getElem hi]
    by_cases e : sym = i
    · simp [e, hi]
    · simp [e]
  · rw [List.getElem?_eq_none (by omega)]
    simp [hi]

theorem modify_sum (l : List Nat) (i c : Nat) :
    (List.modify (fun v => v + c) i l).sum = l.sum + (if i < l.length then c else 0) := by
  induction l generalizing i with
  | nil => cases i <;> simp [List.modify]
  | cons a l ih =>
    cases i with
    | zero => simp [List.modify]; omega
    | succ i =>
      have := ih i
      simp only [List.modify_succ_cons, List.sum_cons, List.length_cons, this,
        Nat.succ_lt_succ_iff]
      omega

theorem addMore_sum (h : FreqHistogram) (sym count : Nat) :
    (h.addMore sym count).hist.sum
      = h.hist.sum + (if sym < h.hist.length then count else 0) := by
  unfold FreqHistogram.addMore
  exact modify_sum _ _ _

theorem tileStep_proj (K : Config) (s : ImageCMWriter) (hv : ValidDims K s) (acc : FilterScan)
    (hacc : ScanAgree K s acc) (t : Nat × Nat) (ht : t ∈ tileList s) :
    (tileStep K acc t).sf_hist
        = (if tileUsed K s t then acc.sf_hist.add (tileSf K s t) else acc.sf_hist)
      ∧ (tileStep K acc t).cf_hist
        = (if tileUsed K s t then acc.cf_hist.add (tileCf K s t) else acc.cf_hist)
      ∧ (tileStep K acc t).unused_count
        = (if tileUsed K s t then acc.unused_count else (acc.unused_count + 1) % 2 ^ 32) := by
  have hon : zoneOn K acc.writer (t.1 * K.FILTER_ZONE_SIZE) (t.2 * K.FILTER_ZONE_SIZE)
      = tileUsed K s t := zoneOn_congr K acc.writer s hacc.1 _ _
  unfold tileStep writeFiltersZone
  rw [hon]
  by_cases hu : tileUsed K s t = true
  · have he := scanAgree_used K s hv acc hacc t ht hu
    unfold tileEntry at he
    rw [hu]
    unfold tileSf tileCf tileEntry
    rw [if_pos rfl, if_pos rfl, if_pos rfl, if_pos rfl, he]
    exact ⟨rfl, rfl, rfl⟩
  · have hu2 : tileUsed K s t = false := by
      revert hu
      cases tileUsed K s t <;> simp
    rw [hu2, if_neg (by decide), if_neg (by decide), if_neg (by decide), if_neg (by decide)]
    exact ⟨rfl, rfl, rfl⟩

theorem scan_counts (K : Config) (s : ImageCMWriter) (hv : ValidDims K s)
    (L : List (Nat × Nat)) (hL : ∀ t ∈ L, t ∈ tileList s) :
    ∀ acc : FilterScan, ScanAgree K s acc → acc.unused_count < 2 ^ 32 →
      ScanAgree K s (L.foldl (tileStep K) acc)
        ∧ (L.foldl (tileStep K) acc).sf_hist.hist.length = acc.sf_hist.hist.length
        ∧ (L.foldl (tileStep K) acc).cf_hist.hist.length = acc.cf_hist.hist.length
        ∧ (∀ sym, sym < acc.sf_hist.hist.length →
            (L.foldl (tileStep K) acc).sf_hist.hist.getD sym 0
              = acc.sf_hist.hist.getD sym 0
                + L.countP (fun t => tileUsed K s t && tileSf K s t == sym))
        ∧ (∀ sym, sym < acc.cf_hist.hist.length →
            (L.foldl (tileStep K) acc).cf_hist.hist.getD sym 0
              = acc.cf_hist.hist.getD sym 0
                + L.countP (fun t => tileUsed K s t && tileCf K s t == sym))
        ∧ (L.foldl (tileStep K) acc).unused_count
          = (acc.unused_count + L.countP (fun t => !tileUsed K s t)) % 2 ^ 32
        ∧ ((∀ t ∈ L, tileUsed K s t = true → tileSf K s t < acc.sf_hist.hist.length) →
            (L.foldl (tileStep K) acc).sf_hist.hist.sum
              = acc.sf_hist.hist.sum + L.countP (tileUsed K s))
        ∧ ((∀ t ∈ L, tileUsed K s t = true → tileCf K s t < acc.cf_hist.hist.length) →
            (L.foldl (tileStep K) acc).cf_hist.hist.sum
              = acc.cf_hist.hist.sum + L.countP (tileUsed K s)) := by
  induction L with
  | nil =>
    intro acc hacc hlt
    refine ⟨hacc, rfl, rfl, fun _ _ => rfl, fun _ _ => rfl, ?_, fun _ => rfl, fun _ => rfl⟩
    simp only [List.foldl_nil, List.countP_nil, Nat.add_zero]
    exact (Nat.mod_eq_of_lt hlt).symm
  | cons t L ih =>
    intro acc hacc hlt
    have ht := hL t (List.mem_cons_self t L)
    obtain ⟨p1, p2, p3⟩ := tileStep_proj K s hv acc hacc t ht
    have hacc' := tileStep_agree K s hv acc hacc t ht
    have hlt' : (tileStep K acc t).unused_count < 2 ^ 32 := by
      rw [p3]
      split
      · exact hlt
      · exact Nat.mod_lt _ (by decide)
    obtain ⟨q1, q2, q3, q4, q5, q6, q7, q8⟩ :=
      ih (fun t' ht' => hL t' (List.mem_cons_of_mem t ht')) (tileStep K acc t) hacc' hlt'
    rw [List.foldl_cons]
    have hls : (tileStep K acc t).sf_hist.hist.length = acc.sf_hist.hist.length := by
      rw [p1]
      split
      · unfold FreqHistogram.add
        exact addMore_length _ _ _
      · rfl
    have hlc : (tileStep K acc t).cf_hist.hist.length = acc.cf_hist.hist.length := by
      rw [p2]
      split
      · unfold FreqHistogram.add
        exact addMore_length _ _ _
      · rfl
    refine ⟨q1, by rw [q2, hls], by rw [q3, hlc], ?_, ?_, ?_, ?_, ?_⟩
    · intro sym hsym
      rw [q4 sym (by rw [hls]; exact hsym), p1, List.countP_cons]
      by_cases hu : tileUsed K s t = true
      · simp only [hu, if_true, Bool.true_and]
        unfold FreqHistogram.add
        rw [addMore_getD]
        by_cases e : tileSf K s t = sym
        · simp [e, hsym]
          omega
        · simp [e]
      · simp [hu]
    · intro sym hsym
      rw [q5 sym (by rw [hlc]; exact hsym), p2, List.countP_cons]
      by_cases hu : tileUsed K s t = true
      · simp only [hu, if_true, Bool.true_and]
        unfold FreqHistogram.add
        rw [addMore_getD]
        by_cases e : tileCf K s t = sym
        · simp [e, hsym]
          omega
        · simp [e]
      · simp [hu]
    · rw [q6, p3, List.countP_cons]
      cases hu : tileUsed K s t
      · simp only [Bool.false_eq_true, if_false, Bool.not_false, if_true]
        omega
      · simp only [if_true, Bool.not_true, Bool.false_eq_true, if_false, Nat.add_zero]
    · intro hval
      rw [q7 (fun t' ht' hu' => by
        rw [hls]
        exact hval t' (List.mem_cons_of_mem t ht') hu'), p1, List.countP_cons]
      by_cases hu : tileUsed K s t = true
      · simp only [hu, if_true]
        unfold FreqHistogram.add
        rw [addMore_sum, if_pos (hval t (List.mem_cons_self t L) hu)]
        omega
      · simp [hu]
    · intro hval
      rw [q8 (fun t' ht' hu' => by
        rw [hlc]
        exact hval t' (List.mem_cons_of_mem t ht') hu'), p2, List.countP_cons]
      by_cases hu : tileUsed K s t = true
      · simp only [hu, if_true]
        unfold FreqHistogram.add
        rw [addMore_sum, if_pos (hval t (List.mem_cons_self t L) hu)]
        omega
      · simp [hu]

theorem tileMapStream_tiles (K : Config) (s : ImageCMWriter) :
    tileMapStream K s = (tileList s).flatMap fun t => tilePair K s t.1 t.2 := by
  unfold tileMapStream tileList
  rw [List.flatMap_assoc]
  congr 1
  funext ty
  rw [List.flatMap_map]

theorem tilePair_written (K : Config) (s : ImageCMWriter) (t : Nat × Nat) :
    tilePair K s t.1 t.2
      = [WriteEvent.sfSymbol (writtenSf K s t), WriteEvent.cfSymbol (writtenCf K s t)] := by
  unfold tilePair writtenSf writtenCf
  split <;> rfl

theorem count_tilePairs (K : Config) (s : ImageCMWriter) (L : List (Nat × Nat)) (sym : Nat) :
    (L.flatMap fun t => tilePair K s t.1 t.2).count (WriteEvent.sfSymbol sym)
        = L.countP (fun t => writtenSf K s t == sym)
      ∧ (L.flatMap fun t => tilePair K s t.1 t.2).count (WriteEvent.cfSymbol sym)
        = L.countP (fun t => writtenCf K s t == sym) := by
  induction L with
  | nil => exact ⟨rfl, rfl⟩
  | cons t L ih =>
    rw [List.flatMap_cons, List.count_append, List.count_append, ih.1, ih.2,
      List.countP_cons, List.countP_cons, tilePair_written]
    constructor
    · by_cases e : writtenSf K s t = sym
      · simp [e, List.count_cons]
        omega
      · simp [e, List.count_cons]
    · by_cases e : writtenCf K s t = sym
      · simp [e, List.count_cons]
        omega
      · simp [e, List.count_cons]

theorem countP_split (L : List (Nat × Nat)) (u : Nat × Nat → Bool) (f : Nat × Nat → Nat)
    (peak sym : Nat) :
    L.countP (fun t => (if u t then f t else peak) == sym)
      = L.countP (fun t => u t && f t == sym)
        + (if peak = sym then L.countP (fun t => !u t) else 0) := by
  induction L with
  | nil => simp
  | cons t L ih =>
    rw [List.countP_cons, List.countP_cons, List.countP_cons, ih]
    cases hu : u t
    · by_cases e : peak = sym
      · simp [e]
        omega
      · simp [e]
    · by_cases e : peak = sym
      · simp [e]
        omega
      · simp [e]

theorem countP_used_unused (L : List (Nat × Nat)) (u : Nat × Nat → Bool) :
    L.countP u + L.countP (fun t => !u t) = L.length := by
  induction L with
  | nil => rfl
  | cons t L ih =>
    rw [List.countP_cons, List.countP_cons, List.length_cons]
    cases hu : u t
    · simp
      omega
    · simp
      omega

theorem writeFilters_unused_syms (K : Config) (s : ImageCMWriter) (writer : List WriteEvent) :
    (s.writeFilters K writer).2.1._sf_unused_sym
        = (writeFiltersScan K s).sf_hist.firstHighestPeak
      ∧ (s.writeFilters K writer).2.1._cf_unused_sym
        = (writeFiltersScan K s).cf_hist.firstHighestPeak
      ∧ ((s.writeFilters K writer).1 = true →
          (s.writeFilters K writer).2.1._sf_encoder = some (sfHistogram K s)
          ∧ (s.writeFilters K writer).2.1._cf_encoder = some (cfHistogram K s)
          ∧ (s.writeFilters K writer).2.2
            = writer ++ [WriteEvent.sfTable (sfHistogram K s),
                WriteEvent.cfTable (cfHistogram K s)]) := by
  unfold ImageCMWriter.writeFilters sfHistogram cfHistogram
  lift_lets
  extract_lets scan s1 s2 s3 sf_hist cf_hist s4 s5
  split
  · exact ⟨rfl, rfl, fun h => Bool.noConfusion h⟩
  · split
    · exact ⟨rfl, rfl, fun h => Bool.noConfusion h⟩
    · exact ⟨rfl, rfl, fun _ => ⟨rfl, rfl, rfl⟩⟩

theorem written_syms (K : Config) (s : ImageCMWriter) (writer : List WriteEvent)
    (hv : ValidDims K s) (hm : s._matrix.isSome = true)
    (hvalid : ∀ tx ty, tx < s._w → ty < s._h → ValidEntry K (tileEntry K s tx ty))
    (hSF : 0 < K.SF_COUNT) (hSF2 : K.SF_COUNT ≤ 256) (hCF : 0 < K.CF_COUNT)
    (hCF2 : K.CF_COUNT ≤ 256) (hU : K.UNUSED_FILTER < 65536)
    (hNV : ¬ ValidEntry K K.UNUSED_FILTER) (t : Nat × Nat) (ht : t ∈ tileList s) :
    writtenSf K (s.writeFilters K writer).2.1 t
        = (if tileUsed K s t then tileSf K s t
            else (writeFiltersScan K s).sf_hist.firstHighestPeak)
      ∧ writtenCf K (s.writeFilters K writer).2.1 t
        = (if tileUsed K s t then tileCf K s t
            else (writeFiltersScan K s).cf_hist.firstHighestPeak)
      ∧ tileSf K s t < K.SF_COUNT ∧ tileCf K s t < K.CF_COUNT
      ∧ (writeFiltersScan K s).sf_hist.firstHighestPeak < K.SF_COUNT
      ∧ (writeFiltersScan K s).cf_hist.firstHighestPeak < K.CF_COUNT := by
  obtain ⟨h1, h2⟩ := (mem_tileList s t).mp ht
  obtain ⟨l1, l2, -⟩ := writeFiltersScan_hist K s
  have p1 := firstHighestPeak_lt (writeFiltersScan K s).sf_hist (by rw [l1]; exact hSF)
  have p2 := firstHighestPeak_lt (writeFiltersScan K s).cf_hist (by rw [l2]; exact hCF)
  rw [l1] at p1
  rw [l2] at p2
  obtain ⟨u1, u2, -⟩ := writeFilters_unused_syms K s writer
  obtain ⟨v1, v2⟩ := hvalid t.1 t.2 h1 h2
  have hagree : ScanAgree K s (writeFiltersScan K s) := writeFiltersScan_inv K s hv
  have hentry : tileEntry K (s.writeFilters K writer).2.1 t.1 t.2
      = tileEntry K (writeFiltersScan K s).writer t.1 t.2 := by
    unfold tileEntry
    exact writeFilters_getFilter K s writer _ _
  have hlt : tileEntry K s t.1 t.2 < 65536 := getFilter_lt K s _ _
  refine ⟨?_, ?_, v1, v2, p1, p2⟩
  · unfold writtenSf
    rw [hentry, u1]
    cases hu : tileUsed K s t
    · have hcov : tileCovered K s t.1 t.2 := fun ii jj hii hjj =>
        zoneOn_false K s _ _ ii jj hu hii hjj
      rw [writeFiltersScan_unused K s hv hm t.1 t.2 h1 h2 hcov, Nat.mod_eq_of_lt hU,
        if_pos rfl, if_neg (by decide), Nat.mod_eq_of_lt (by omega)]
    · rw [scanAgree_used K s hv _ hagree t ht hu, if_pos rfl, if_neg]
      · unfold tileSf
        rw [Nat.shiftRight_eq_div_pow]
        omega
      · intro he
        apply hNV
        rw [← he]
        exact ⟨v1, v2⟩
  · unfold writtenCf
    rw [hentry, u2]
    cases hu : tileUsed K s t
    · have hcov : tileCovered K s t.1 t.2 := fun ii jj hii hjj =>
        zoneOn_false K s _ _ ii jj hu hii hjj
      rw [writeFiltersScan_unused K s hv hm t.1 t.2 h1 h2 hcov, Nat.mod_eq_of_lt hU,
        if_pos rfl, if_neg (by decide), Nat.mod_eq_of_lt (by omega)]
    · rw [scanAgree_used K s hv _ hagree t ht hu, if_pos rfl, if_neg]
      · unfold tileCf
        exact Nat.and_pow_two_sub_one_eq_mod _ 8
      · intro he
        apply hNV
        rw [← he]
        exact ⟨v1, v2⟩

theorem scan_totals (K : Config) (s : ImageCMWriter) (hv : ValidDims K s)
    (hvalid : ∀ tx ty, tx < s._w → ty < s._h → ValidEntry K (tileEntry K s tx ty))
    (hcount : s._w * s._h < 2 ^ 32) :
    (∀ sym, sym < K.SF_COUNT →
        (writeFiltersScan K s).sf_hist.hist.getD sym 0
          = (tileList s).countP (fun t => tileUsed K s t && tileSf K s t == sym))
      ∧ (∀ sym, sym < K.CF_COUNT →
        (writeFiltersScan K s).cf_hist.hist.getD sym 0
          = (tileList s).countP (fun t => tileUsed K s t && tileCf K s t == sym))
      ∧ (writeFiltersScan K s).unused_count = (tileList s).countP (fun t => !tileUsed K s t)
      ∧ (writeFiltersScan K s).sf_hist.hist.sum = (tileList s).countP (tileUsed K s)
      ∧ (writeFiltersScan K s).cf_hist.hist.sum = (tileList s).countP (tileUsed K s) := by
  have h := scan_counts K s hv (tileList s) (fun t ht => ht)
    { writer := s, sf_hist := FreqHistogram.init K.SF_COUNT,
      cf_hist := FreqHistogram.init K.CF_COUNT, unused_count := 0 }
    ⟨sameButMatrix_refl s, fun _ _ _ _ _ => rfl⟩ (Nat.pos_pow_of_pos 32 (by decide))
  rw [← writeFiltersScan_tiles K s hv] at h
  obtain ⟨-, -, -, q4, q5, q6, q7, q8⟩ := h
  have hinit : ∀ n sym, (FreqHistogram.init n).hist.getD sym 0 = 0 := by
    intro n sym
    unfold FreqHistogram.init
    rw [List.getD_eq_getElem?_getD, List.getElem?_replicate]
    split <;> rfl
  have hlen : ∀ n, (FreqHistogram.init n).hist.length = n := by
    intro n
    simp [FreqHistogram.init]
  have hsum : ∀ n, (FreqHistogram.init n).hist.sum = 0 := by
    intro n
    simp [FreqHistogram.init]
  have hle : (tileList s).countP (fun t => !tileUsed K s t) ≤ s._w * s._h := by
    rw [← tileList_length]
    exact List.countP_le_length _
  refine ⟨?_, ?_, ?_, ?_, ?_⟩
  · intro sym hsym
    have := q4 sym (by rw [hlen]; exact hsym)
    rw [hinit, Nat.zero_add] at this
    exact this
  · intro sym hsym
    have := q5 sym (by rw [hlen]; exact hsym)
    rw [hinit, Nat.zero_add] at this
    exact this
  · rw [q6, Nat.zero_add]
    exact Nat.mod_eq_of_lt (by omega)
  · have := q7 (fun t ht _ => by
      rw [hlen]
      exact (hvalid t.1 t.2 ((mem_tileList s t).mp ht).1 ((mem_tileList s t).mp ht).2).1)
    rw [hsum, Nat.zero_add] at this
    exact this
  · have := q8 (fun t ht _ => by
      rw [hlen]
      exact (hvalid t.1 t.2 ((mem_tileList s t).mp ht).1 ((mem_tileList s t).mp ht).2).2)
    rw [hsum, Nat.zero_add] at this
    exact this

theorem writeFilters_frequency (K : Config) (s : ImageCMWriter) (writer : List WriteEvent)
    (hv : ValidDims K s) (hm : s._matrix.isSome = true)
    (hvalid : ∀ tx ty, tx < s._w → ty < s._h → ValidEntry K (tileEntry K s tx ty))
    (hSF : 0 < K.SF_COUNT) (hSF2 : K.SF_COUNT ≤ 256) (hCF : 0 < K.CF_COUNT)
    (hCF2 : K.CF_COUNT ≤ 256) (hU : K.UNUSED_FILTER < 65536)
    (hNV : ¬ ValidEntry K K.UNUSED_FILTER) (hcount : s._w * s._h < 2 ^ 32) :
    (∀ sym, (sfHistogram K s).getD sym 0
        = (tileMapStream K (s.writeFilters K writer).2.1).count (WriteEvent.sfSymbol sym))
      ∧ (∀ sym, (cfHistogram K s).getD sym 0
        = (tileMapStream K (s.writeFilters K writer).2.1).count (WriteEvent.cfSymbol sym))
      ∧ (sfHistogram K s).sum = s._w * s._h
      ∧ (cfHistogram K s).sum = s._w * s._h := by
  obtain ⟨t1, t2, t3, t4, t5⟩ := scan_totals K s hv hvalid hcount
  obtain ⟨l1, l2, -⟩ := writeFiltersScan_hist K s
  obtain ⟨-, -, u3, u4, -⟩ := writeFilters_tilemap K s writer hSF hCF hv
  have hws := written_syms K s writer hv hm hvalid hSF hSF2 hCF hCF2 hU hNV
  have hTL : tileList (s.writeFilters K writer).2.1 = tileList s := by
    unfold tileList
    rw [u3, u4]
  have hp1 : (writeFiltersScan K s).sf_hist.firstHighestPeak < K.SF_COUNT := by
    have := firstHighestPeak_lt (writeFiltersScan K s).sf_hist (by rw [l1]; exact hSF)
    rw [l1] at this
    exact this
  have hp2 : (writeFiltersScan K s).cf_hist.firstHighestPeak < K.CF_COUNT := by
    have := firstHighestPeak_lt (writeFiltersScan K s).cf_hist (by rw [l2]; exact hCF)
    rw [l2] at this
    exact this
  have hsplit := countP_used_unused (tileList s) (tileUsed K s)
  have hlen := tileList_length s
  refine ⟨?_, ?_, ?_, ?_⟩
  · intro sym
    rw [tileMapStream_tiles, hTL, (count_tilePairs K _ (tileList s) sym).1,
      List.countP_congr (fun t ht => by rw [(hws t ht).1]), countP_split]
    unfold sfHistogram
    rw [addMore_getD, l1, t3]
    by_cases hsym : sym < K.SF_COUNT
    · rw [t1 sym hsym]
      by_cases e : (writeFiltersScan K s).sf_hist.firstHighestPeak = sym
      · rw [if_pos ⟨e, hsym⟩, if_pos e]
      · rw [if_neg (fun h => e h.1), if_neg e]
    · rw [List.getD_eq_default _ _ (by rw [l1]; omega), if_neg (fun h => hsym h.2),
        if_neg (by omega)]
      symm
      rw [Nat.zero_add, Nat.add_zero, List.countP_eq_zero]
      intro t ht
      have := (hws t ht).2.2.1
      simp only [Bool.and_eq_true, beq_iff_eq, not_and]
      intro _
      omega
  · intro sym
    rw [tileMapStream_tiles, hTL, (count_tilePairs K _ (tileList s) sym).2,
      List.countP_congr (fun t ht => by rw [(hws t ht).2.1]), countP_split]
    unfold cfHistogram
    rw [addMore_getD, l2, t3]
    by_cases hsym : sym < K.CF_COUNT
    · rw [t2 sym hsym]
      by_cases e : (writeFiltersScan K s).cf_hist.firstHighestPeak = sym
      · rw [if_pos ⟨e, hsym⟩, if_pos e]
      · rw [if_neg (fun h => e h.1), if_neg e]
    · rw [List.getD_eq_default _ _ (by rw [l2]; omega), if_neg (fun h => hsym h.2),
        if_neg (by omega)]
      symm
      rw [Nat.zero_add, Nat.add_zero, List.countP_eq_zero]
      intro t ht
      have := (hws t ht).2.2.2.1
      simp only [Bool.and_eq_true, beq_iff_eq, not_and]
      intro _
      omega
  · unfold sfHistogram
    rw [addMore_sum, l1, if_pos hp1, t4, t3]
    omega
  · unfold cfHistogram
    rw [addMore_sum, l2, if_pos hp2, t5, t3]
    omega

theorem decideFilters_isSome (K : Config) (s : ImageCMWriter) :
    (s.decideFilters K)._matrix.isSome = s._matrix.isSome := by
  unfold ImageCMWriter.decideFilters
  lift_lets
  extract_lets ee0
  apply foldl_invariant
    (fun acc : ImageCMWriter × (Nat → EntropyEstimator) =>
      acc.1._matrix.isSome = s._matrix.isSome)
  · rfl
  · intro acc zy _ hacc
    apply foldl_invariant
      (fun acc : ImageCMWriter × (Nat → EntropyEstimator) =>
        acc.1._matrix.isSome = s._matrix.isSome)
    · exact hacc
    · intro acc zx _ hacc
      rw [← hacc]
      exact setFilter_isSome K acc.1 zx zy _

/-- C22: let the catalogue sizes satisfy `0 < SF_COUNT <= 256` and `0 < CF_COUNT <= 256`,
let `UNUSED_FILTER` be a 16-bit value that is not a valid filter word, and let the number
of tiles be below `2 ^ 32`.  After a successful `initFromRGBA`, the histogram that
`writeFilters` hands to the SF Huffman builder holds for every symbol the number of tiles
for which `writeChaos` writes that symbol (the pairs of all tiles are the tile-map symbols
that `write` emits), so a written symbol has a non-zero frequency and the frequencies sum
to `_w * _h`; the same holds for CF.  When `writeFilters` succeeds, these histograms are
the ones the two encoders are built from and the ones of the two tables written. -/
theorem surrogate_frequency (K : Config) (s : ImageCMWriter) (rgba : Mem)
    (width height : Int) (mask lz : Nat → Nat → Bool) (heapMatrix : Int → Nat)
    (heapChaos : Mem) (writer : List WriteEvent)
    (hSF : 0 < K.SF_COUNT) (hSF2 : K.SF_COUNT ≤ 256) (hCF : 0 < K.CF_COUNT)
    (hCF2 : K.CF_COUNT ≤ 256) (hU : K.UNUSED_FILTER < 65536)
    (hNV : ¬ ValidEntry K K.UNUSED_FILTER)
    (hok : (s.initFromRGBA K rgba width height mask lz heapMatrix heapChaos).1
      = WriterResult.WE_OK)
    (hcount : (s.initFromRGBA K rgba width height mask lz heapMatrix heapChaos).2._w
      * (s.initFromRGBA K rgba width height mask lz heapMatrix heapChaos).2._h < 2 ^ 32) :
    (∀ sym,
        (sfHistogram K (s.initFromRGBA K rgba width height mask lz heapMatrix heapChaos).2).getD
            sym 0
          = (tileMapStream K
              ((s.initFromRGBA K rgba width height mask lz heapMatrix heapChaos).2.writeFilters
                K writer).2.1).count (WriteEvent.sfSymbol sym))
      ∧ (∀ sym,
        (cfHistogram K (s.initFromRGBA K rgba width height mask lz heapMatrix heapChaos).2).getD
            sym 0
          = (tileMapStream K
              ((s.initFromRGBA K rgba width height mask lz heapMatrix heapChaos).2.writeFilters
                K writer).2.1).count (WriteEvent.cfSymbol sym))
      ∧ (sfHistogram K (s.initFromRGBA K rgba width height mask lz heapMatrix heapChaos).2).sum
        = (s.initFromRGBA K rgba width height mask lz heapMatrix heapChaos).2._w
          * (s.initFromRGBA K rgba width height mask lz heapMatrix heapChaos).2._h
      ∧ (cfHistogram K (s.initFromRGBA K rgba width height mask lz heapMatrix heapChaos).2).sum
        = (s.initFromRGBA K rgba width height mask lz heapMatrix heapChaos).2._w
          * (s.initFromRGBA K rgba width height mask lz heapMatrix heapChaos).2._h
      ∧ tileEventsOf
          ((s.initFromRGBA K rgba width height mask lz heapMatrix heapChaos).2.write K writer).2
        = tileEventsOf writer
          ++ tileMapStream K
              ((s.initFromRGBA K rgba width height mask lz heapMatrix heapChaos).2.writeFilters
                K writer).2.1
      ∧ (((s.initFromRGBA K rgba width height mask lz heapMatrix heapChaos).2.writeFilters K
            writer).1 = true →
          ((s.initFromRGBA K rgba width height mask lz heapMatrix heapChaos).2.writeFilters K
              writer).2.1._sf_encoder
            = some (sfHistogram K
                (s.initFromRGBA K rgba width height mask lz heapMatrix heapChaos).2)
          ∧ ((s.initFromRGBA K rgba width height mask lz heapMatrix heapChaos).2.writeFilters K
              writer).2.1._cf_encoder
            = some (cfHistogram K
                (s.initFromRGBA K rgba width height mask lz heapMatrix heapChaos).2)
          ∧ ((s.initFromRGBA K rgba width height mask lz heapMatrix heapChaos).2.writeFilters K
              writer).2.2
            = writer ++ [WriteEvent.sfTable (sfHistogram K
                  (s.initFromRGBA K rgba width height mask lz heapMatrix heapChaos).2),
                WriteEvent.cfTable (cfHistogram K
                  (s.initFromRGBA K rgba width height mask lz heapMatrix heapChaos).2)])
      ∧ (∀ sym,
          WriteEvent.sfSymbol sym ∈ tileMapStream K
              ((s.initFromRGBA K rgba width height mask lz heapMatrix heapChaos).2.writeFilters
                K writer).2.1 →
          0 < (sfHistogram K
            (s.initFromRGBA K rgba width height mask lz heapMatrix heapChaos).2).getD sym 0)
      ∧ (∀ sym,
          WriteEvent.cfSymbol sym ∈ tileMapStream K
              ((s.initFromRGBA K rgba width height mask lz heapMatrix heapChaos).2.writeFilters
                K writer).2.1 →
          0 < (cfHistogram K
            (s.initFromRGBA K rgba width height mask lz heapMatrix heapChaos).2).getD sym
              0) := by
  obtain ⟨hinit, hs1⟩ := initFromRGBA_ok K s rgba width height mask lz heapMatrix heapChaos hok
  obtain ⟨hc, -, hv, -, -, -⟩ :=
    statsInput_fields K s rgba width height mask lz heapMatrix heapChaos hinit
  have hvalid := statsInput_valid K s rgba width height mask lz heapMatrix heapChaos hSF hCF
    hCF2 hinit
  have hsome : (statsInput K s rgba width height mask lz heapMatrix heapChaos)._matrix.isSome
      = true := by
    obtain ⟨-, hst⟩ := init_ok_state K s width height heapMatrix heapChaos hinit
    unfold statsInput
    rw [decideFilters_isSome, hst]
    rfl
  rw [hs1] at hcount ⊢
  generalize statsInput K s rgba width height mask lz heapMatrix heapChaos = sD at *
  have hst := chaosStats_state K sD heapChaos hc
  generalize hs1' : sD.chaosStats K = s1 at *
  have hv1 : ValidDims K s1 := by rw [hst]; exact hv
  have hm1 : s1._matrix.isSome = true := by rw [hst]; exact hsome
  have hvalid1 : ∀ tx ty, tx < s1._w → ty < s1._h → ValidEntry K (tileEntry K s1 tx ty) := by
    intro tx ty htx hty
    rw [hst] at htx hty ⊢
    exact hvalid tx ty htx hty
  obtain ⟨f1, f2, f3, f4⟩ := writeFilters_frequency K s1 writer hv1 hm1 hvalid1 hSF hSF2 hCF
    hCF2 hU hNV hcount
  obtain ⟨w1, -, w3, -, -⟩ := writeFilters_inv K s1 writer hv1
  obtain ⟨-, -, u3, u4, u5⟩ := writeFilters_tilemap K s1 writer hSF hCF hv1
  have hv2 : ValidDims K (s1.writeFilters K writer).2.1 := by
    unfold ValidDims
    rw [u3, u4, ← w1.2.1, ← w1.2.2.1]
    exact hv1
  have hch : (s1.writeFilters K writer).2.1._chaos
      = some (chaosStatsRows K sD sD._height (chaosStatsStart K sD heapChaos)).1 := by
    rw [w3, hst]
  have htiles := writeChaos_tileEvents K (s1.writeFilters K writer).2.1 _
    (s1.writeFilters K writer).2.2 hv2 hch
  rw [u5] at htiles
  refine ⟨f1, f2, f3, f4, htiles, (writeFilters_unused_syms K s1 writer).2.2, ?_, ?_⟩
  · intro sym hmem
    rw [f1 sym]
    exact List.count_pos_iff.mpr hmem
  · intro sym hmem
    rw [f2 sym]
    exact List.count_pos_iff.mpr hmem

set_option maxRecDepth 1000000 in
/-- Witness of C22: the sample image taken as 16 x 8 pixels has two tiles; the first is used
and has the filter word 0, the second is fully covered by the mask and gets the surrogate
symbols: both histograms are `[2]`. -/
theorem surrogate_frequency_witness :
    (freshWriter.initFromRGBA demoConfig sampleImage 16 8 sampleMask sampleLz (fun _ => 0)
        (fun _ => 9)).1 = WriterResult.WE_OK
      ∧ sfHistogram demoConfig (freshWriter.initFromRGBA demoConfig sampleImage 16 8 sampleMask
          sampleLz (fun _ => 0) (fun _ => 9)).2 = [2]
      ∧ (tileList (freshWriter.initFromRGBA demoConfig sampleImage 16 8 sampleMask
          sampleLz (fun _ => 0) (fun _ => 9)).2).map (tileUsed demoConfig
            (freshWriter.initFromRGBA demoConfig sampleImage 16 8 sampleMask
              sampleLz (fun _ => 0) (fun _ => 9)).2) = [true, false]
      ∧ (sfHistogram demoConfig (freshWriter.initFromRGBA demoConfig sampleImage 16 8 sampleMask
          sampleLz (fun _ => 0) (fun _ => 9)).2).sum
        = (freshWriter.initFromRGBA demoConfig sampleImage 16 8 sampleMask sampleLz (fun _ => 0)
            (fun _ => 9)).2._w
          * (freshWriter.initFromRGBA demoConfig sampleImage 16 8 sampleMask sampleLz
            (fun _ => 0) (fun _ => 9)).2._h :=
  ⟨by decide, by decide, by decide,
    (surrogate_frequency demoConfig freshWriter sampleImage 16 8 sampleMask sampleLz
      (fun _ => 0) (fun _ => 9) [] (by decide) (by decide) (by decide) (by decide) (by decide)
      (fun h => absurd h.1 (by decide)) (by decide) (by decide)).2.2.1⟩

/-! ## Encoder: filter selection of the quality tier -/

end GCIF
